import Mathlib

/-!
# RomFS driver (`romfs_dev.cpp`): shallow embedding and verified properties

The driver targets the Wii U (32-bit big-endian PowerPC): `size_t`, `uintptr_t`
and `ssize_t` are 32 bits wide, `off_t` and the `uint64_t` header fields are 64
bits wide, and multi-byte record fields are read in native (big-endian) order.

Conventions of the embedding:
* a table is the list of its bytes; a `romfs_dir *` / `romfs_file *` is the
  byte offset of the record inside its table (`pointer - table base`);
* unsigned machine integers are `Nat` reduced modulo `2^32` / `2^64` wherever
  the C expression is evaluated in that width, signed ones are `Int`;
* loops that follow links stored in the image carry a fuel argument and
  return `none` when the fuel runs out.
-/

namespace Romfs

/-! ## Machine integers -/

/-- Number of values of a 32-bit unsigned integer (`uint32_t`, `size_t`). -/
def U32 : Nat := 2 ^ 32

/-- Number of values of a 64-bit unsigned integer (`uint64_t`). -/
def U64 : Nat := 2 ^ 64

/-- Conversion of an unsigned 32-bit value to `ssize_t` / `int32_t`. -/
def toInt32 (x : Nat) : Int :=
  if x % U32 < 2 ^ 31 then ((x % U32 : Nat) : Int) else ((x % U32 : Nat) : Int) - (U32 : Int)

/-- Conversion of an unsigned 64-bit value to `off_t` / `int64_t`. -/
def toInt64 (x : Nat) : Int :=
  if x % U64 < 2 ^ 63 then ((x % U64 : Nat) : Int) else ((x % U64 : Nat) : Int) - (U64 : Int)

/-- Conversion of a signed value to `uint64_t`. -/
def toUInt64 (x : Int) : Nat := (x % (U64 : Int)).toNat

/-- Result of a signed 64-bit operation, wrapped to the `int64_t` range. -/
def wrapInt64 (x : Int) : Int := toInt64 (toUInt64 x)

/-- The constant `INT64_MAX`. -/
def INT64_MAX : Int := 2 ^ 63 - 1

/-! ## Error numbers -/

deriving instance DecidableEq for Except

/-- The `errno` values the driver mentions or that the specification names. -/
inductive Errno where
  | EFAULT
  | ENOENT
  | EILSEQ
  | ENAMETOOLONG
  | EROFS
  | EEXIST
  | EIO
  | EINVAL
  | EOVERFLOW
  | EISDIR
  | ENOTDIR
  deriving DecidableEq, Repr

/-! ## Tables and records -/

/-- Byte `i` of a buffer; indices outside the buffer read as `0` (for a C
string this is its terminating NUL). -/
def byteAt (t : List Nat) (i : Nat) : Nat := t.getD i 0 % 256

/-- Native (big-endian) 32-bit load at byte index `i`. -/
def rd32 (t : List Nat) (i : Nat) : Nat :=
  byteAt t i * 2 ^ 24 + byteAt t (i + 1) * 2 ^ 16 + byteAt t (i + 2) * 2 ^ 8 + byteAt t (i + 3)

/-- Native (big-endian) 64-bit load at byte index `i`. -/
def rd64 (t : List Nat) (i : Nat) : Nat := rd32 t i * 2 ^ 32 + rd32 t (i + 4)

/-- The byte that a table pointer plus `i` addresses. The address is formed in
32 bits, so `i` counts modulo `2^32`: an index inside the table reads the
table; every other index addresses memory outside it, which `before` holds,
nearest byte first, going down from the start of the table (bytes that
`before` does not hold read as `0`). -/
def tableByte (before table : List Nat) (i : Nat) : Nat :=
  if i % U32 < table.length then byteAt table (i % U32)
  else byteAt before (U32 - 1 - i % U32)

/-- Native (big-endian) 32-bit load through a table pointer plus `i`. -/
def tbl32 (before table : List Nat) (i : Nat) : Nat :=
  tableByte before table i * 2 ^ 24 + tableByte before table (i + 1) * 2 ^ 16
    + tableByte before table (i + 2) * 2 ^ 8 + tableByte before table (i + 3)

/-- Native (big-endian) 64-bit load through a table pointer plus `i`. -/
def tbl64 (before table : List Nat) (i : Nat) : Nat :=
  tbl32 before table i * 2 ^ 32 + tbl32 before table (i + 4)

/-- The `romfs_header` structure (all table fields are `uint64_t`). -/
structure romfs_header where
  headerMagic : Nat
  headerSize : Nat
  dirHashTableOff : Nat
  dirHashTableSize : Nat
  dirTableOff : Nat
  dirTableSize : Nat
  fileHashTableOff : Nat
  fileHashTableSize : Nat
  fileTableOff : Nat
  fileTableSize : Nat
  fileDataOff : Nat
  deriving DecidableEq, Repr

/-- The kinds of byte source of a mount (`RomfsSource`); `other` stands for any
value of the enumeration parameter that is neither of the two named ones. -/
inductive RomfsSource where
  | FileDescriptor
  | FileDescriptor_CafeOS
  | other
  deriving DecidableEq, Repr

/-- The fields of `romfs_mount` that the filesystem operations use. The tables
are byte buffers; `cwd` is the offset of the current directory record.
`dirTableBefore` and `fileTableBefore` are not fields of the C structure: they
hold the memory outside the directory table and the file table (see
`tableByte`), which a record pointer formed from an offset near `2^32`
addresses. -/
structure romfs_mount where
  setup : Bool
  fd_type : RomfsSource
  mtime : Int
  offset : Nat
  header : romfs_header
  cwd : Nat
  dirHashTable : List Nat
  fileHashTable : List Nat
  dirTable : List Nat
  fileTable : List Nat
  name : List Nat
  dirTableBefore : List Nat := []
  fileTableBefore : List Nat := []
  deriving DecidableEq, Repr

/-- The value `romFS_none`, `(uint32_t) ~0`. -/
def romFS_none : Nat := 2 ^ 32 - 1

/-- The value `sizeof(romfs_dir)`. -/
def sizeof_romfs_dir : Nat := 24

/-- The value `sizeof(romfs_file)`. -/
def sizeof_romfs_file : Nat := 32

/-- Field `parent` of the directory record at `off`. -/
def dir_parent (m : romfs_mount) (off : Nat) : Nat :=
  tbl32 m.dirTableBefore m.dirTable off
/-- Field `sibling` of the directory record at `off`. -/
def dir_sibling (m : romfs_mount) (off : Nat) : Nat :=
  tbl32 m.dirTableBefore m.dirTable (off + 4)
/-- Field `childDir` of the directory record at `off`. -/
def dir_childDir (m : romfs_mount) (off : Nat) : Nat :=
  tbl32 m.dirTableBefore m.dirTable (off + 8)
/-- Field `childFile` of the directory record at `off`. -/
def dir_childFile (m : romfs_mount) (off : Nat) : Nat :=
  tbl32 m.dirTableBefore m.dirTable (off + 12)
/-- Field `nextHash` of the directory record at `off`. -/
def dir_nextHash (m : romfs_mount) (off : Nat) : Nat :=
  tbl32 m.dirTableBefore m.dirTable (off + 16)
/-- Field `nameLen` of the directory record at `off`. -/
def dir_nameLen (m : romfs_mount) (off : Nat) : Nat :=
  tbl32 m.dirTableBefore m.dirTable (off + 20)
/-- Byte `i` of the flexible member `name` of the directory record at `off`. -/
def dir_name (m : romfs_mount) (off : Nat) (i : Nat) : Nat :=
  tableByte m.dirTableBefore m.dirTable (off + 24 + i)

/-- Field `parent` of the file record at `off`. -/
def file_parent (m : romfs_mount) (off : Nat) : Nat :=
  tbl32 m.fileTableBefore m.fileTable off
/-- Field `sibling` of the file record at `off`. -/
def file_sibling (m : romfs_mount) (off : Nat) : Nat :=
  tbl32 m.fileTableBefore m.fileTable (off + 4)
/-- Field `dataOff` of the file record at `off`. -/
def file_dataOff (m : romfs_mount) (off : Nat) : Nat :=
  tbl64 m.fileTableBefore m.fileTable (off + 8)
/-- Field `dataSize` of the file record at `off`. -/
def file_dataSize (m : romfs_mount) (off : Nat) : Nat :=
  tbl64 m.fileTableBefore m.fileTable (off + 16)
/-- Field `nextHash` of the file record at `off`. -/
def file_nextHash (m : romfs_mount) (off : Nat) : Nat :=
  tbl32 m.fileTableBefore m.fileTable (off + 24)
/-- Field `nameLen` of the file record at `off`. -/
def file_nameLen (m : romfs_mount) (off : Nat) : Nat :=
  tbl32 m.fileTableBefore m.fileTable (off + 28)
/-- Byte `i` of the flexible member `name` of the file record at `off`. -/
def file_name (m : romfs_mount) (off : Nat) (i : Nat) : Nat :=
  tableByte m.fileTableBefore m.fileTable (off + 32 + i)

/-- The macro `romFS_root`: the record at the start of the directory table. -/
def romFS_root (_m : romfs_mount) : Nat := 0

/-- The accessor `romFS_dir`. Both sums are formed in 32 bits (`uint32_t` plus
`size_t`) and only then compared with the 64-bit table size; `nameLen` is read
through the 32-bit pointer `dirTable + off` (see `tableByte`). -/
def romFS_dir (m : romfs_mount) (off : Nat) : Option Nat :=
  if (off + sizeof_romfs_dir) % U32 > m.header.dirTableSize then none
  else if (off + sizeof_romfs_dir + dir_nameLen m off) % U32 > m.header.dirTableSize then none
  else some off

/-- The accessor `romFS_file`, with the same 32-bit sums as `romFS_dir`. -/
def romFS_file (m : romfs_mount) (off : Nat) : Option Nat :=
  if (off + sizeof_romfs_file) % U32 > m.header.fileTableSize then none
  else if (off + sizeof_romfs_file + file_nameLen m off) % U32 > m.header.fileTableSize then none
  else some off

/-! ## Hashing and name comparison -/

/-- The function `normalizePathChar`: `c + 'A' - 'a'` for `'a' ≤ c ≤ 'z'`. -/
def normalizePathChar (c : Nat) : Nat :=
  if c ≥ 97 ∧ c ≤ 122 then (c + 65 - 97) % 256 else c

/-- The loop of `calcHash`: `n` iterations remain, `i` is the loop index. -/
def calcHashLoop (name : List Nat) : Nat → Nat → Nat → Nat
  | 0, _, hash => hash
  | n + 1, i, hash =>
    let hash1 := (hash >>> 5) ||| ((hash <<< 27) % U32)
    let hash2 := hash1 ^^^ normalizePathChar (byteAt name i)
    calcHashLoop name n (i + 1) hash2

/-- The function `calcHash` (all four parameters are `uint32_t`). For
`total = 0` the C remainder is undefined; here the hash is then left as is. -/
def calcHash (parent : Nat) (name : List Nat) (namelen : Nat) (total : Nat) : Nat :=
  calcHashLoop name namelen 0 (parent ^^^ 123456789) % total

/-- The loop of `comparePaths`: `n` iterations remain, `i` is the loop index. -/
def comparePathsLoop (name1 name2 : Nat → Nat) : Nat → Nat → Bool
  | 0, _ => true
  | n + 1, i =>
    if normalizePathChar (name1 i) != normalizePathChar (name2 i) then false
    else comparePathsLoop name1 name2 n (i + 1)

/-- The function `comparePaths`; a name is given by its byte at each index. -/
def comparePaths (name1 name2 : Nat → Nat) (namelen : Nat) : Bool :=
  comparePathsLoop name1 name2 namelen 0

/-! ### The hash function as the specification words it -/

/-- Rotation of a 32-bit value to the right by `k` bits. -/
def rotr32 (x k : Nat) : Nat := x / 2 ^ k + (x % 2 ^ k) * 2 ^ (32 - k)

/-- ASCII case folding: `a`..`z` become `A`..`Z`, other bytes are kept. -/
def foldCase (c : Nat) : Nat := if 97 ≤ c ∧ c ≤ 122 then c - 32 else c

/-- The specification's `foldHash`: from the seed, for each name byte in
order, rotate right by 5 bits and XOR in the case-folded byte. -/
def foldHash (seed : Nat) (name : List Nat) : Nat :=
  name.foldl (fun h c => rotr32 h 5 ^^^ foldCase c) seed

/-! ## Hash-chain lookup -/

/-- The loop of `searchForDir`, entered with the current chain offset. The
result is `none` when the fuel is used up before the loop leaves; otherwise it
is the function's return value: `.ok curDir` for `0` with `*out = curDir`,
`.error e` for the error number `e` with `*out = NULL`. -/
def searchForDirLoop (m : romfs_mount) (parentOff : Nat) (name : List Nat) (namelen : Nat) :
    Nat → Nat → Option (Except Errno Nat)
  | 0, _ => none
  | fuel + 1, curOff =>
    if curOff = romFS_none then some (.error Errno.ENOENT)
    else
      match romFS_dir m curOff with
      | none => some (.error Errno.EFAULT)
      | some curDir =>
        if dir_parent m curDir ≠ parentOff then
          searchForDirLoop m parentOff name namelen fuel (dir_nextHash m curDir)
        else if dir_nameLen m curDir ≠ namelen then
          searchForDirLoop m parentOff name namelen fuel (dir_nextHash m curDir)
        else if !comparePaths (dir_name m curDir) (byteAt name) namelen then
          searchForDirLoop m parentOff name namelen fuel (dir_nextHash m curDir)
        else some (.ok curDir)

/-- The bucket count handed to `calcHash` by `searchForDir`:
`dirHashTableSize / 4`, converted to the `uint32_t` parameter. -/
def dirHashTotal (m : romfs_mount) : Nat := (m.header.dirHashTableSize / 4) % U32

/-- The bucket count handed to `calcHash` by `searchForFile`. -/
def fileHashTotal (m : romfs_mount) : Nat := (m.header.fileHashTableSize / 4) % U32

/-- The function `searchForDir`; `parent` is the offset of the parent record,
so that `parentOff` is `parent` as a 32-bit pointer difference. -/
def searchForDir (fuel : Nat) (m : romfs_mount) (parent : Nat) (name : List Nat)
    (namelen : Nat) : Option (Except Errno Nat) :=
  let parentOff := parent % U32
  let hash := calcHash (parentOff % U32) name namelen (dirHashTotal m)
  searchForDirLoop m parentOff name namelen fuel (rd32 m.dirHashTable (4 * hash))

/-- The loop of `searchForFile` (see `searchForDirLoop`). -/
def searchForFileLoop (m : romfs_mount) (parentOff : Nat) (name : List Nat) (namelen : Nat) :
    Nat → Nat → Option (Except Errno Nat)
  | 0, _ => none
  | fuel + 1, curOff =>
    if curOff = romFS_none then some (.error Errno.ENOENT)
    else
      match romFS_file m curOff with
      | none => some (.error Errno.EFAULT)
      | some curFile =>
        if file_parent m curFile ≠ parentOff then
          searchForFileLoop m parentOff name namelen fuel (file_nextHash m curFile)
        else if file_nameLen m curFile ≠ namelen then
          searchForFileLoop m parentOff name namelen fuel (file_nextHash m curFile)
        else if !comparePaths (file_name m curFile) (byteAt name) namelen then
          searchForFileLoop m parentOff name namelen fuel (file_nextHash m curFile)
        else some (.ok curFile)

/-- The function `searchForFile`. -/
def searchForFile (fuel : Nat) (m : romfs_mount) (parent : Nat) (name : List Nat)
    (namelen : Nat) : Option (Except Errno Nat) :=
  let parentOff := parent % U32
  let hash := calcHash (parentOff % U32) name namelen (fileHashTotal m)
  searchForFileLoop m parentOff name namelen fuel (rd32 m.fileHashTable (4 * hash))

/-! ## Platform constants

The values of the libc constants and the widths of the libc types the driver
uses come from headers outside the repository; they are parameters. -/

/-- Constants and type widths of the C library the driver is built against. -/
structure Platform where
  PATH_MAX : Nat
  NAME_MAX : Nat
  O_ACCMODE : Nat
  O_RDONLY : Nat
  O_CREAT : Nat
  O_EXCL : Nat
  /-- Number of values of `nlink_t`. -/
  NLINK_MOD : Nat
  /-- Number of values of `ino_t`. -/
  INO_MOD : Nat
  deriving DecidableEq, Repr

/-- The values the examples use (newlib's `PATH_MAX`, `NAME_MAX` and `fcntl.h`
flags, a 16-bit `nlink_t` and a 32-bit `ino_t`). -/
def newlibPlatform : Platform where
  PATH_MAX := 1024
  NAME_MAX := 255
  O_ACCMODE := 3
  O_RDONLY := 0
  O_CREAT := 0x200
  O_EXCL := 0x800
  NLINK_MOD := 2 ^ 16
  INO_MOD := 2 ^ 32

/-! ## Path resolution -/

/-- A C string is the list of its bytes before the terminating NUL;
`strchr s c` is the index of the first occurrence of `c`, if any. -/
def strchr : List Nat → Nat → Option Nat
  | [], _ => none
  | x :: xs, c => if x = c then some 0 else (strchr xs c).map (fun i => i + 1)

/-- The length of a C string (`strlen`). -/
def strlen (s : List Nat) : Nat := s.length

/-- The `while (**pPath)` loop of `navigateToDir`. `n` bounds the number of
iterations (each one consumes at least one byte of the path), `fuel` is the
fuel of every hash-chain search. The result is `.ok (dir, rest)` for return
value `0` with `*ppDir = dir` and `*pPath = rest`. -/
def navigateLoop (P : Platform) (fuel : Nat) (m : romfs_mount) (isDir : Bool) :
    Nat → Nat → List Nat → Option (Except Errno (Nat × List Nat))
  | 0, _, _ => none
  | n + 1, dir, path =>
    if path = [] then some (.ok (dir, path))
    else
      let step : Option (Except Errno (List Nat × List Nat)) :=
        match strchr path 47 with
        | some slashPos =>
          let len := slashPos % U32
          if len = 0 then some (.error Errno.EILSEQ)
          else if len > P.PATH_MAX then some (.error Errno.ENAMETOOLONG)
          else some (.ok (path.take len, path.drop (slashPos + 1)))
        | none =>
          if isDir then some (.ok (path, path.drop (strlen path)))
          else none
      match step with
      | none => some (.ok (dir, path))
      | some (.error e) => some (.error e)
      | some (.ok (component, rest)) =>
        if byteAt component 0 = 46 ∧ byteAt component 1 = 0 then
          navigateLoop P fuel m isDir n dir rest
        else if byteAt component 0 = 46 ∧ byteAt component 1 = 46 ∧ byteAt component 2 = 0 then
          match romFS_dir m (dir_parent m dir) with
          | none => some (.error Errno.EFAULT)
          | some d => navigateLoop P fuel m isDir n d rest
        else
          match searchForDir fuel m dir component (strlen component % U32) with
          | none => none
          | some (.error e) => some (.error e)
          | some (.ok d) => navigateLoop P fuel m isDir n d rest

/-- The text of the path after the first `:` (the whole path without one). -/
def stripDevice (path : List Nat) : List Nat :=
  match strchr path 58 with
  | some colonPos => path.drop (colonPos + 1)
  | none => path

/-- The function `navigateToDir`. -/
def navigateToDir (P : Platform) (fuel : Nat) (m : romfs_mount) (path : List Nat)
    (isDir : Bool) : Option (Except Errno (Nat × List Nat)) :=
  let path1 := stripDevice path
  if path1 = [] then some (.error Errno.EILSEQ)
  else
    if byteAt path1 0 = 47 then
      navigateLoop P fuel m isDir (path1.drop 1).length.succ (romFS_root m) (path1.drop 1)
    else
      navigateLoop P fuel m isDir path1.length.succ m.cwd path1

/-! ## Metadata -/

/-- The fields of `struct stat` that the driver fills in. -/
structure Stat where
  st_ino : Nat
  st_mode : Nat
  st_nlink : Nat
  st_size : Int
  st_blksize : Nat
  st_blocks : Nat
  st_atime : Int
  st_mtime : Int
  st_ctime : Int
  deriving DecidableEq, Repr

/-- The value `romFS_dir_mode`: `S_IFDIR | S_IRUSR | S_IRGRP | S_IROTH`. -/
def romFS_dir_mode : Nat := 0o040000 ||| 0o400 ||| 0o040 ||| 0o004

/-- The value `romFS_file_mode`: `S_IFREG | S_IRUSR | S_IRGRP | S_IROTH`. -/
def romFS_file_mode : Nat := 0o100000 ||| 0o400 ||| 0o040 ||| 0o004

/-- The function `dir_inode`: the difference of two `uint32_t *`, that is the
signed 32-bit byte distance divided by 4, converted to `ino_t`. -/
def dir_inode (P : Platform) (_m : romfs_mount) (dir : Nat) : Nat :=
  (Int.tdiv (toInt32 dir) 4 % (P.INO_MOD : Int)).toNat

/-- The function `dir_size`: `sizeof(romfs_dir) + (dir->nameLen + 3) / 4`,
formed in 32 bits and converted to `off_t`. -/
def dir_size (m : romfs_mount) (dir : Nat) : Int :=
  (((sizeof_romfs_dir + ((dir_nameLen m dir + 3) % U32) / 4) % U32 : Nat) : Int)

/-- First loop of `dir_nlink`: walks the sibling chain of child directories. -/
def nlinkDirLoop (P : Platform) (m : romfs_mount) : Nat → Nat → Nat → Option Nat
  | 0, _, _ => none
  | fuel + 1, offset, count =>
    if offset = romFS_none then some count
    else
      match romFS_dir m offset with
      | none => some count
      | some tmp => nlinkDirLoop P m fuel (dir_sibling m tmp) ((count + 1) % P.NLINK_MOD)

/-- Second loop of `dir_nlink`: walks the sibling chain of child files. -/
def nlinkFileLoop (P : Platform) (m : romfs_mount) : Nat → Nat → Nat → Option Nat
  | 0, _, _ => none
  | fuel + 1, offset, count =>
    if offset = romFS_none then some count
    else
      match romFS_file m offset with
      | none => some count
      | some tmp => nlinkFileLoop P m fuel (file_sibling m tmp) ((count + 1) % P.NLINK_MOD)

/-- The function `dir_nlink`. -/
def dir_nlink (P : Platform) (fuel : Nat) (m : romfs_mount) (dir : Nat) : Option Nat :=
  match nlinkDirLoop P m fuel (dir_childDir m dir) (2 % P.NLINK_MOD) with
  | none => none
  | some count => nlinkFileLoop P m fuel (dir_childFile m dir) count

/-- The function `file_inode`: the pointer difference in 32-bit words plus
`dirTableSize / 4`, formed in 64 bits and converted to `ino_t`. -/
def file_inode (P : Platform) (m : romfs_mount) (file : Nat) : Nat :=
  (toUInt64 (Int.tdiv (toInt32 file) 4) + m.header.dirTableSize / 4) % U64 % P.INO_MOD

/-- The function `fillDir`. -/
def fillDir (P : Platform) (fuel : Nat) (m : romfs_mount) (dir : Nat) : Option Stat :=
  match dir_nlink P fuel m dir with
  | none => none
  | some nlink =>
    some { st_ino := dir_inode P m dir
           st_mode := romFS_dir_mode
           st_nlink := nlink
           st_size := dir_size m dir
           st_blksize := 512
           st_blocks := (512 + 511) / 512
           st_atime := m.mtime
           st_mtime := m.mtime
           st_ctime := m.mtime }

/-- The function `fillFile`. -/
def fillFile (P : Platform) (m : romfs_mount) (file : Nat) : Stat :=
  { st_ino := file_inode P m file
    st_mode := romFS_file_mode
    st_nlink := 1
    st_size := toInt64 (file_dataSize m file)
    st_blksize := 512
    st_blocks := (512 + 511) / 512
    st_atime := m.mtime
    st_mtime := m.mtime
    st_ctime := m.mtime }

/-! ## Operations on paths -/

/-- The part of `romfs_stat` after the call of `navigateToDir`, whose result
is `nav`. -/
def romfs_stat_tail (P : Platform) (fuel : Nat) (m : romfs_mount) :
    Option (Except Errno (Nat × List Nat)) → Option (Except Errno Stat)
  | none => none
  | some (.error e) => some (.error e)
  | some (.ok (curDir, rest)) =>
    if rest = [] then (fillDir P fuel m curDir).map Except.ok
    else
      match searchForDir fuel m curDir rest (strlen rest % U32) with
      | none => none
      | some (.ok dir) => (fillDir P fuel m dir).map Except.ok
      | some (.error e1) =>
        if e1 ≠ Errno.ENOENT then some (.error e1)
        else
          match searchForFile fuel m curDir rest (strlen rest % U32) with
          | none => none
          | some (.ok file) => some (.ok (fillFile P m file))
          | some (.error e2) =>
            if e2 ≠ Errno.ENOENT then some (.error e2)
            else some (.error Errno.ENOENT)

/-- The function `romfs_stat`: `.ok st` for return value `0` with `*st`
filled, `.error e` for `-1` with `errno = e`. -/
def romfs_stat (P : Platform) (fuel : Nat) (m : romfs_mount) (path : List Nat) :
    Option (Except Errno Stat) :=
  romfs_stat_tail P fuel m (navigateToDir P fuel m path false)

/-- The function `romfs_chdir`: `.ok m1` for return value `0` and the mount
after the call, `.error e` for `-1` with `errno = e` (the mount is unchanged). -/
def romfs_chdir (P : Platform) (fuel : Nat) (m : romfs_mount) (path : List Nat) :
    Option (Except Errno romfs_mount) :=
  match navigateToDir P fuel m path true with
  | none => none
  | some (.error e) => some (.error e)
  | some (.ok (curDir, _)) => some (.ok { m with cwd := curDir })

/-- The structure `romfs_fileobj` (the mount is passed alongside); `file` is
the offset of the file record. -/
structure romfs_fileobj where
  file : Nat
  offset : Nat
  pos : Nat
  deriving DecidableEq, Repr

/-- The function `romfs_open`: `.ok fileobj` for return value `0`,
`.error e` for `-1` with `errno = e`. -/
def romfs_open (P : Platform) (fuel : Nat) (m : romfs_mount) (path : List Nat) (flags : Nat) :
    Option (Except Errno romfs_fileobj) :=
  if flags &&& P.O_ACCMODE ≠ P.O_RDONLY then some (.error Errno.EROFS)
  else
    match navigateToDir P fuel m path false with
    | none => none
    | some (.error e) => some (.error e)
    | some (.ok (curDir, rest)) =>
      match searchForFile fuel m curDir rest (strlen rest % U32) with
      | none => none
      | some (.error ret) =>
        if ret = Errno.ENOENT ∧ flags &&& P.O_CREAT ≠ 0 then some (.error Errno.EROFS)
        else some (.error ret)
      | some (.ok file) =>
        if flags &&& P.O_CREAT ≠ 0 ∧ flags &&& P.O_EXCL ≠ 0 then some (.error Errno.EEXIST)
        else some (.ok { file := file
                         offset := (m.header.fileDataOff + file_dataOff m file) % U64
                         pos := 0 })

/-! ## The byte source and raw reads -/

/-- What a read call of the platform reports: its return value (a byte count,
or a negative value for failure) and the bytes it stored in the buffer. -/
structure IOResult where
  status : Int
  bytes : List Nat
  deriving DecidableEq, Repr

/-- The platform calls behind `_romfs_read`. `lseek pos` is
`lseek(fd, pos, SEEK_SET)`; `read off n` is `read(fd, buf, n)` on a descriptor
positioned at `off`; `FSAReadFileWithPos size pos` is the CafeOS call with
element size `1`, count `size` and position `pos`. -/
structure ByteSource where
  lseek : Int → Int
  read : Int → Nat → IOResult
  FSAReadFileWithPos : Nat → Nat → IOResult

/-- Result of `_romfs_read`: the `ssize_t` return value and the bytes stored
in the caller's buffer. -/
structure RawRead where
  ret : Int
  data : List Nat
  deriving DecidableEq, Repr

/-- The request size of one iteration of the CafeOS loop of `_romfs_read`: the
remaining length as a `size_t`; when that is at least a cache line, only up to
the next cache-line boundary of the buffer for an unaligned `ptr`, else only
whole cache lines (`size &= ~0x3F`); at most 1 MiB. -/
def cafeChunkSize (len bytesRead ptr : Nat) : Nat :=
  let size0 := (len - bytesRead) % U32
  let size1 :=
    if size0 < 0x40 then size0
    else if ptr % 0x40 ≠ 0 then min size0 (0x40 - ptr % 0x40)
    else size0 - size0 % 0x40
  if size1 > 0x100000 then 0x100000 else size1

/-- The `while (bytesRead < len)` loop of the CafeOS branch of `_romfs_read`.
`ptr` is the 32-bit address of the next byte of the caller's buffer, `acc` the
bytes stored so far. -/
def cafeReadLoop (B : ByteSource) (len : Nat) :
    Nat → Nat → Nat → Nat → List Nat → Option RawRead
  | 0, _, _, _, _ => none
  | fuel + 1, pos, bytesRead, ptr, acc =>
    if ¬ bytesRead < len then some { ret := toInt32 bytesRead, data := acc }
    else
      let size := cafeChunkSize len bytesRead ptr
      let r := B.FSAReadFileWithPos size pos
      if r.status < 0 then
        if bytesRead ≠ 0 then some { ret := toInt32 bytesRead, data := acc }
        else some { ret := -1, data := acc }
      else
        let n := r.status.toNat % U32
        let acc1 := acc ++ r.bytes.take r.status.toNat
        let pos1 := (pos + n) % U64
        let bytesRead1 := (bytesRead + n) % U32
        let ptr1 := (ptr + n) % U32
        if n ≠ size then some { ret := toInt32 bytesRead1, data := acc1 }
        else cafeReadLoop B len fuel pos1 bytesRead1 ptr1 acc1

/-- The function `_romfs_read`; `ptr` is the address of `buffer`. The result
is `none` when the CafeOS loop does not terminate within `readSize + 1`
iterations. -/
def _romfs_read (B : ByteSource) (m : romfs_mount) (readOffset : Nat) (ptr : Nat)
    (readSize : Nat) : Option RawRead :=
  if readSize = 0 then some { ret := 0, data := [] }
  else
    let pos := (m.offset + readOffset) % U64
    match m.fd_type with
    | RomfsSource.FileDescriptor =>
      let seek_offset := B.lseek (toInt64 pos)
      if seek_offset < 0 ∨ toInt64 pos ≠ seek_offset then some { ret := -1, data := [] }
      else
        let r := B.read seek_offset (readSize % U32)
        some { ret := r.status, data := r.bytes.take r.status.toNat }
    | RomfsSource.FileDescriptor_CafeOS => cafeReadLoop B readSize (readSize + 1) pos 0 ptr []
    | RomfsSource.other => some { ret := -1, data := [] }

/-! ## Operations on open files -/

/-- What `romfs_read` did: return value, `errno` if set, the file object after
the call, the bytes handed to the caller, and the `(readOffset, readSize)`
arguments of its call of `_romfs_read`, if it made one. -/
structure ReadOutcome where
  ret : Int
  errno : Option Errno
  file : romfs_fileobj
  data : List Nat
  request : Option (Nat × Nat)
  deriving DecidableEq, Repr

/-- The function `romfs_read`; `ptr` is the address of the buffer and `len`
(a `size_t`) the requested length. -/
def romfs_read (B : ByteSource) (m : romfs_mount) (file : romfs_fileobj) (ptr : Nat)
    (len : Nat) : Option ReadOutcome :=
  let endPos := (file.pos + len) % U64
  if file.pos ≥ file_dataSize m file.file then
    some { ret := 0, errno := none, file := file, data := [], request := none }
  else
    let endPos1 := if endPos > file_dataSize m file.file then file_dataSize m file.file else endPos
    let len1 := (endPos1 + U64 - file.pos) % U64 % U32
    let readOffset := (file.offset + file.pos) % U64
    match _romfs_read B m readOffset ptr len1 with
    | none => none
    | some r =>
      if r.ret ≥ 0 then
        some { ret := r.ret
               errno := none
               file := { file with pos := (file.pos + r.ret.toNat) % U64 }
               data := r.data.take r.ret.toNat
               request := some (readOffset, len1) }
      else
        some { ret := -1
               errno := some Errno.EIO
               file := file
               data := []
               request := some (readOffset, len1) }

/-- The constant `SEEK_SET`. -/
def SEEK_SET : Int := 0
/-- The constant `SEEK_CUR`. -/
def SEEK_CUR : Int := 1
/-- The constant `SEEK_END`. -/
def SEEK_END : Int := 2

/-- What `romfs_seek` did: return value, `errno` if set, and the file object
after the call. -/
structure SeekOutcome where
  ret : Int
  errno : Option Errno
  file : romfs_fileobj
  deriving DecidableEq, Repr

/-- The part of `romfs_seek` after the `switch`, with `start` chosen. The sum
`start + pos` is a signed 64-bit sum. -/
def romfs_seek_from (file : romfs_fileobj) (start : Int) (pos : Int) : SeekOutcome :=
  let file1 := { file with pos := toUInt64 (wrapInt64 (start + pos)) }
  let done : SeekOutcome := { ret := toInt64 file1.pos, errno := none, file := file1 }
  if pos < 0 then
    if wrapInt64 (start + pos) < 0 then { ret := -1, errno := some Errno.EINVAL, file := file }
    else done
  else if INT64_MAX - pos < start then { ret := -1, errno := some Errno.EOVERFLOW, file := file }
  else done

/-- The function `romfs_seek`; `pos` is the `off_t` offset and `dir` the
`whence` argument. -/
def romfs_seek (m : romfs_mount) (file : romfs_fileobj) (pos : Int) (dir : Int) : SeekOutcome :=
  if dir = SEEK_SET then romfs_seek_from file 0 pos
  else if dir = SEEK_CUR then romfs_seek_from file (toInt64 file.pos) pos
  else if dir = SEEK_END then romfs_seek_from file (toInt64 (file_dataSize m file.file)) pos
  else { ret := -1, errno := some Errno.EINVAL, file := file }

/-! ## Sample images -/

/-- Big-endian bytes of a 32-bit value. -/
def be32 (x : Nat) : List Nat := [x / 2 ^ 24 % 256, x / 2 ^ 16 % 256, x / 2 ^ 8 % 256, x % 256]

/-- Big-endian bytes of a 64-bit value. -/
def be64 (x : Nat) : List Nat := be32 (x / 2 ^ 32) ++ be32 (x % 2 ^ 32)

/-- A mount around the four given tables, with the header sizes set to the
table lengths, CafeOS source and the root as current directory. -/
def mountOfTables (dirHash dirs fileHash files : List Nat) : romfs_mount where
  setup := true
  fd_type := RomfsSource.FileDescriptor_CafeOS
  mtime := 1000
  offset := 0
  header :=
    { headerMagic := 0x57554842
      headerSize := 0x50
      dirHashTableOff := 0x50
      dirHashTableSize := dirHash.length
      dirTableOff := 0x50 + dirHash.length
      dirTableSize := dirs.length
      fileHashTableOff := 0x50 + dirHash.length + dirs.length
      fileHashTableSize := fileHash.length
      fileTableOff := 0x50 + dirHash.length + dirs.length + fileHash.length
      fileTableSize := files.length
      fileDataOff := 0x200 }
  cwd := 0
  dirHashTable := dirHash
  fileHashTable := fileHash
  dirTable := dirs
  fileTable := files
  name := [114, 111, 109, 102, 115]

/-- Directory table of the sample image: the root (offset 0) and its child
directory `sub` (offset 24). -/
def sampleDirTable : List Nat :=
  be32 0 ++ be32 romFS_none ++ be32 24 ++ be32 0 ++ be32 romFS_none ++ be32 0
  ++ be32 0 ++ be32 romFS_none ++ be32 romFS_none ++ be32 40 ++ be32 romFS_none ++ be32 3
  ++ [115, 117, 98, 0]

/-- File table of the sample image: `A.TXT` (offset 0, 16 bytes, in the root)
and `b.bin` (offset 40, 0 bytes, in `sub`); both hash to bucket 2, the chain
is `b.bin` then `A.TXT`. -/
def sampleFileTable : List Nat :=
  be32 0 ++ be32 romFS_none ++ be64 0 ++ be64 16 ++ be32 romFS_none ++ be32 5
  ++ [65, 46, 84, 88, 84, 0, 0, 0]
  ++ be32 24 ++ be32 romFS_none ++ be64 16 ++ be64 0 ++ be32 0 ++ be32 5
  ++ [98, 46, 98, 105, 110, 0, 0, 0]

/-- The sample image: root with file `A.TXT` and directory `sub`, which holds
file `b.bin`; three buckets in each hash table. -/
def sampleMount : romfs_mount :=
  mountOfTables (be32 0 ++ be32 romFS_none ++ be32 24) sampleDirTable
    (be32 romFS_none ++ be32 romFS_none ++ be32 40) sampleFileTable

/-- A directory table holding one record whose `nameLen` field is
`0xFFFFFFE8`, so that `24 + nameLen` is `2^32`. -/
def wrapDirMount : romfs_mount :=
  mountOfTables (be32 0)
    (be32 0 ++ be32 romFS_none ++ be32 romFS_none ++ be32 romFS_none ++ be32 romFS_none
      ++ be32 0xFFFFFFE8)
    (be32 0)
    (be32 0 ++ be32 romFS_none ++ be64 0 ++ be64 0 ++ be32 romFS_none ++ be32 0xFFFFFFE0)

/-! ## Predicates on images used by the statements -/

/-- A directory offset is in bounds when the record header and its name lie
inside the directory table, the sum taken in unbounded integers. -/
def dirInBounds (m : romfs_mount) (off : Nat) : Prop :=
  off + 24 + dir_nameLen m off ≤ m.header.dirTableSize

/-- A file offset is in bounds when the record header and its name lie inside
the file table, the sum taken in unbounded integers. -/
def fileInBounds (m : romfs_mount) (off : Nat) : Prop :=
  off + 32 + file_nameLen m off ≤ m.header.fileTableSize

instance (m : romfs_mount) (off : Nat) : Decidable (dirInBounds m off) := by
  unfold dirInBounds; infer_instance

instance (m : romfs_mount) (off : Nat) : Decidable (fileInBounds m off) := by
  unfold fileInBounds; infer_instance

/-- The tables of a loaded image have the byte sizes the header states. -/
def Loaded (m : romfs_mount) : Prop :=
  m.dirHashTable.length = m.header.dirHashTableSize
    ∧ m.dirTable.length = m.header.dirTableSize
    ∧ m.fileHashTable.length = m.header.fileHashTableSize
    ∧ m.fileTable.length = m.header.fileTableSize

instance (m : romfs_mount) : Decidable (Loaded m) := by
  unfold Loaded; infer_instance

/-- Two names of length `len` are equal after folding `a`-`z` to `A`-`Z`. -/
def sameNameFolded (n1 n2 : Nat → Nat) (len : Nat) : Prop :=
  ∀ i, i < len → foldCase (n1 i) = foldCase (n2 i)

instance (n1 n2 : Nat → Nat) (len : Nat) : Decidable (sameNameFolded n1 n2 len) := by
  unfold sameNameFolded; infer_instance

/-- The name stored in the directory record at `off`, as a byte string. -/
def dirNameList (m : romfs_mount) (off : Nat) : List Nat :=
  (List.range (dir_nameLen m off)).map (dir_name m off)

/-- The name stored in the file record at `off`, as a byte string. -/
def fileNameList (m : romfs_mount) (off : Nat) : List Nat :=
  (List.range (file_nameLen m off)).map (file_name m off)

/-- The directory record `c` is reached from chain offset `a` by following
`k` `nextHash` links, each leaving a record that is linked (not the sentinel)
and in bounds. -/
def dirChain (m : romfs_mount) : Nat → Nat → Nat → Prop
  | 0, a, c => a = c
  | k + 1, a, c => a ≠ romFS_none ∧ dirInBounds m a ∧ dirChain m k (dir_nextHash m a) c

/-- The file record `c` is reached from chain offset `a` by following `k`
`nextHash` links, each leaving a record that is linked and in bounds. -/
def fileChain (m : romfs_mount) : Nat → Nat → Nat → Prop
  | 0, a, c => a = c
  | k + 1, a, c => a ≠ romFS_none ∧ fileInBounds m a ∧ fileChain m k (file_nextHash m a) c

instance dirChainDecidable (m : romfs_mount) : (k a c : Nat) → Decidable (dirChain m k a c)
  | 0, a, c => by unfold dirChain; infer_instance
  | k + 1, a, c => by
    unfold dirChain
    have := dirChainDecidable m k (dir_nextHash m a) c
    infer_instance

instance fileChainDecidable (m : romfs_mount) : (k a c : Nat) → Decidable (fileChain m k a c)
  | 0, a, c => by unfold fileChain; infer_instance
  | k + 1, a, c => by
    unfold fileChain
    have := fileChainDecidable m k (file_nextHash m a) c
    infer_instance

/-- The hash chains are well formed for the directory record `c`: it is
linked and in bounds, it is reached from the bucket of its own (parent, name)
through `k` in-bounds links, and no other in-bounds directory record with the
same parent has the same name up to ASCII letter case. -/
def DirWellFormed (m : romfs_mount) (c k : Nat) : Prop :=
  c ≠ romFS_none ∧ dirInBounds m c
    ∧ dirChain m k
        (rd32 m.dirHashTable
          (4 * calcHash (dir_parent m c) (dirNameList m c) (dir_nameLen m c) (dirHashTotal m))) c
    ∧ ∀ o, o ≠ c → dirInBounds m o → dir_parent m o = dir_parent m c →
        dir_nameLen m o = dir_nameLen m c →
        ¬ sameNameFolded (dir_name m o) (dir_name m c) (dir_nameLen m c)

/-- The hash chains are well formed for the file record `c` (see
`DirWellFormed`). -/
def FileWellFormed (m : romfs_mount) (c k : Nat) : Prop :=
  c ≠ romFS_none ∧ fileInBounds m c
    ∧ fileChain m k
        (rd32 m.fileHashTable
          (4 * calcHash (file_parent m c) (fileNameList m c) (file_nameLen m c) (fileHashTotal m))) c
    ∧ ∀ o, o ≠ c → fileInBounds m o → file_parent m o = file_parent m c →
        file_nameLen m o = file_nameLen m c →
        ¬ sameNameFolded (file_name m o) (file_name m c) (file_nameLen m c)

/-- The byte string `nm` is a spelling of the stored name `stored` of length
`len`: same length, and equal to it after folding `a`-`z` to `A`-`Z`. -/
def SpellingOf (nm : List Nat) (stored : Nat → Nat) (len : Nat) : Prop :=
  nm.length = len ∧ (∀ c ∈ nm, c < 256) ∧ sameNameFolded (byteAt nm) stored len

instance (nm : List Nat) (stored : Nat → Nat) (len : Nat) : Decidable (SpellingOf nm stored len) := by
  unfold SpellingOf; infer_instance

/-- A path component as C text: non-empty, every byte a non-NUL `char`, and
no `/` among them. -/
def IsComponent (comp : List Nat) : Prop :=
  comp ≠ [] ∧ (∀ c ∈ comp, 0 < c ∧ c < 256) ∧ (∀ c ∈ comp, c ≠ 47)

instance (comp : List Nat) : Decidable (IsComponent comp) := by
  unfold IsComponent; infer_instance

/-- An image whose only file record (offset 0, name `f`, in the root) has the
`dataSize` field `0x8000000000000000`. -/
def hugeFileMount : romfs_mount :=
  mountOfTables (be32 0)
    (be32 0 ++ be32 romFS_none ++ be32 romFS_none ++ be32 0 ++ be32 romFS_none ++ be32 0)
    (be32 0)
    (be32 0 ++ be32 romFS_none ++ be64 0 ++ be64 (2 ^ 63) ++ be32 romFS_none ++ be32 1
      ++ [102, 0, 0, 0])

/-- The start position `romfs_seek` uses for a valid `whence`, as a
mathematical integer: 0, the stored position, or the stored data size. -/
def seekStart (m : romfs_mount) (file : romfs_fileobj) (dir : Int) : Int :=
  if dir = SEEK_SET then 0
  else if dir = SEEK_CUR then (file.pos : Int)
  else (file_dataSize m file.file : Int)

/-! ## Byte sources and read sequences used by the statements -/

/-- The `n` bytes of an image (a byte for every offset) starting at `pos`. -/
def imgBytes (img : Nat → Nat) (pos n : Nat) : List Nat :=
  (List.range n).map (fun i => img (pos + i))

/-- A byte source that delivers every requested byte of the image `img`:
`lseek` reaches every non-negative offset, and both read calls return the
requested count together with the image bytes at the position (`read` for
every count that fits its `ssize_t` return value). -/
def Delivers (B : ByteSource) (img : Nat → Nat) : Prop :=
  (∀ p : Int, 0 ≤ p → B.lseek p = p)
    ∧ (∀ (off : Int) (n : Nat), 0 ≤ off → n < 2 ^ 31 →
        B.read off n = { status := (n : Int), bytes := imgBytes img off.toNat n })
    ∧ (∀ (size pos : Nat),
        B.FSAReadFileWithPos size pos = { status := (size : Int), bytes := imgBytes img pos size })

/-- The byte source over the image `img` that delivers every requested byte. -/
def imageSource (img : Nat → Nat) : ByteSource where
  lseek := fun p => if 0 ≤ p then p else -1
  read := fun off n => { status := (n : Int), bytes := imgBytes img off.toNat n }
  FSAReadFileWithPos := fun size pos => { status := (size : Int), bytes := imgBytes img pos size }

/-- A byte source whose reads deliver at most 4 bytes per call. -/
def shortSource : ByteSource where
  lseek := fun p => if 0 ≤ p then p else -1
  read := fun off n => { status := ((min n 4 : Nat) : Int), bytes := imgBytes (fun i => i % 256) off.toNat (min n 4) }
  FSAReadFileWithPos := fun size pos =>
    { status := ((min size 4 : Nat) : Int), bytes := imgBytes (fun i => i % 256) pos (min size 4) }

/-- A byte source that delivers the bytes below image offset `limit` and fails
on every request that starts at or beyond it. -/
def failingSource (limit : Nat) : ByteSource where
  lseek := fun p => if 0 ≤ p then p else -1
  read := fun off n =>
    if off.toNat < limit then { status := (n : Int), bytes := imgBytes (fun i => i % 256) off.toNat n }
    else { status := -1, bytes := [] }
  FSAReadFileWithPos := fun size pos =>
    if pos < limit then { status := (size : Int), bytes := imgBytes (fun i => i % 256) pos size }
    else { status := -1, bytes := [] }

/-- Successive `romfs_read` calls on one file object: each request is the
buffer address and the length of one call; the result lists what each call
did. -/
def readSeq (B : ByteSource) (m : romfs_mount) : romfs_fileobj → List (Nat × Nat) →
    Option (List ReadOutcome)
  | _, [] => some []
  | file, (ptr, len) :: rest =>
    match romfs_read B m file ptr len with
    | none => none
    | some out =>
      match readSeq B m out.file rest with
      | none => none
      | some outs => some (out :: outs)

/-- An image whose only file record (offset 0, name `f`, in the root) has the
`dataSize` field `0x80000000` (2 GiB). -/
def twoGiBFileMount : romfs_mount :=
  mountOfTables (be32 0)
    (be32 0 ++ be32 romFS_none ++ be32 romFS_none ++ be32 0 ++ be32 romFS_none ++ be32 0)
    (be32 0)
    (be32 0 ++ be32 romFS_none ++ be64 0 ++ be64 (2 ^ 31) ++ be32 romFS_none ++ be32 1
      ++ [102, 0, 0, 0])

/-- An image whose only file record (offset 0, name `f`, in the root) has the
`dataSize` field `0xFFFFFFFFFFFFFFFB` (`2^64 - 5`). -/
def nearMaxFileMount : romfs_mount :=
  mountOfTables (be32 0)
    (be32 0 ++ be32 romFS_none ++ be32 romFS_none ++ be32 0 ++ be32 romFS_none ++ be32 0)
    (be32 0)
    (be32 0 ++ be32 romFS_none ++ be64 0 ++ be64 (2 ^ 64 - 5) ++ be32 romFS_none ++ be32 1
      ++ [102, 0, 0, 0])

/-! ## Directory iteration -/

/-- The structure `romfs_diriter` (the mount is passed alongside); `dir` is
the offset of the iterated directory record. -/
structure romfs_diriter where
  dir : Nat
  state : Nat
  childDir : Nat
  childFile : Nat
  deriving DecidableEq, Repr

/-- A `struct stat` after `memset(filestat, 0, sizeof(*filestat))`. -/
def zeroStat : Stat :=
  { st_ino := 0, st_mode := 0, st_nlink := 0, st_size := 0, st_blksize := 0, st_blocks := 0
    st_atime := 0, st_mtime := 0, st_ctime := 0 }

/-- The C string left in a zero-filled buffer by `strncpy(buffer, src, n)`:
the first `n` bytes of `src`, up to the first NUL among them. -/
def strncpy (src : List Nat) (n : Nat) : List Nat := (src.take n).takeWhile (fun c => c ≠ 0)

/-- The function `romfs_diropen`: `.ok iter` for a non-NULL result with the
iterator state filled in, `.error e` for `NULL` with `errno = e`. -/
def romfs_diropen (P : Platform) (fuel : Nat) (m : romfs_mount) (path : List Nat) :
    Option (Except Errno romfs_diriter) :=
  match navigateToDir P fuel m path true with
  | none => none
  | some (.error e) => some (.error e)
  | some (.ok (curDir, _)) =>
    some (.ok { dir := curDir
                state := 0
                childDir := dir_childDir m curDir
                childFile := dir_childFile m curDir })

/-- The function `romfs_dirreset` (it returns 0): the iterator after the call. -/
def romfs_dirreset (m : romfs_mount) (iter : romfs_diriter) : romfs_diriter :=
  { iter with state := 0
              childDir := dir_childDir m iter.dir
              childFile := dir_childFile m iter.dir }

/-- The function `romfs_dirnext`: the first component is `.ok (filename,
filestat)` for return value `0`, `.error e` for `-1` with `errno = e`; the
second is the iterator after the call. -/
def romfs_dirnext (P : Platform) (m : romfs_mount) (iter : romfs_diriter) :
    Except Errno (List Nat × Stat) × romfs_diriter :=
  if iter.state = 0 then
    (.ok ([46], { zeroStat with st_ino := dir_inode P m iter.dir, st_mode := romFS_dir_mode }),
      { iter with state := 1 })
  else if iter.state = 1 then
    match romFS_dir m (dir_parent m iter.dir) with
    | none => (.error Errno.EFAULT, iter)
    | some dir =>
      (.ok ([46, 46], { zeroStat with st_ino := dir_inode P m dir, st_mode := romFS_dir_mode }),
        { iter with state := 2 })
  else if iter.childDir ≠ romFS_none then
    match romFS_dir m iter.childDir with
    | none => (.error Errno.EFAULT, iter)
    | some dir =>
      let iter1 := { iter with childDir := dir_sibling m dir }
      if dir_nameLen m dir ≥ P.NAME_MAX then (.error Errno.ENAMETOOLONG, iter1)
      else
        (.ok (strncpy (dirNameList m dir) (dir_nameLen m dir),
            { zeroStat with st_ino := dir_inode P m dir, st_mode := romFS_dir_mode }), iter1)
  else if iter.childFile ≠ romFS_none then
    match romFS_file m iter.childFile with
    | none => (.error Errno.EFAULT, iter)
    | some file =>
      let iter1 := { iter with childFile := file_sibling m file }
      if file_nameLen m file ≥ P.NAME_MAX then (.error Errno.ENAMETOOLONG, iter1)
      else
        (.ok (strncpy (fileNameList m file) (file_nameLen m file),
            { zeroStat with st_ino := file_inode P m file, st_mode := romFS_file_mode }), iter1)
  else (.error Errno.ENOENT, iter)

/-- The results of `k` successive `romfs_dirnext` calls from the state `iter`. -/
def dirnextRun (P : Platform) (m : romfs_mount) :
    Nat → romfs_diriter → List (Except Errno (List Nat × Stat))
  | 0, _ => []
  | k + 1, iter => (romfs_dirnext P m iter).1 :: dirnextRun P m k (romfs_dirnext P m iter).2

/-- The iterator state after `k` successive `romfs_dirnext` calls. -/
def dirnextIter (P : Platform) (m : romfs_mount) : Nat → romfs_diriter → romfs_diriter
  | 0, iter => iter
  | k + 1, iter => dirnextIter P m k (romfs_dirnext P m iter).2

/-- The list `chain` is the sibling chain of directory records that starts at
the link `start`: every member is linked (not the sentinel) and in bounds, and
the last member's `sibling` is the sentinel. -/
def dirSiblingChain (m : romfs_mount) : Nat → List Nat → Prop
  | start, [] => start = romFS_none
  | start, o :: rest =>
    start = o ∧ o ≠ romFS_none ∧ dirInBounds m o ∧ dirSiblingChain m (dir_sibling m o) rest

/-- The list `chain` is the sibling chain of file records that starts at the
link `start` (see `dirSiblingChain`). -/
def fileSiblingChain (m : romfs_mount) : Nat → List Nat → Prop
  | start, [] => start = romFS_none
  | start, o :: rest =>
    start = o ∧ o ≠ romFS_none ∧ fileInBounds m o ∧ fileSiblingChain m (file_sibling m o) rest

instance dirSiblingChainDecidable (m : romfs_mount) :
    (start : Nat) → (chain : List Nat) → Decidable (dirSiblingChain m start chain)
  | start, [] => by unfold dirSiblingChain; infer_instance
  | start, o :: rest => by
    unfold dirSiblingChain
    have := dirSiblingChainDecidable m (dir_sibling m o) rest
    infer_instance

instance fileSiblingChainDecidable (m : romfs_mount) :
    (start : Nat) → (chain : List Nat) → Decidable (fileSiblingChain m start chain)
  | start, [] => by unfold fileSiblingChain; infer_instance
  | start, o :: rest => by
    unfold fileSiblingChain
    have := fileSiblingChainDecidable m (file_sibling m o) rest
    infer_instance

/-- The iterator state that `romfs_diropen` and `romfs_dirreset` produce for
the directory record `d`. -/
def iterStart (m : romfs_mount) (d : Nat) : romfs_diriter :=
  { dir := d, state := 0, childDir := dir_childDir m d, childFile := dir_childFile m d }

/-- An image whose root has one child directory (offset 24) with the
three-byte name `a`, NUL, `b`. -/
def nulNameMount : romfs_mount :=
  mountOfTables (be32 0)
    (be32 0 ++ be32 romFS_none ++ be32 24 ++ be32 romFS_none ++ be32 romFS_none ++ be32 0
      ++ be32 0 ++ be32 romFS_none ++ be32 romFS_none ++ be32 romFS_none ++ be32 romFS_none
      ++ be32 3 ++ [97, 0, 98, 0])
    (be32 romFS_none)
    []

/-- The value `n` rounded up to the next multiple of 4. -/
def roundUp4 (n : Nat) : Nat := (n + 3) / 4 * 4

/-! ## One iteration of the resolver, as used by the statements -/

/-- The part of an iteration of the `navigateToDir` loop that follows the
choice of `component`: `.` goes on in the same directory, `..` in the parent,
any other name in the directory `searchForDir` finds; `cont` is the rest of the
loop, run in the directory reached. -/
def lookupStep (fuel : Nat) (m : romfs_mount) (dir : Nat) (component : List Nat)
    (cont : Nat → Option (Except Errno (Nat × List Nat))) :
    Option (Except Errno (Nat × List Nat)) :=
  if byteAt component 0 = 46 ∧ byteAt component 1 = 0 then cont dir
  else if byteAt component 0 = 46 ∧ byteAt component 1 = 46 ∧ byteAt component 2 = 0 then
    match romFS_dir m (dir_parent m dir) with
    | none => some (.error Errno.EFAULT)
    | some d => cont d
  else
    match searchForDir fuel m dir component (strlen component % U32) with
    | none => none
    | some (.error e) => some (.error e)
    | some (.ok d) => cont d

/-- An iteration of the `navigateToDir` loop on a path whose first `/` is at
index `slashPos`: the length checks, then `lookupStep` on the component. -/
def componentStep (P : Platform) (fuel : Nat) (m : romfs_mount) (dir : Nat) (slashPos : Nat)
    (path : List Nat) (cont : Nat → Option (Except Errno (Nat × List Nat))) :
    Option (Except Errno (Nat × List Nat)) :=
  if slashPos % U32 = 0 then some (.error Errno.EILSEQ)
  else if slashPos % U32 > P.PATH_MAX then some (.error Errno.ENAMETOOLONG)
  else lookupStep fuel m dir (path.take (slashPos % U32)) cont

/-- A directory prefix of a path: empty, or text that ends in `/`. -/
def DirPrefix (S : List Nat) : Prop := S = [] ∨ S.getLast? = some 47

instance (S : List Nat) : Decidable (DirPrefix S) := by
  unfold DirPrefix; infer_instance

/-- How resolution goes on after a directory prefix whose own resolution (in
directory-only mode) gave `r`: it stops with the same error, or resolves
`rest` from the directory reached. -/
def afterPrefix (P : Platform) (fuel : Nat) (m : romfs_mount) (isDir : Bool) (rest : List Nat) :
    Option (Except Errno (Nat × List Nat)) → Option (Except Errno (Nat × List Nat))
  | none => none
  | some (.error e) => some (.error e)
  | some (.ok (D, _)) => navigateLoop P fuel m isDir (rest.length + 1) D rest

/-- Where `navigateToDir` enters its loop for the text `path1` left after the
device part: at the root with the leading `/` skipped, or at the current
directory with the whole text. -/
def navStart (m : romfs_mount) (path1 : List Nat) : Nat × List Nat :=
  if byteAt path1 0 = 47 then (romFS_root m, path1.drop 1) else (m.cwd, path1)

/-- A component of 1025 bytes `a`, one more than the sample `PATH_MAX`. -/
def longName : List Nat := List.replicate 1025 97

/-! ## The mount table -/

/-- One entry of the array `romfs_mounts`: the fields of `romfs_mount` that
mounting, unmounting and lookup use. A table pointer is `none` when it is
`NULL`, else the buffer it points to; `name` is the string held in
`char name[32]`. -/
structure mount_slot where
  setup : Bool
  id : Nat
  fd_type : RomfsSource
  fd : Int
  cafe_client : Nat
  cafe_fd : Nat
  mtime : Int
  offset : Nat
  header : romfs_header
  cwd : Nat
  dirHashTable : Option (List Nat)
  dirTable : Option (List Nat)
  fileHashTable : Option (List Nat)
  fileTable : Option (List Nat)
  name : List Nat
  deriving DecidableEq, Repr

/-- A header of zero bytes. -/
def zeroHeader : romfs_header where
  headerMagic := 0
  headerSize := 0
  dirHashTableOff := 0
  dirHashTableSize := 0
  dirTableOff := 0
  dirTableSize := 0
  fileHashTableOff := 0
  fileHashTableSize := 0
  fileTableOff := 0
  fileTableSize := 0
  fileDataOff := 0

/-- The function `_romfsResetMount`: the entry is zeroed (`fd_type` zero is
`RomfsSource_FileDescriptor`) and gets its `id`. -/
def _romfsResetMount (id : Nat) : mount_slot where
  setup := false
  id := id
  fd_type := RomfsSource.FileDescriptor
  fd := 0
  cafe_client := 0
  cafe_fd := 0
  mtime := 0
  offset := 0
  header := zeroHeader
  cwd := 0
  dirHashTable := none
  dirTable := none
  fileHashTable := none
  fileTable := none
  name := []

/-- The globals `romfs_initialised` and `romfs_mounts`. -/
structure romfs_state where
  romfs_initialised : Bool
  romfs_mounts : List mount_slot
  deriving DecidableEq, Repr

/-- The number of entries of `romfs_mounts`. -/
def romfs_mounts_total : Nat := 32

/-- The globals at program start: zero-initialised. -/
def initialState : romfs_state where
  romfs_initialised := false
  romfs_mounts := List.replicate romfs_mounts_total (_romfsResetMount 0)

/-- The function `_romfsInit`. -/
def _romfsInit (st : romfs_state) : romfs_state :=
  if st.romfs_initialised then st
  else { romfs_initialised := true
         romfs_mounts := (List.range romfs_mounts_total).map _romfsResetMount }

/-- The bytes of a C string: those before its first NUL. -/
def cstr (s : List Nat) : List Nat := s.takeWhile (fun c => c ≠ 0)

/-- Whether `strncmp(a, b, n) == 0`: the two strings agree on their first `n`
bytes, or are equal when shorter. -/
def strncmpEqual (a b : List Nat) (n : Nat) : Bool :=
  decide ((cstr a).take n = (cstr b).take n)

/-- The test that the loop of `romfsFindMount` applies to an entry; `name` is
`none` for a `NULL` argument. -/
def slotMatches (name : Option (List Nat)) (s : mount_slot) : Bool :=
  match name with
  | none => !s.setup
  | some n => s.setup && strncmpEqual s.name n 32

/-- The loop of `romfsFindMount` over the entries `0 .. 31`: the index of the
first entry that passes the test. -/
def findSlot (name : Option (List Nat)) (mounts : List mount_slot) : Option Nat :=
  (List.range romfs_mounts_total).find? (fun i =>
    match mounts[i]? with
    | some s => slotMatches name s
    | none => false)

/-- The function `romfsFindMount`: the globals after the call and the index of
the entry returned (`none` for `NULL`). -/
def romfsFindMount (st : romfs_state) (name : Option (List Nat)) : romfs_state × Option Nat :=
  (_romfsInit st, findSlot name (_romfsInit st).romfs_mounts)

/-- The function `romfs_alloc`. -/
def romfs_alloc (st : romfs_state) : romfs_state × Option Nat := romfsFindMount st none

/-- The entry `romfs_mounts[i]`. -/
def slotAt (st : romfs_state) (i : Nat) : mount_slot :=
  st.romfs_mounts.getD i (_romfsResetMount i)

/-- The globals with `romfs_mounts[i]` replaced by `s`. -/
def setSlot (st : romfs_state) (i : Nat) (s : mount_slot) : romfs_state :=
  { st with romfs_mounts := st.romfs_mounts.set i s }

/-- The function `romfs_free`: the table buffers are released and the entry is
reset. -/
def romfs_free (s : mount_slot) : mount_slot := _romfsResetMount s.id

/-- The function `romfs_mountclose`: the backend handle is closed, then
`romfs_free`. -/
def romfs_mountclose (s : mount_slot) : mount_slot :=
  if s.fd_type = RomfsSource.FileDescriptor_CafeOS then
    romfs_free { s with cafe_fd := 0, cafe_client := 0 }
  else romfs_free s

/-- The filesystem view of an entry: a `NULL` table is an empty buffer, and
the memory outside the tables reads as zero. -/
def slotMount (s : mount_slot) : romfs_mount where
  setup := s.setup
  fd_type := s.fd_type
  mtime := s.mtime
  offset := s.offset
  header := s.header
  cwd := s.cwd
  dirHashTable := s.dirHashTable.getD []
  fileHashTable := s.fileHashTable.getD []
  dirTable := s.dirTable.getD []
  fileTable := s.fileTable.getD []
  name := s.name

/-- What the platform answers during one `romfsMount` call: the result of
`open` (`-1` for failure), the client handle of `FSAAddClient` (`0` for
failure), the status of `FSAOpenFileEx` (`0` is `FS_ERROR_OK`) with the file
handle it stores, the value of `time(NULL)`, the bytes behind the opened
backend, the address that `memalign(0x40, size)` returns for the table number
`k` (`0` for `NULL`), the address of the entry's `header` field, and the result
of `AddDevice`. -/
structure MountEnv where
  open_fd : Int
  FSAAddClient : Nat
  FSAOpenFileEx : Int × Nat
  time : Int
  source : ByteSource
  memalign : Nat → Nat → Nat
  headerAddr : Nat
  AddDevice : Int

/-- The header as the target reads it from the 0x50 bytes stored in
`mount->header`: two 32-bit fields, then nine 64-bit fields. -/
def parseHeader (data : List Nat) : romfs_header where
  headerMagic := rd32 data 0
  headerSize := rd32 data 4
  dirHashTableOff := rd64 data 8
  dirHashTableSize := rd64 data 16
  dirTableOff := rd64 data 24
  dirTableSize := rd64 data 32
  fileHashTableOff := rd64 data 40
  fileHashTableSize := rd64 data 48
  fileTableOff := rd64 data 56
  fileTableSize := rd64 data 64
  fileDataOff := rd64 data 72

/-- The function `_romfs_read_chk`: whether `_romfs_read` returned
`(int64_t) size`, with the bytes it stored. -/
def _romfs_read_chk (B : ByteSource) (m : romfs_mount) (offset ptr size : Nat) :
    Option (Bool × List Nat) :=
  match _romfs_read B m offset ptr size with
  | none => none
  | some r => some (decide (r.ret = toInt64 size), r.data)

/-- One table load of `romfsMountCommon`: `memalign(0x40, size)` (the size is
passed as a `size_t`), then `_romfs_read_chk` into the buffer. The result is
the pointer stored in the mount and `0`, `-9` (`fail_oom`: no buffer) or `-10`
(`fail_io`: the read did not deliver `size` bytes). -/
def loadTable (E : MountEnv) (s : mount_slot) (k off size : Nat) :
    Option (Option (List Nat) × Int) :=
  if E.memalign k (size % U32) = 0 then some (none, -9)
  else
    match _romfs_read_chk E.source (slotMount s) off (E.memalign k (size % U32)) size with
    | none => none
    | some (ok, data) => if ok then some (some data, 0) else some (some data, -10)

/-- The function `romfsMountCommon` on the entry `s`: the entry afterwards and
the return value. The magic test `memcmp(&headerMagic, "WUHB", 4)` is the
test of the big-endian field against `0x57554842`. -/
def romfsMountCommon (E : MountEnv) (name : List Nat) (s : mount_slot) :
    Option (mount_slot × Int) :=
  let s1 := { s with name := strncpy name 31, mtime := E.time }
  match _romfs_read E.source (slotMount s1) 0 E.headerAddr 0x50 with
  | none => none
  | some r =>
    let s2 := { s1 with header := parseHeader r.data }
    if r.ret % (U32 : Int) ≠ 0x50 then some (romfs_mountclose s2, -10)
    else if s2.header.headerMagic ≠ 0x57554842 then some (romfs_mountclose s2, -10)
    else if s2.header.headerSize ≠ 0x50 then some (romfs_mountclose s2, -10)
    else
      let s3 := { s2 with dirHashTable := none, dirTable := none, fileHashTable := none
                          fileTable := none }
      match loadTable E s3 0 s3.header.dirHashTableOff s3.header.dirHashTableSize with
      | none => none
      | some (t0, rc0) =>
        let s4 := { s3 with dirHashTable := t0 }
        if rc0 ≠ 0 then some (romfs_mountclose s4, rc0)
        else
          match loadTable E s4 1 s4.header.dirTableOff s4.header.dirTableSize with
          | none => none
          | some (t1, rc1) =>
            let s5 := { s4 with dirTable := t1 }
            if rc1 ≠ 0 then some (romfs_mountclose s5, rc1)
            else
              match loadTable E s5 2 s5.header.fileHashTableOff s5.header.fileHashTableSize with
              | none => none
              | some (t2, rc2) =>
                let s6 := { s5 with fileHashTable := t2 }
                if rc2 ≠ 0 then some (romfs_mountclose s6, rc2)
                else
                  match loadTable E s6 3 s6.header.fileTableOff s6.header.fileTableSize with
                  | none => none
                  | some (t3, rc3) =>
                    let s7 := { s6 with fileTable := t3 }
                    if rc3 ≠ 0 then some (romfs_mountclose s7, rc3)
                    else
                      let s8 := { s7 with cwd := romFS_root (slotMount s7) }
                      if E.AddDevice < 0 then some (romfs_mountclose s8, -9)
                      else some ({ s8 with setup := true }, 0)

/-- The function `romfsMount`: the globals afterwards and the return value. -/
def romfsMount (E : MountEnv) (name : List Nat) (source : RomfsSource) (st : romfs_state) :
    Option (romfs_state × Int) :=
  match romfs_alloc st with
  | (st1, none) => some (st1, -99)
  | (st1, some i) =>
    let s := { slotAt st1 i with fd_type := source }
    match source with
    | RomfsSource.FileDescriptor =>
      let s1 := { s with fd := E.open_fd }
      if E.open_fd = -1 then some (setSlot st1 i (romfs_free s1), -1)
      else (romfsMountCommon E name s1).map (fun r => (setSlot st1 i r.1, r.2))
    | RomfsSource.FileDescriptor_CafeOS =>
      let s1 := { s with cafe_client := E.FSAAddClient }
      if E.FSAAddClient = 0 then some (setSlot st1 i (romfs_free s1), -1)
      else
        let s2 := { s1 with cafe_fd := E.FSAOpenFileEx.2 }
        if E.FSAOpenFileEx.1 ≠ 0 then some (setSlot st1 i (romfs_free s2), -1)
        else (romfsMountCommon E name s2).map (fun r => (setSlot st1 i r.1, r.2))
    | RomfsSource.other => (romfsMountCommon E name s).map (fun r => (setSlot st1 i r.1, r.2))

/-- The function `romfsUnmount`: the globals afterwards and the return value. -/
def romfsUnmount (st : romfs_state) (name : Option (List Nat)) : romfs_state × Int :=
  match romfsFindMount st name with
  | (st1, none) => (st1, -1)
  | (st1, some i) => (setSlot st1 i (romfs_mountclose (slotAt st1 i)), 0)

/-- The structure `romfs_fileInfo`. -/
structure romfs_fileInfo where
  length : Nat
  offset : Nat
  deriving DecidableEq, Repr

/-- The function `romfsGetFileInfoPerPath`: the return value and, for `0`,
what was stored in `*out`; `hasOut` says that `out` is not `NULL`. -/
def romfsGetFileInfoPerPath (P : Platform) (fuel : Nat) (st : romfs_state)
    (romfs : Option (List Nat)) (path : List Nat) (hasOut : Bool) :
    Option (Int × Option romfs_fileInfo) :=
  if !hasOut then some (-1, none)
  else
    match romfsFindMount st romfs with
    | (_, none) => some (-2, none)
    | (st1, some i) =>
      let mount := slotMount (slotAt st1 i)
      match navigateToDir P fuel mount path false with
      | none => none
      | some (.error _) => some (-3, none)
      | some (.ok (curDir, rest)) =>
        match searchForFile fuel mount curDir rest (strlen rest % U32) with
        | none => none
        | some (.error _) => some (-4, none)
        | some (.ok file) =>
          some (0, some { length := file_dataSize mount file
                          offset := (mount.header.fileDataOff + file_dataOff mount file) % U64 })

/-- The bytes of a header as an image stores them. -/
def headerBytes (h : romfs_header) : List Nat :=
  be32 h.headerMagic ++ be32 h.headerSize ++ be64 h.dirHashTableOff ++ be64 h.dirHashTableSize
    ++ be64 h.dirTableOff ++ be64 h.dirTableSize ++ be64 h.fileHashTableOff
    ++ be64 h.fileHashTableSize ++ be64 h.fileTableOff ++ be64 h.fileTableSize
    ++ be64 h.fileDataOff

/-- The image bytes of a mount made by `mountOfTables`: the header, then the
directory hash table, the directory table, the file hash table and the file
table. -/
def imageOf (m : romfs_mount) : List Nat :=
  headerBytes m.header ++ m.dirHashTable ++ m.dirTable ++ m.fileHashTable ++ m.fileTable

/-- An image that holds a header only: the four tables are empty and the file
data starts at `dataOff`. -/
def emptyImage (dataOff : Nat) : List Nat :=
  headerBytes { headerMagic := 0x57554842, headerSize := 0x50, dirHashTableOff := 0x50
                dirHashTableSize := 0, dirTableOff := 0x50, dirTableSize := 0
                fileHashTableOff := 0x50, fileHashTableSize := 0, fileTableOff := 0x50
                fileTableSize := 0, fileDataOff := dataOff }

/-- A platform on which every call of a mount succeeds, with the bytes `image`
behind the backend. -/
def imageEnv (image : List Nat) : MountEnv where
  open_fd := 3
  FSAAddClient := 1
  FSAOpenFileEx := (0, 1)
  time := 1000
  source := imageSource (byteAt image)
  memalign := fun k _ => 0x1000 * (k + 1)
  headerAddr := 0x100
  AddDevice := 0

/-- The sample image mounted as `romfs` from a file descriptor, at program
start. -/
def sampleState : Option (romfs_state × Int) :=
  romfsMount (imageEnv (imageOf sampleMount)) [114, 111, 109, 102, 115]
    RomfsSource.FileDescriptor initialState

/-- The entry that `romfsFindMount` returns for the name `nm`, if any. -/
def foundMount (st : romfs_state) (nm : List Nat) : Option mount_slot :=
  (romfsFindMount st (some nm)).2.map (slotAt (romfsFindMount st (some nm)).1)

/-- The globals after the sample image was mounted as `romfs` at program
start. -/
def mountedState : romfs_state := (sampleState.map Prod.fst).getD initialState

/-- A header-only image whose magic is `WUHC`. -/
def badMagicImage : List Nat := be32 0x57554843 ++ (emptyImage 0x50).drop 4

/-- The platform of `imageEnv` on which the allocation of the second table
fails. -/
def oomEnv (image : List Nat) : MountEnv :=
  { imageEnv image with memalign := fun k _ => if k = 1 then 0 else 0x1000 * (k + 1) }

/-- An entry that carries an image offset and a source kind and is otherwise
reset: `_romfs_read` reads nothing else of a mount. -/
def keySlot (offset : Nat) (fd_type : RomfsSource) : mount_slot :=
  { _romfsResetMount 0 with offset := offset, fd_type := fd_type }

/-- The read `_romfs_read` does on a mount with the given offset and source
kind. -/
def readAt (B : ByteSource) (offset : Nat) (fd_type : RomfsSource) (o p n : Nat) :
    Option RawRead :=
  _romfs_read B (slotMount (keySlot offset fd_type)) o p n

/-- The table load `loadTable` does on a mount with the given offset and source
kind. -/
def loadAt (E : MountEnv) (offset : Nat) (fd_type : RomfsSource) (k off size : Nat) :
    Option (Option (List Nat) × Int) :=
  loadTable E (keySlot offset fd_type) k off size

/-- Four operations from program start: mount a header-only image as `a`,
mount one whose file data starts at `0x1000` as `x`, unmount `a`, mount one
whose file data starts at `0x2000` as `x`. The result is the globals after the
last operation with the four return values. -/
def dupSequence : Option (romfs_state × List Int) :=
  match romfsMount (imageEnv (emptyImage 0x50)) [97] RomfsSource.FileDescriptor initialState with
  | none => none
  | some (st1, r1) =>
    match romfsMount (imageEnv (emptyImage 0x1000)) [120] RomfsSource.FileDescriptor st1 with
    | none => none
    | some (st2, r2) =>
      match romfsMount (imageEnv (emptyImage 0x2000)) [120] RomfsSource.FileDescriptor
          (romfsUnmount st2 (some [97])).1 with
      | none => none
      | some (st4, r4) => some (st4, [r1, r2, (romfsUnmount st2 (some [97])).2, r4])

/-- The globals after a header-only image was mounted as `romfs` on top of
`mountedState`. -/
def twiceState : romfs_state :=
  ((romfsMount (imageEnv (emptyImage 0x50)) [114, 111, 109, 102, 115]
    RomfsSource.FileDescriptor mountedState).map Prod.fst).getD initialState

/-- An image whose hash chains are cycles: the root record (no name) is its
own `nextHash` successor, and so is the only file record (name `f`, in the
root). -/
def cycleMount : romfs_mount :=
  mountOfTables (be32 0)
    (be32 0 ++ be32 romFS_none ++ be32 romFS_none ++ be32 0 ++ be32 0 ++ be32 0)
    (be32 0)
    (be32 0 ++ be32 romFS_none ++ be64 0 ++ be64 0 ++ be32 0 ++ be32 1 ++ [102, 0, 0, 0])

/-- The path `/..` repeated `n + 1` times, written as `/`, then `n` times
`../`, then `..`. -/
def dotdotPath (n : Nat) : List Nat :=
  47 :: ((List.replicate n [46, 46, 47]).flatten ++ [46, 46])

/-- A mount name of 32 bytes `a`. -/
def name32 : List Nat := List.replicate 32 97

/-- A header-only image mounted under `name32` at program start. -/
def name32Mounted : Option (romfs_state × Int) :=
  romfsMount (imageEnv (emptyImage 0x50)) name32 RomfsSource.FileDescriptor initialState

/-- An image whose root record has the parent offset 24; the record at offset
24 of the 48-byte directory table has the `nameLen` field `0xFFFFFFD0`, so
that `24 + 24 + nameLen` is `2^32`: the offset is not valid. -/
def badParentMount : romfs_mount :=
  mountOfTables (be32 romFS_none)
    (be32 24 ++ be32 romFS_none ++ be32 romFS_none ++ be32 romFS_none ++ be32 romFS_none
      ++ be32 0
      ++ be32 0 ++ be32 romFS_none ++ be32 romFS_none ++ be32 romFS_none ++ be32 romFS_none
      ++ be32 0xFFFFFFD0)
    (be32 romFS_none) []

/-- An image whose root record has the sentinel `0xFFFFFFFF` as parent
offset. -/
def sentinelParentMount : romfs_mount :=
  mountOfTables (be32 romFS_none)
    (be32 romFS_none ++ be32 romFS_none ++ be32 romFS_none ++ be32 romFS_none
      ++ be32 romFS_none ++ be32 0)
    (be32 romFS_none) []

theorem normalizePathChar_eq_foldCase (c : Nat) (hc : c < 256) :
    normalizePathChar c = foldCase c := by
  unfold normalizePathChar foldCase
  split <;> omega

theorem normalizePathChar_lt (c : Nat) (hc : c < 256) : normalizePathChar c < 256 := by
  unfold normalizePathChar
  split <;> omega

theorem byteAt_lt (t : List Nat) (i : Nat) : byteAt t i < 256 := by
  unfold byteAt
  omega

theorem tableByte_lt (before table : List Nat) (i : Nat) : tableByte before table i < 256 := by
  unfold tableByte
  split <;> exact byteAt_lt _ _

theorem tbl32_lt (before table : List Nat) (i : Nat) : tbl32 before table i < 2 ^ 32 := by
  unfold tbl32
  have h0 := tableByte_lt before table i
  have h1 := tableByte_lt before table (i + 1)
  have h2 := tableByte_lt before table (i + 2)
  have h3 := tableByte_lt before table (i + 3)
  omega

theorem tbl64_lt (before table : List Nat) (i : Nat) : tbl64 before table i < 2 ^ 64 := by
  unfold tbl64
  have h0 := tbl32_lt before table i
  have h1 := tbl32_lt before table (i + 4)
  omega

theorem rd32_lt (t : List Nat) (i : Nat) : rd32 t i < 2 ^ 32 := by
  unfold rd32
  have h0 := byteAt_lt t i
  have h1 := byteAt_lt t (i + 1)
  have h2 := byteAt_lt t (i + 2)
  have h3 := byteAt_lt t (i + 3)
  omega

theorem rotate_step_eq_rotr32 (h : Nat) (hh : h < 2 ^ 32) :
    (h >>> 5) ||| ((h <<< 27) % U32) = rotr32 h 5 := by
  have e1 : (h <<< 27) % U32 = 2 ^ 27 * (h % 2 ^ 5) := by
    rw [Nat.shiftLeft_eq, U32]
    omega
  have e2 : h >>> 5 = h / 2 ^ 5 := Nat.shiftRight_eq_div_pow h 5
  have hlt : h / 2 ^ 5 < 2 ^ 27 := by omega
  rw [e1, e2, Nat.or_comm, ← Nat.mul_add_lt_is_or hlt]
  unfold rotr32
  omega

theorem rotr32_lt (h : Nat) (hh : h < 2 ^ 32) : rotr32 h 5 < 2 ^ 32 := by
  unfold rotr32
  omega

theorem calcHashLoop_eq_foldl (name : List Nat) :
    ∀ (n i hash : Nat), hash < 2 ^ 32 → i + n = name.length → (∀ c ∈ name, c < 256) →
      calcHashLoop name n i hash = foldHash hash (name.drop i) := by
  intro n
  induction n with
  | zero =>
    intro i hash _ hlen _
    have : name.drop i = [] := List.drop_eq_nil_of_le (by omega)
    simp [calcHashLoop, foldHash, this]
  | succ n ih =>
    intro i hash hh hlen hb
    have hi : i < name.length := by omega
    have hdrop : name.drop i = name[i] :: name.drop (i + 1) := by
      simp
    have hc : name[i] < 256 := hb _ (List.getElem_mem hi)
    have hbyte : byteAt name i = name[i] := by
      unfold byteAt
      rw [List.getD_eq_getElem name 0 hi]
      omega
    have hstep : ((hash >>> 5) ||| ((hash <<< 27) % U32)) ^^^ normalizePathChar (byteAt name i)
        = rotr32 hash 5 ^^^ foldCase name[i] := by
      rw [rotate_step_eq_rotr32 hash hh, hbyte, normalizePathChar_eq_foldCase _ hc]
    have hlt : rotr32 hash 5 ^^^ foldCase name[i] < 2 ^ 32 := by
      apply Nat.xor_lt_two_pow (rotr32_lt hash hh)
      have := normalizePathChar_lt _ hc
      rw [normalizePathChar_eq_foldCase _ hc] at this
      omega
    show calcHashLoop name n (i + 1) _ = _
    rw [hstep, ih (i + 1) _ hlt (by omega) hb, hdrop]
    simp only [foldHash, List.foldl_cons]

/-- C2: for a 32-bit parent offset `p`, a byte string `name` and a bucket count
`total > 0`, `calcHash p name |name| total` is `H mod total`, where `H` starts
from `p XOR 0x075BCD15` and, for each name byte in order, is rotated right by
5 bits and XORed with the byte folded from `a`-`z` to `A`-`Z`; and `total` is
the hash table's byte size divided by 4: `searchForDir` and `searchForFile`
enter the chain at that bucket of their table. -/
theorem calcHash_eq_foldHash (p : Nat) (name : List Nat) (total : Nat)
    (hp : p < 2 ^ 32) (hname : ∀ c ∈ name, c < 256) (_ht : 0 < total) (ht32 : total < 2 ^ 32) :
    calcHash p name name.length total = foldHash (p ^^^ 0x075BCD15) name % total
      ∧ (∀ (m : romfs_mount) (fuel : Nat), m.header.dirHashTableSize / 4 = total →
          searchForDir fuel m p name name.length
            = searchForDirLoop m p name name.length fuel
                (rd32 m.dirHashTable (4 * (foldHash (p ^^^ 0x075BCD15) name % total))))
      ∧ (∀ (m : romfs_mount) (fuel : Nat), m.header.fileHashTableSize / 4 = total →
          searchForFile fuel m p name name.length
            = searchForFileLoop m p name name.length fuel
                (rd32 m.fileHashTable (4 * (foldHash (p ^^^ 0x075BCD15) name % total)))) := by
  have hseed : p ^^^ 123456789 < 2 ^ 32 := Nat.xor_lt_two_pow hp (by norm_num)
  have hmain : calcHash p name name.length total
      = foldHash (p ^^^ 0x075BCD15) name % total := by
    unfold calcHash
    rw [calcHashLoop_eq_foldl name name.length 0 _ hseed (by omega) hname]
    simp
  have hp32 : p % U32 = p := Nat.mod_eq_of_lt (by unfold U32; exact hp)
  have ht : total % U32 = total := Nat.mod_eq_of_lt (by unfold U32; exact ht32)
  refine ⟨hmain, ?_, ?_⟩
  · intro m fuel hm
    unfold searchForDir dirHashTotal
    simp only [hm, hp32, ht, hmain]
  · intro m fuel hm
    unfold searchForFile fileHashTotal
    simp only [hm, hp32, ht, hmain]

/-- Witness for C2: parent offset 0, the name `sub` and the three buckets of
the sample image. -/
theorem calcHash_eq_foldHash_witness :
    calcHash 0 [115, 117, 98] 3 3 = foldHash (0 ^^^ 0x075BCD15) [115, 117, 98] % 3
      ∧ searchForDir 4 sampleMount 0 [115, 117, 98] 3
          = searchForDirLoop sampleMount 0 [115, 117, 98] 3 4
              (rd32 sampleMount.dirHashTable
                (4 * (foldHash (0 ^^^ 0x075BCD15) [115, 117, 98] % 3))) :=
  ⟨(calcHash_eq_foldHash 0 [115, 117, 98] 3 (by decide) (by decide) (by decide) (by decide)).1,
   (calcHash_eq_foldHash 0 [115, 117, 98] 3 (by decide) (by decide) (by decide)
      (by decide)).2.1 sampleMount 4 (by decide)⟩

/-! ## Record accessors -/

theorem romFS_dir_of_inBounds (m : romfs_mount) (off : Nat) (h : dirInBounds m off) :
    romFS_dir m off = some off := by
  unfold dirInBounds at h
  unfold romFS_dir sizeof_romfs_dir
  have h1 : (off + 24) % U32 ≤ off + 24 := Nat.mod_le _ _
  have h2 : (off + 24 + dir_nameLen m off) % U32 ≤ off + 24 + dir_nameLen m off := Nat.mod_le _ _
  rw [if_neg (by omega), if_neg (by omega)]

theorem romFS_file_of_inBounds (m : romfs_mount) (off : Nat) (h : fileInBounds m off) :
    romFS_file m off = some off := by
  unfold fileInBounds at h
  unfold romFS_file sizeof_romfs_file
  have h1 : (off + 32) % U32 ≤ off + 32 := Nat.mod_le _ _
  have h2 : (off + 32 + file_nameLen m off) % U32 ≤ off + 32 + file_nameLen m off :=
    Nat.mod_le _ _
  rw [if_neg (by omega), if_neg (by omega)]

theorem romFS_dir_eq_some (m : romfs_mount) (off d : Nat) (h : romFS_dir m off = some d) :
    d = off := by
  unfold romFS_dir at h
  split at h
  · exact absurd h (by simp)
  · split at h
    · exact absurd h (by simp)
    · exact (Option.some.inj h).symm

theorem romFS_file_eq_some (m : romfs_mount) (off d : Nat) (h : romFS_file m off = some d) :
    d = off := by
  unfold romFS_file at h
  split at h
  · exact absurd h (by simp)
  · split at h
    · exact absurd h (by simp)
    · exact (Option.some.inj h).symm

/-- Where the 32-bit sum does not wrap, `romFS_dir` returns the record exactly
when it is in bounds, and `NULL` otherwise. -/
theorem romFS_dir_iff_of_no_wrap (m : romfs_mount) (off : Nat)
    (hw : off + 24 + dir_nameLen m off < 2 ^ 32) :
    (romFS_dir m off = some off ↔ dirInBounds m off)
      ∧ (¬ dirInBounds m off → romFS_dir m off = none) := by
  have e1 : (off + 24) % U32 = off + 24 := Nat.mod_eq_of_lt (by unfold U32; omega)
  have e2 : (off + 24 + dir_nameLen m off) % U32 = off + 24 + dir_nameLen m off :=
    Nat.mod_eq_of_lt (by unfold U32; omega)
  unfold dirInBounds romFS_dir sizeof_romfs_dir
  rw [e1, e2]
  constructor
  · constructor
    · intro h
      by_contra hc
      by_cases h1 : off + 24 > m.header.dirTableSize
      · simp [h1] at h
      · have h2 : off + 24 + dir_nameLen m off > m.header.dirTableSize := by omega
        simp [h1, h2] at h
    · intro h
      rw [if_neg (by omega), if_neg (by omega)]
  · intro h
    by_cases h1 : off + 24 > m.header.dirTableSize
    · simp [h1]
    · have h2 : off + 24 + dir_nameLen m off > m.header.dirTableSize := by omega
      simp [h1, h2]

/-- Where the 32-bit sum does not wrap, `romFS_file` returns the record
exactly when it is in bounds, and `NULL` otherwise. -/
theorem romFS_file_iff_of_no_wrap (m : romfs_mount) (off : Nat)
    (hw : off + 32 + file_nameLen m off < 2 ^ 32) :
    (romFS_file m off = some off ↔ fileInBounds m off)
      ∧ (¬ fileInBounds m off → romFS_file m off = none) := by
  have e1 : (off + 32) % U32 = off + 32 := Nat.mod_eq_of_lt (by unfold U32; omega)
  have e2 : (off + 32 + file_nameLen m off) % U32 = off + 32 + file_nameLen m off :=
    Nat.mod_eq_of_lt (by unfold U32; omega)
  unfold fileInBounds romFS_file sizeof_romfs_file
  rw [e1, e2]
  constructor
  · constructor
    · intro h
      by_contra hc
      by_cases h1 : off + 32 > m.header.fileTableSize
      · simp [h1] at h
      · have h2 : off + 32 + file_nameLen m off > m.header.fileTableSize := by omega
        simp [h1, h2] at h
    · intro h
      rw [if_neg (by omega), if_neg (by omega)]
  · intro h
    by_cases h1 : off + 32 > m.header.fileTableSize
    · simp [h1]
    · have h2 : off + 32 + file_nameLen m off > m.header.fileTableSize := by omega
      simp [h1, h2]

/-- C3 (evaluation at the failing input): for the one-record tables of
`wrapDirMount`, whose record at offset 0 has a name length that makes the
32-bit sum `off + sizeof + nameLen` wrap to 0, `romFS_dir` and `romFS_file`
return the record although `off + sizeof + nameLen` exceeds the table size;
and the first check of `romFS_dir` does not reject the offset `0xFFFFFFF0`,
for which `off + sizeof` wraps to 8, so that the `nameLen` field is read
through the wrapped record pointer, 16 bytes below the 24-byte table. -/
theorem romFS_dir_accepts_wrapped_sum :
    romFS_dir wrapDirMount 0 = some 0
      ∧ ¬ (0 + 24 + dir_nameLen wrapDirMount 0 ≤ wrapDirMount.header.dirTableSize)
      ∧ romFS_file wrapDirMount 0 = some 0
      ∧ ¬ (0 + 32 + file_nameLen wrapDirMount 0 ≤ wrapDirMount.header.fileTableSize)
      ∧ wrapDirMount.header.dirTableSize = 24
      ∧ ¬ ((0xFFFFFFF0 + sizeof_romfs_dir) % U32 > wrapDirMount.header.dirTableSize)
      ∧ romFS_dir wrapDirMount 0xFFFFFFF0 ≠ none := by
  decide

/-! ## Lookup of a child through its hash chain -/

theorem calcHashLoop_congr (name1 name2 : List Nat) :
    ∀ (n i hash : Nat),
      (∀ j, i ≤ j → j < i + n →
        normalizePathChar (byteAt name1 j) = normalizePathChar (byteAt name2 j)) →
      calcHashLoop name1 n i hash = calcHashLoop name2 n i hash := by
  intro n
  induction n with
  | zero => intro i hash _; rfl
  | succ n ih =>
    intro i hash h
    simp only [calcHashLoop]
    rw [h i (Nat.le_refl i) (by omega)]
    exact ih (i + 1) _ (fun j h1 h2 => h j (by omega) (by omega))

theorem comparePathsLoop_true (n1 n2 : Nat → Nat) :
    ∀ (n i : Nat),
      (∀ j, i ≤ j → j < i + n → normalizePathChar (n1 j) = normalizePathChar (n2 j)) →
      comparePathsLoop n1 n2 n i = true := by
  intro n
  induction n with
  | zero => intro i _; rfl
  | succ n ih =>
    intro i h
    simp only [comparePathsLoop]
    have e := h i (Nat.le_refl i) (by omega)
    simp only [e, bne_self_eq_false, Bool.false_eq_true, if_false]
    exact ih (i + 1) (fun j h1 h2 => h j (by omega) (by omega))

theorem comparePathsLoop_eq_true_imp (n1 n2 : Nat → Nat) :
    ∀ (n i : Nat), comparePathsLoop n1 n2 n i = true →
      ∀ j, i ≤ j → j < i + n → normalizePathChar (n1 j) = normalizePathChar (n2 j) := by
  intro n
  induction n with
  | zero => intro i _ j h1 h2; omega
  | succ n ih =>
    intro i h j h1 h2
    simp only [comparePathsLoop] at h
    by_cases e : normalizePathChar (n1 i) = normalizePathChar (n2 i)
    · simp only [e, bne_self_eq_false, Bool.false_eq_true, if_false] at h
      by_cases hj : j = i
      · rw [hj]; exact e
      · exact ih (i + 1) h j (by omega) (by omega)
    · have hne : (normalizePathChar (n1 i) != normalizePathChar (n2 i)) = true := by
        simpa using e
      simp [hne] at h

theorem byteAt_byteAt_list (t : List Nat) (i : Nat) (hi : i < t.length) (hb : ∀ c ∈ t, c < 256) :
    byteAt t i = t[i] := by
  unfold byteAt
  rw [List.getD_eq_getElem t 0 hi]
  have := hb _ (List.getElem_mem hi)
  omega

theorem byteAt_dirNameList (m : romfs_mount) (off i : Nat) (hi : i < dir_nameLen m off) :
    byteAt (dirNameList m off) i = dir_name m off i := by
  have hlen : i < (dirNameList m off).length := by simp [dirNameList, hi]
  unfold byteAt
  rw [List.getD_eq_getElem _ 0 hlen]
  simp only [dirNameList, List.getElem_map, List.getElem_range]
  have := tableByte_lt m.dirTableBefore m.dirTable (off + 24 + i)
  unfold dir_name
  omega

theorem calcHash_dir_spelling (m : romfs_mount) (c : Nat) (nm : List Nat) (p total : Nat)
    (hs : SpellingOf nm (dir_name m c) (dir_nameLen m c)) :
    calcHash p nm nm.length total = calcHash p (dirNameList m c) (dir_nameLen m c) total := by
  obtain ⟨hlen, _, hsame⟩ := hs
  unfold calcHash
  rw [hlen]
  rw [calcHashLoop_congr nm (dirNameList m c) (dir_nameLen m c) 0 _ ?_]
  intro j _ hj
  have hj2 : j < dir_nameLen m c := by omega
  rw [byteAt_dirNameList m c j hj2,
    normalizePathChar_eq_foldCase _ (byteAt_lt _ _),
    normalizePathChar_eq_foldCase _ (by unfold dir_name; exact tableByte_lt _ _ _)]
  exact hsame j hj2

theorem searchForDirLoop_finds (m : romfs_mount) (c : Nat) (nm : List Nat)
    (hnone : c ≠ romFS_none) (hin : dirInBounds m c)
    (huniq : ∀ o, o ≠ c → dirInBounds m o → dir_parent m o = dir_parent m c →
        dir_nameLen m o = dir_nameLen m c →
        ¬ sameNameFolded (dir_name m o) (dir_name m c) (dir_nameLen m c))
    (hs : SpellingOf nm (dir_name m c) (dir_nameLen m c)) :
    ∀ (k a fuel : Nat), dirChain m k a c → k < fuel →
      searchForDirLoop m (dir_parent m c) nm nm.length fuel a = some (.ok c) := by
  obtain ⟨hlen, _, hsame⟩ := hs
  have hcmp_c : comparePaths (dir_name m c) (byteAt nm) nm.length = true := by
    unfold comparePaths
    apply comparePathsLoop_true
    intro j _ hj
    rw [normalizePathChar_eq_foldCase _ (byteAt_lt _ _),
      normalizePathChar_eq_foldCase _ (by unfold dir_name; exact tableByte_lt _ _ _)]
    exact (hsame j (by omega)).symm
  -- a record that passes the three tests of the loop is `c`
  have hmatch : ∀ a, dirInBounds m a → dir_parent m a = dir_parent m c →
      dir_nameLen m a = nm.length →
      comparePaths (dir_name m a) (byteAt nm) nm.length = true → a = c := by
    intro a ha hp hl hc
    by_contra hne
    refine huniq a hne ha hp (by omega) ?_
    intro i hi
    have h1 := comparePathsLoop_eq_true_imp _ _ _ _ hc i (Nat.zero_le i) (by omega)
    rw [normalizePathChar_eq_foldCase _ (byteAt_lt _ _),
      normalizePathChar_eq_foldCase _ (by unfold dir_name; exact tableByte_lt _ _ _)] at h1
    rw [← hsame i hi]
    exact h1
  -- one iteration of the loop at an in-bounds record
  have hstep : ∀ (a fuel : Nat), a ≠ romFS_none → dirInBounds m a →
      searchForDirLoop m (dir_parent m c) nm nm.length (fuel + 1) a = some (.ok c)
      ∨ (a ≠ c ∧ searchForDirLoop m (dir_parent m c) nm nm.length (fuel + 1) a
          = searchForDirLoop m (dir_parent m c) nm nm.length fuel (dir_nextHash m a)) := by
    intro a fuel hane hain
    by_cases hac : a = c
    · left
      subst hac
      simp only [searchForDirLoop, if_neg hane, romFS_dir_of_inBounds m a hain]
      have hc2 := hcmp_c
      rw [hlen] at hc2
      simp [hlen, hc2]
    · by_cases hp : dir_parent m a = dir_parent m c
      · by_cases hl : dir_nameLen m a = nm.length
        · by_cases hc : comparePaths (dir_name m a) (byteAt nm) nm.length = true
          · exact absurd (hmatch a hain hp hl hc) hac
          · right
            refine ⟨hac, ?_⟩
            simp only [searchForDirLoop, if_neg hane, romFS_dir_of_inBounds m a hain]
            simp [hp, hl, hc]
        · right
          refine ⟨hac, ?_⟩
          simp only [searchForDirLoop, if_neg hane, romFS_dir_of_inBounds m a hain]
          simp [hp, hl]
      · right
        refine ⟨hac, ?_⟩
        simp only [searchForDirLoop, if_neg hane, romFS_dir_of_inBounds m a hain]
        simp [hp]
  intro k
  induction k with
  | zero =>
    intro a fuel hch hf
    have hac : a = c := hch
    subst hac
    obtain ⟨f, rfl⟩ : ∃ f, fuel = f + 1 := ⟨fuel - 1, by omega⟩
    rcases hstep a f hnone hin with h | ⟨h, _⟩
    · exact h
    · exact absurd rfl h
  | succ k ih =>
    intro a fuel hch hf
    obtain ⟨hane, hain, hrest⟩ := hch
    obtain ⟨f, rfl⟩ : ∃ f, fuel = f + 1 := ⟨fuel - 1, by omega⟩
    rcases hstep a f hane hain with h | ⟨_, h⟩
    · exact h
    · rw [h]
      exact ih _ f hrest (by omega)

theorem searchForDir_finds (m : romfs_mount) (c k : Nat) (nm : List Nat)
    (hwf : DirWellFormed m c k) (hs : SpellingOf nm (dir_name m c) (dir_nameLen m c))
    (fuel : Nat) (hf : k < fuel) :
    searchForDir fuel m (dir_parent m c) nm nm.length = some (.ok c) := by
  obtain ⟨hnone, hin, hch, huniq⟩ := hwf
  have hp : dir_parent m c % U32 = dir_parent m c :=
    Nat.mod_eq_of_lt (by unfold dir_parent U32; exact tbl32_lt _ _ _)
  unfold searchForDir
  simp only [hp]
  rw [calcHash_dir_spelling m c nm _ _ hs]
  exact searchForDirLoop_finds m c nm hnone hin huniq hs k _ fuel hch hf

theorem byteAt_fileNameList (m : romfs_mount) (off i : Nat) (hi : i < file_nameLen m off) :
    byteAt (fileNameList m off) i = file_name m off i := by
  have hlen : i < (fileNameList m off).length := by simp [fileNameList, hi]
  unfold byteAt
  rw [List.getD_eq_getElem _ 0 hlen]
  simp only [fileNameList, List.getElem_map, List.getElem_range]
  have := tableByte_lt m.fileTableBefore m.fileTable (off + 32 + i)
  unfold file_name
  omega

theorem calcHash_file_spelling (m : romfs_mount) (c : Nat) (nm : List Nat) (p total : Nat)
    (hs : SpellingOf nm (file_name m c) (file_nameLen m c)) :
    calcHash p nm nm.length total = calcHash p (fileNameList m c) (file_nameLen m c) total := by
  obtain ⟨hlen, _, hsame⟩ := hs
  unfold calcHash
  rw [hlen]
  rw [calcHashLoop_congr nm (fileNameList m c) (file_nameLen m c) 0 _ ?_]
  intro j _ hj
  have hj2 : j < file_nameLen m c := by omega
  rw [byteAt_fileNameList m c j hj2,
    normalizePathChar_eq_foldCase _ (byteAt_lt _ _),
    normalizePathChar_eq_foldCase _ (by unfold file_name; exact tableByte_lt _ _ _)]
  exact hsame j hj2

theorem searchForFileLoop_finds (m : romfs_mount) (c : Nat) (nm : List Nat)
    (hnone : c ≠ romFS_none) (hin : fileInBounds m c)
    (huniq : ∀ o, o ≠ c → fileInBounds m o → file_parent m o = file_parent m c →
        file_nameLen m o = file_nameLen m c →
        ¬ sameNameFolded (file_name m o) (file_name m c) (file_nameLen m c))
    (hs : SpellingOf nm (file_name m c) (file_nameLen m c)) :
    ∀ (k a fuel : Nat), fileChain m k a c → k < fuel →
      searchForFileLoop m (file_parent m c) nm nm.length fuel a = some (.ok c) := by
  obtain ⟨hlen, _, hsame⟩ := hs
  have hcmp_c : comparePaths (file_name m c) (byteAt nm) nm.length = true := by
    unfold comparePaths
    apply comparePathsLoop_true
    intro j _ hj
    rw [normalizePathChar_eq_foldCase _ (byteAt_lt _ _),
      normalizePathChar_eq_foldCase _ (by unfold file_name; exact tableByte_lt _ _ _)]
    exact (hsame j (by omega)).symm
  -- a record that passes the three tests of the loop is `c`
  have hmatch : ∀ a, fileInBounds m a → file_parent m a = file_parent m c →
      file_nameLen m a = nm.length →
      comparePaths (file_name m a) (byteAt nm) nm.length = true → a = c := by
    intro a ha hp hl hc
    by_contra hne
    refine huniq a hne ha hp (by omega) ?_
    intro i hi
    have h1 := comparePathsLoop_eq_true_imp _ _ _ _ hc i (Nat.zero_le i) (by omega)
    rw [normalizePathChar_eq_foldCase _ (byteAt_lt _ _),
      normalizePathChar_eq_foldCase _ (by unfold file_name; exact tableByte_lt _ _ _)] at h1
    rw [← hsame i hi]
    exact h1
  -- one iteration of the loop at an in-bounds record
  have hstep : ∀ (a fuel : Nat), a ≠ romFS_none → fileInBounds m a →
      searchForFileLoop m (file_parent m c) nm nm.length (fuel + 1) a = some (.ok c)
      ∨ (a ≠ c ∧ searchForFileLoop m (file_parent m c) nm nm.length (fuel + 1) a
          = searchForFileLoop m (file_parent m c) nm nm.length fuel (file_nextHash m a)) := by
    intro a fuel hane hain
    by_cases hac : a = c
    · left
      subst hac
      simp only [searchForFileLoop, if_neg hane, romFS_file_of_inBounds m a hain]
      have hc2 := hcmp_c
      rw [hlen] at hc2
      simp [hlen, hc2]
    · by_cases hp : file_parent m a = file_parent m c
      · by_cases hl : file_nameLen m a = nm.length
        · by_cases hc : comparePaths (file_name m a) (byteAt nm) nm.length = true
          · exact absurd (hmatch a hain hp hl hc) hac
          · right
            refine ⟨hac, ?_⟩
            simp only [searchForFileLoop, if_neg hane, romFS_file_of_inBounds m a hain]
            simp [hp, hl, hc]
        · right
          refine ⟨hac, ?_⟩
          simp only [searchForFileLoop, if_neg hane, romFS_file_of_inBounds m a hain]
          simp [hp, hl]
      · right
        refine ⟨hac, ?_⟩
        simp only [searchForFileLoop, if_neg hane, romFS_file_of_inBounds m a hain]
        simp [hp]
  intro k
  induction k with
  | zero =>
    intro a fuel hch hf
    have hac : a = c := hch
    subst hac
    obtain ⟨f, rfl⟩ : ∃ f, fuel = f + 1 := ⟨fuel - 1, by omega⟩
    rcases hstep a f hnone hin with h | ⟨h, _⟩
    · exact h
    · exact absurd rfl h
  | succ k ih =>
    intro a fuel hch hf
    obtain ⟨hane, hain, hrest⟩ := hch
    obtain ⟨f, rfl⟩ : ∃ f, fuel = f + 1 := ⟨fuel - 1, by omega⟩
    rcases hstep a f hane hain with h | ⟨_, h⟩
    · exact h
    · rw [h]
      exact ih _ f hrest (by omega)

theorem searchForFile_finds (m : romfs_mount) (c k : Nat) (nm : List Nat)
    (hwf : FileWellFormed m c k) (hs : SpellingOf nm (file_name m c) (file_nameLen m c))
    (fuel : Nat) (hf : k < fuel) :
    searchForFile fuel m (file_parent m c) nm nm.length = some (.ok c) := by
  obtain ⟨hnone, hin, hch, huniq⟩ := hwf
  have hp : file_parent m c % U32 = file_parent m c :=
    Nat.mod_eq_of_lt (by unfold file_parent U32; exact tbl32_lt _ _ _)
  unfold searchForFile
  simp only [hp]
  rw [calcHash_file_spelling m c nm _ _ hs]
  exact searchForFileLoop_finds m c nm hnone hin huniq hs k _ fuel hch hf

theorem sampleMount_dir_sub_wellFormed : DirWellFormed sampleMount 24 0 := by
  refine ⟨by decide, by decide, by decide, ?_⟩
  intro o hne hin hp hl
  have hsize : sampleMount.header.dirTableSize = 52 := by decide
  have hle : o ≤ 28 := by
    unfold dirInBounds at hin
    omega
  interval_cases o <;> revert hne hin hp hl <;> decide

theorem sampleMount_file_atxt_wellFormed : FileWellFormed sampleMount 0 1 := by
  refine ⟨by decide, by decide, by decide, ?_⟩
  intro o hne hin hp hl
  have hsize : sampleMount.header.fileTableSize = 80 := by decide
  have hle : o ≤ 48 := by
    unfold fileInBounds at hin
    omega
  interval_cases o <;> revert hne hin hp hl <;> decide

/-- C1: in a loaded image whose hash chains are well formed for a record `c`
with parent `D` (`c` is reached from the bucket of `(D, c.name)` through `k`
in-bounds `nextHash` links, and no other record with parent `D` has the same
name up to ASCII letter case), `searchForDir` (directory records) and
`searchForFile` (file records), called with parent `D` and any byte string of
the same length that equals `c`'s name after folding `a`-`z` to `A`-`Z`,
return success with exactly the record `c`, for every fuel above `k`. -/
theorem search_finds_child (m : romfs_mount) (_hload : Loaded m) :
    (∀ (D c k : Nat) (nm : List Nat) (fuel : Nat), 0 < dirHashTotal m →
        dir_parent m c = D → DirWellFormed m c k →
        SpellingOf nm (dir_name m c) (dir_nameLen m c) → k < fuel →
        searchForDir fuel m D nm nm.length = some (.ok c))
    ∧ (∀ (D c k : Nat) (nm : List Nat) (fuel : Nat), 0 < fileHashTotal m →
        file_parent m c = D → FileWellFormed m c k →
        SpellingOf nm (file_name m c) (file_nameLen m c) → k < fuel →
        searchForFile fuel m D nm nm.length = some (.ok c)) := by
  constructor
  · intro D c k nm fuel _ hD hwf hs hf
    subst hD
    exact searchForDir_finds m c k nm hwf hs fuel hf
  · intro D c k nm fuel _ hD hwf hs hf
    subst hD
    exact searchForFile_finds m c k nm hwf hs fuel hf

/-- Witness for C1 on the sample image: `SUB` finds the directory `sub`
(offset 24) and `a.txt` finds the file `A.TXT` (offset 0, second on its
chain) under the root. -/
theorem search_finds_child_witness :
    searchForDir 1 sampleMount 0 [83, 85, 66] 3 = some (.ok 24)
      ∧ searchForFile 2 sampleMount 0 [97, 46, 116, 120, 116] 5 = some (.ok 0) :=
  ⟨(search_finds_child sampleMount (by decide)).1 0 24 0 [83, 85, 66] 1 (by decide) (by decide)
      sampleMount_dir_sub_wellFormed (by decide) (by decide),
   (search_finds_child sampleMount (by decide)).2 0 0 1 [97, 46, 116, 120, 116] 2 (by decide)
      (by decide) sampleMount_file_atxt_wellFormed (by decide) (by decide)⟩

/-! ## Path resolution: where it starts -/

theorem searchForDirLoop_cwd (m : romfs_mount) (c p nl : Nat) (nm : List Nat) :
    ∀ (fuel a : Nat),
      searchForDirLoop { m with cwd := c } p nm nl fuel a = searchForDirLoop m p nm nl fuel a := by
  intro fuel
  induction fuel with
  | zero => intro a; rfl
  | succ f ih =>
    intro a
    simp only [searchForDirLoop]
    have e : romFS_dir { m with cwd := c } a = romFS_dir m a := rfl
    rw [e]
    split
    · rfl
    · split
      · rfl
      · rename_i d _
        have e1 : dir_parent { m with cwd := c } d = dir_parent m d := rfl
        have e2 : dir_nameLen { m with cwd := c } d = dir_nameLen m d := rfl
        have e3 : dir_name { m with cwd := c } d = dir_name m d := rfl
        have e4 : dir_nextHash { m with cwd := c } d = dir_nextHash m d := rfl
        rw [e1, e2, e3, e4, ih]

theorem searchForFileLoop_cwd (m : romfs_mount) (c p nl : Nat) (nm : List Nat) :
    ∀ (fuel a : Nat),
      searchForFileLoop { m with cwd := c } p nm nl fuel a
        = searchForFileLoop m p nm nl fuel a := by
  intro fuel
  induction fuel with
  | zero => intro a; rfl
  | succ f ih =>
    intro a
    simp only [searchForFileLoop]
    have e : romFS_file { m with cwd := c } a = romFS_file m a := rfl
    rw [e]
    split
    · rfl
    · split
      · rfl
      · rename_i d _
        have e1 : file_parent { m with cwd := c } d = file_parent m d := rfl
        have e2 : file_nameLen { m with cwd := c } d = file_nameLen m d := rfl
        have e3 : file_name { m with cwd := c } d = file_name m d := rfl
        have e4 : file_nextHash { m with cwd := c } d = file_nextHash m d := rfl
        rw [e1, e2, e3, e4, ih]

theorem searchForDir_cwd (m : romfs_mount) (c fuel p nl : Nat) (nm : List Nat) :
    searchForDir fuel { m with cwd := c } p nm nl = searchForDir fuel m p nm nl := by
  unfold searchForDir
  exact searchForDirLoop_cwd m c _ nl nm fuel _

theorem searchForFile_cwd (m : romfs_mount) (c fuel p nl : Nat) (nm : List Nat) :
    searchForFile fuel { m with cwd := c } p nm nl = searchForFile fuel m p nm nl := by
  unfold searchForFile
  exact searchForFileLoop_cwd m c _ nl nm fuel _

theorem navigateLoop_cwd (P : Platform) (fuel : Nat) (m : romfs_mount) (c : Nat) (isDir : Bool) :
    ∀ (n d : Nat) (path : List Nat),
      navigateLoop P fuel { m with cwd := c } isDir n d path
        = navigateLoop P fuel m isDir n d path := by
  intro n
  induction n with
  | zero => intro d path; rfl
  | succ n ih =>
    intro d path
    simp only [navigateLoop]
    have e1 : ∀ o, romFS_dir { m with cwd := c } o = romFS_dir m o := fun _ => rfl
    have e2 : ∀ o, dir_parent { m with cwd := c } o = dir_parent m o := fun _ => rfl
    simp only [e1, e2, searchForDir_cwd, ih]

theorem nlinkDirLoop_cwd (P : Platform) (m : romfs_mount) (c : Nat) :
    ∀ (fuel o n : Nat),
      nlinkDirLoop P { m with cwd := c } fuel o n = nlinkDirLoop P m fuel o n := by
  intro fuel
  induction fuel with
  | zero => intro o n; rfl
  | succ f ih =>
    intro o n
    simp only [nlinkDirLoop]
    have e1 : ∀ o, romFS_dir { m with cwd := c } o = romFS_dir m o := fun _ => rfl
    have e2 : ∀ o, dir_sibling { m with cwd := c } o = dir_sibling m o := fun _ => rfl
    simp only [e1, e2, ih]

theorem nlinkFileLoop_cwd (P : Platform) (m : romfs_mount) (c : Nat) :
    ∀ (fuel o n : Nat),
      nlinkFileLoop P { m with cwd := c } fuel o n = nlinkFileLoop P m fuel o n := by
  intro fuel
  induction fuel with
  | zero => intro o n; rfl
  | succ f ih =>
    intro o n
    simp only [nlinkFileLoop]
    have e1 : ∀ o, romFS_file { m with cwd := c } o = romFS_file m o := fun _ => rfl
    have e2 : ∀ o, file_sibling { m with cwd := c } o = file_sibling m o := fun _ => rfl
    simp only [e1, e2, ih]

theorem fillDir_cwd (P : Platform) (fuel : Nat) (m : romfs_mount) (c d : Nat) :
    fillDir P fuel { m with cwd := c } d = fillDir P fuel m d := by
  unfold fillDir dir_nlink
  have e1 : dir_childDir { m with cwd := c } d = dir_childDir m d := rfl
  have e2 : dir_childFile { m with cwd := c } d = dir_childFile m d := rfl
  have e3 : dir_size { m with cwd := c } d = dir_size m d := rfl
  have e4 : dir_inode P { m with cwd := c } d = dir_inode P m d := rfl
  simp only [e1, e2, e3, e4, nlinkDirLoop_cwd, nlinkFileLoop_cwd]

theorem romfs_stat_tail_cwd (P : Platform) (fuel : Nat) (m : romfs_mount) (c : Nat)
    (nav : Option (Except Errno (Nat × List Nat))) :
    romfs_stat_tail P fuel { m with cwd := c } nav = romfs_stat_tail P fuel m nav := by
  have e : ∀ f, fillFile P { m with cwd := c } f = fillFile P m f := fun _ => rfl
  unfold romfs_stat_tail
  simp only [fillDir_cwd, searchForDir_cwd, searchForFile_cwd, e]

/-- C4: `navigateToDir` starts at the root directory (offset 0 of the
directory table) when the path left after removing the device part begins with
`/`, and at the mount's current directory otherwise. Hence `/` resolves to the
root for every image and current directory; the result of an absolute path
does not depend on the current directory; and after `romfs_chdir` succeeds
with a path resolving to `D`, the mount differs only in its current directory
`D`, and every relative path is resolved and stat-ed as from `D`. -/
theorem navigateToDir_start (P : Platform) (fuel : Nat) (m : romfs_mount) :
    (∀ (path : List Nat) (isDir : Bool) (rest : List Nat), stripDevice path = 47 :: rest →
        navigateToDir P fuel m path isDir
          = navigateLoop P fuel m isDir rest.length.succ (romFS_root m) rest)
    ∧ (∀ (path : List Nat) (isDir : Bool) (b : Nat) (rest : List Nat),
        stripDevice path = b :: rest → b % 256 ≠ 47 →
        navigateToDir P fuel m path isDir
          = navigateLoop P fuel m isDir (b :: rest).length.succ m.cwd (b :: rest))
    ∧ romFS_root m = 0
    ∧ (∀ (isDir : Bool), navigateToDir P fuel m [47] isDir = some (.ok (romFS_root m, [])))
    ∧ (∀ (c : Nat) (path : List Nat) (isDir : Bool) (rest : List Nat),
        stripDevice path = 47 :: rest →
        navigateToDir P fuel { m with cwd := c } path isDir = navigateToDir P fuel m path isDir)
    ∧ (∀ (p : List Nat) (m1 : romfs_mount), romfs_chdir P fuel m p = some (.ok m1) →
        ∃ D r, navigateToDir P fuel m p true = some (.ok (D, r)) ∧ m1 = { m with cwd := D }
          ∧ ∀ (q : List Nat) (isDir : Bool) (b : Nat) (rest : List Nat),
              stripDevice q = b :: rest → b % 256 ≠ 47 →
              navigateToDir P fuel m1 q isDir
                  = navigateLoop P fuel m isDir (b :: rest).length.succ D (b :: rest)
                ∧ romfs_stat P fuel m1 q
                  = romfs_stat_tail P fuel m
                      (navigateLoop P fuel m false (b :: rest).length.succ D (b :: rest))) := by
  have habs : ∀ (m : romfs_mount) (path : List Nat) (isDir : Bool) (rest : List Nat),
      stripDevice path = 47 :: rest →
      navigateToDir P fuel m path isDir
        = navigateLoop P fuel m isDir rest.length.succ (romFS_root m) rest := by
    intro m path isDir rest h
    unfold navigateToDir
    simp [h, byteAt]
  have hrel : ∀ (m : romfs_mount) (path : List Nat) (isDir : Bool) (b : Nat) (rest : List Nat),
      stripDevice path = b :: rest → b % 256 ≠ 47 →
      navigateToDir P fuel m path isDir
        = navigateLoop P fuel m isDir (b :: rest).length.succ m.cwd (b :: rest) := by
    intro m path isDir b rest h hb
    unfold navigateToDir
    simp [h, byteAt, hb]
  refine ⟨habs m, hrel m, rfl, ?_, ?_, ?_⟩
  · intro isDir
    rw [habs m [47] isDir [] (by decide)]
    simp [navigateLoop]
  · intro c path isDir rest h
    rw [habs _ path isDir rest h, habs m path isDir rest h, navigateLoop_cwd]
    rfl
  · intro p m1 h
    unfold romfs_chdir at h
    cases hnav : navigateToDir P fuel m p true with
    | none => simp [hnav] at h
    | some res =>
      cases res with
      | error e => simp [hnav] at h
      | ok dr =>
        obtain ⟨D, r⟩ := dr
        simp only [hnav, Option.some.injEq, Except.ok.injEq] at h
        refine ⟨D, r, rfl, h.symm, ?_⟩
        intro q isDir b rest hq hb
        subst h
        constructor
        · rw [hrel _ q isDir b rest hq hb, navigateLoop_cwd]
        · unfold romfs_stat
          rw [hrel _ q false b rest hq hb, navigateLoop_cwd, romfs_stat_tail_cwd]

/-- Witness for C4 on the sample image: `r:/sub` is resolved from the root,
and after `romfs_chdir` to `/sub` the relative path `b.bin` is resolved and
stat-ed from the directory `sub` (offset 24). -/
theorem navigateToDir_start_witness :
    navigateToDir newlibPlatform 5 sampleMount [114, 58, 47, 115, 117, 98] true
        = navigateLoop newlibPlatform 5 sampleMount true 4 0 [115, 117, 98]
      ∧ romfs_stat newlibPlatform 5 { sampleMount with cwd := 24 } [98, 46, 98, 105, 110]
        = romfs_stat_tail newlibPlatform 5 sampleMount
            (navigateLoop newlibPlatform 5 sampleMount false 6 24 [98, 46, 98, 105, 110]) := by
  constructor
  · exact (navigateToDir_start newlibPlatform 5 sampleMount).1 [114, 58, 47, 115, 117, 98] true
      [115, 117, 98] (by decide)
  · obtain ⟨D, r, h1, h2, h3⟩ :=
      (navigateToDir_start newlibPlatform 5 sampleMount).2.2.2.2.2 [47, 115, 117, 98]
        { sampleMount with cwd := 24 } (by decide)
    have hD : navigateToDir newlibPlatform 5 sampleMount [47, 115, 117, 98] true
        = some (.ok (24, [])) := by decide
    rw [hD] at h1
    simp only [Option.some.injEq, Except.ok.injEq, Prod.mk.injEq] at h1
    have h4 := (h3 [98, 46, 98, 105, 110] false 98 [46, 98, 105, 110] (by decide) (by decide)).2
    rw [← h1.1] at h4
    exact h4

/-! ## `romfs_stat`: directory first, file second -/

/-- The order of the lookups of `romfs_stat`: when the leading components of a
path resolve to the directory `Pd` and a non-empty final component `n` is
left, the result is that of `fillDir` for the child directory that
`searchForDir` finds, whatever `searchForFile` would find; otherwise that of
`fillFile` for the file that `searchForFile` finds; otherwise `ENOENT`. An
`EFAULT` of either lookup is reported as `EFAULT`. -/
theorem romfs_stat_dir_then_file (P : Platform) (fuel : Nat) (m : romfs_mount)
    (path : List Nat) (Pd : Nat) (n : List Nat)
    (hnav : navigateToDir P fuel m path false = some (.ok (Pd, n))) (hn : n ≠ []) :
    (∀ d, searchForDir fuel m Pd n (strlen n % U32) = some (.ok d) →
        romfs_stat P fuel m path = (fillDir P fuel m d).map Except.ok
          ∧ ∀ st, fillDir P fuel m d = some st → romfs_stat P fuel m path = some (.ok st))
    ∧ (searchForDir fuel m Pd n (strlen n % U32) = some (.error Errno.ENOENT) →
        ∀ f, searchForFile fuel m Pd n (strlen n % U32) = some (.ok f) →
          romfs_stat P fuel m path = some (.ok (fillFile P m f)))
    ∧ (searchForDir fuel m Pd n (strlen n % U32) = some (.error Errno.ENOENT) →
        searchForFile fuel m Pd n (strlen n % U32) = some (.error Errno.ENOENT) →
          romfs_stat P fuel m path = some (.error Errno.ENOENT))
    ∧ (searchForDir fuel m Pd n (strlen n % U32) = some (.error Errno.EFAULT) →
        romfs_stat P fuel m path = some (.error Errno.EFAULT))
    ∧ (searchForDir fuel m Pd n (strlen n % U32) = some (.error Errno.ENOENT) →
        searchForFile fuel m Pd n (strlen n % U32) = some (.error Errno.EFAULT) →
          romfs_stat P fuel m path = some (.error Errno.EFAULT)) := by
  unfold romfs_stat
  rw [hnav]
  simp only [romfs_stat_tail, if_neg hn]
  refine ⟨?_, ?_, ?_, ?_, ?_⟩
  · intro d hd
    rw [hd]
    refine ⟨rfl, ?_⟩
    intro st hst
    simp only [hst, Option.map_some']
  · intro hd f hf
    rw [hd, hf]
    simp
  · intro hd hf
    rw [hd, hf]
    simp
  · intro hd
    rw [hd]
    simp
  · intro hd hf
    rw [hd, hf]
    simp

/-- The order of the lookups on the sample image: `/sub` is stat-ed as the
directory at offset 24, `/a.txt` as the file at offset 0, and `/m` is not
found. -/
theorem romfs_stat_dir_then_file_witness :
    romfs_stat newlibPlatform 5 sampleMount [47, 115, 117, 98]
        = (fillDir newlibPlatform 5 sampleMount 24).map Except.ok
      ∧ romfs_stat newlibPlatform 5 sampleMount [47, 97, 46, 116, 120, 116]
        = some (.ok (fillFile newlibPlatform sampleMount 0))
      ∧ romfs_stat newlibPlatform 5 sampleMount [47, 109] = some (.error Errno.ENOENT) :=
  ⟨((romfs_stat_dir_then_file newlibPlatform 5 sampleMount [47, 115, 117, 98] 0 [115, 117, 98]
      (by decide) (by decide)).1 24 (by decide)).1,
   (romfs_stat_dir_then_file newlibPlatform 5 sampleMount [47, 97, 46, 116, 120, 116] 0
      [97, 46, 116, 120, 116] (by decide) (by decide)).2.1 (by decide) 0 (by decide),
   (romfs_stat_dir_then_file newlibPlatform 5 sampleMount [47, 109] 0 [109]
      (by decide) (by decide)).2.2.1 (by decide) (by decide)⟩

/-! ## Wrong record kind: what `romfs_open` and the resolver report -/

theorem searchForDirLoop_error (m : romfs_mount) (p nl : Nat) (nm : List Nat) :
    ∀ (fuel a : Nat) (e : Errno), searchForDirLoop m p nm nl fuel a = some (.error e) →
      e = Errno.ENOENT ∨ e = Errno.EFAULT := by
  intro fuel
  induction fuel with
  | zero => intro a e h; simp [searchForDirLoop] at h
  | succ f ih =>
    intro a e h
    simp only [searchForDirLoop] at h
    split at h
    · left; simpa using h.symm
    · split at h
      · right; simpa using h.symm
      · split at h
        · exact ih _ e h
        · split at h
          · exact ih _ e h
          · split at h
            · exact ih _ e h
            · simp at h

theorem searchForFileLoop_error (m : romfs_mount) (p nl : Nat) (nm : List Nat) :
    ∀ (fuel a : Nat) (e : Errno), searchForFileLoop m p nm nl fuel a = some (.error e) →
      e = Errno.ENOENT ∨ e = Errno.EFAULT := by
  intro fuel
  induction fuel with
  | zero => intro a e h; simp [searchForFileLoop] at h
  | succ f ih =>
    intro a e h
    simp only [searchForFileLoop] at h
    split at h
    · left; simpa using h.symm
    · split at h
      · right; simpa using h.symm
      · split at h
        · exact ih _ e h
        · split at h
          · exact ih _ e h
          · split at h
            · exact ih _ e h
            · simp at h

/-- The error numbers path resolution can report. -/
theorem navigateLoop_error (P : Platform) (fuel : Nat) (m : romfs_mount) (isDir : Bool) :
    ∀ (n dir : Nat) (path : List Nat) (e : Errno),
      navigateLoop P fuel m isDir n dir path = some (.error e) →
      e = Errno.EILSEQ ∨ e = Errno.ENAMETOOLONG ∨ e = Errno.EFAULT ∨ e = Errno.ENOENT := by
  intro n
  induction n with
  | zero => intro dir path e h; simp [navigateLoop] at h
  | succ n ih =>
    intro dir path e h
    simp only [navigateLoop] at h
    split at h
    · simp at h
    · split at h
      · simp at h
      · rename_i e1 hstep
        have he : e1 = e := by simpa using h
        subst he
        split at hstep
        · split at hstep
          · left; simpa using hstep.symm
          · split at hstep
            · right; left; simpa using hstep.symm
            · simp at hstep
        · split at hstep <;> simp at hstep
      · split at h
        · exact ih _ _ e h
        · split at h
          · split at h
            · right; right; left; simpa using h.symm
            · exact ih _ _ e h
          · split at h
            · simp at h
            · rename_i e1 hs
              have he : e1 = e := by simpa using h
              subst he
              unfold searchForDir at hs
              rcases searchForDirLoop_error _ _ _ _ _ _ _ hs with h1 | h1
              · right; right; right; exact h1
              · right; right; left; exact h1
            · exact ih _ _ e h

theorem strchr_append_sep (comp rest : List Nat) (h : ∀ c ∈ comp, c ≠ 47) :
    strchr (comp ++ 47 :: rest) 47 = some comp.length := by
  induction comp with
  | nil => simp [strchr]
  | cons c tl ih =>
    have hc : c ≠ 47 := h c (List.mem_cons_self c tl)
    have htl : ∀ x ∈ tl, x ≠ 47 := fun x hx => h x (List.mem_cons_of_mem c hx)
    simp [strchr, hc, ih htl]

theorem component_not_dot (comp : List Nat) (hc : IsComponent comp) (hd : comp ≠ [46]) :
    ¬ (byteAt comp 0 = 46 ∧ byteAt comp 1 = 0) := by
  obtain ⟨hne, hb, _⟩ := hc
  intro ⟨h0, h1⟩
  match comp, hne, hb, hd, h0, h1 with
  | [c], _, hb, hd, h0, _ =>
    have := hb c (List.mem_singleton.mpr rfl)
    simp [byteAt] at h0
    apply hd
    have : c = 46 := by omega
    rw [this]
  | c :: d :: tl, _, hb, _, _, h1 =>
    have := hb d (by simp)
    simp [byteAt] at h1
    omega

theorem component_not_dotdot (comp : List Nat) (hc : IsComponent comp) (hd : comp ≠ [46, 46]) :
    ¬ (byteAt comp 0 = 46 ∧ byteAt comp 1 = 46 ∧ byteAt comp 2 = 0) := by
  obtain ⟨hne, hb, _⟩ := hc
  intro ⟨h0, h1, h2⟩
  match comp, hne, hb, hd, h0, h1, h2 with
  | [c], _, _, _, _, h1, _ =>
    simp [byteAt] at h1
  | [c, d], _, hb, hd, h0, h1, _ =>
    have hc := hb c (by simp)
    have hd2 := hb d (by simp)
    simp [byteAt] at h0 h1
    apply hd
    have e1 : c = 46 := by omega
    have e2 : d = 46 := by omega
    rw [e1, e2]
  | c :: d :: x :: tl, _, hb, _, _, _, h2 =>
    have := hb x (by simp)
    simp [byteAt] at h2
    omega

/-- One iteration of the resolver on a `/`-terminated component that is neither
`.` nor `..`: the component is looked up with `searchForDir` in the current
directory and the loop goes on in the directory found, or fails with the
error of the lookup. -/
theorem navigateLoop_component (P : Platform) (fuel : Nat) (m : romfs_mount) (isDir : Bool)
    (k dir : Nat) (comp rest : List Nat) (hc : IsComponent comp)
    (hlen : comp.length ≤ P.PATH_MAX) (h32 : comp.length < 2 ^ 32)
    (hdot : comp ≠ [46]) (hdotdot : comp ≠ [46, 46]) :
    navigateLoop P fuel m isDir (k + 1) dir (comp ++ 47 :: rest)
      = match searchForDir fuel m dir comp (strlen comp % U32) with
        | none => none
        | some (.error e) => some (.error e)
        | some (.ok d) => navigateLoop P fuel m isDir k d rest := by
  have hne : comp ++ 47 :: rest ≠ [] := by simp
  have hmod : comp.length % U32 = comp.length := Nat.mod_eq_of_lt (by unfold U32; exact h32)
  have hpos : comp.length ≠ 0 := by
    have := hc.1
    intro h0
    exact this (List.length_eq_zero.mp h0)
  simp only [navigateLoop, if_neg hne, strchr_append_sep comp rest hc.2.2, hmod, if_neg hpos,
    if_neg (Nat.not_lt.mpr hlen)]
  have htake : List.take comp.length (comp ++ 47 :: rest) = comp := by simp
  have hdrop : List.drop (comp.length + 1) (comp ++ 47 :: rest) = rest := by
    rw [← List.drop_drop]
    simp
  simp only [htake, hdrop, if_neg (component_not_dot comp hc hdot),
    if_neg (component_not_dotdot comp hc hdotdot)]

theorem navigateToDir_error (P : Platform) (fuel : Nat) (m : romfs_mount) (path : List Nat)
    (isDir : Bool) (e : Errno) (h : navigateToDir P fuel m path isDir = some (.error e)) :
    e = Errno.EILSEQ ∨ e = Errno.ENAMETOOLONG ∨ e = Errno.EFAULT ∨ e = Errno.ENOENT := by
  unfold navigateToDir at h
  simp only at h
  split at h
  · left; simpa using h.symm
  · split at h
    · exact navigateLoop_error P fuel m isDir _ _ _ e h
    · exact navigateLoop_error P fuel m isDir _ _ _ e h

/-- C6 (counterexample): on the sample image `sub` is a directory of the root
and no file, yet `romfs_open` on `/sub` fails with `ENOENT`, not `EISDIR`;
`A.TXT` is a file of the root and no directory, yet resolving `/A.TXT/x` fails
with `ENOENT`, not `ENOTDIR`. -/
theorem wrong_kind_reported_as_ENOENT :
    searchForDir 5 sampleMount 0 [115, 117, 98] 3 = some (.ok 24)
      ∧ searchForFile 5 sampleMount 0 [115, 117, 98] 3 = some (.error Errno.ENOENT)
      ∧ romfs_open newlibPlatform 5 sampleMount [47, 115, 117, 98] 0
          = some (.error Errno.ENOENT)
      ∧ romfs_open newlibPlatform 5 sampleMount [47, 115, 117, 98] 0
          ≠ some (.error Errno.EISDIR)
      ∧ searchForFile 5 sampleMount 0 [65, 46, 84, 88, 84] 5 = some (.ok 0)
      ∧ searchForDir 5 sampleMount 0 [65, 46, 84, 88, 84] 5 = some (.error Errno.ENOENT)
      ∧ navigateToDir newlibPlatform 5 sampleMount [47, 65, 46, 84, 88, 84, 47, 120] false
          = some (.error Errno.ENOENT)
      ∧ navigateToDir newlibPlatform 5 sampleMount [47, 65, 46, 84, 88, 84, 47, 120] false
          ≠ some (.error Errno.ENOTDIR) := by
  decide

/-- C6 (amended): a wrong record kind is reported like absence. `romfs_open`
and path resolution never fail with `EISDIR` or `ENOTDIR`; when the final
component names no file of the resolved parent (whether or not it names a
directory there), a read-only `romfs_open` without `O_CREAT` fails with
`ENOENT`; and when a `/`-terminated component other than `.` and `..` names no
directory of the current directory (whether or not it names a file there),
resolution fails with `ENOENT`. -/
theorem wrong_kind_is_not_distinguished (P : Platform) (fuel : Nat) (m : romfs_mount) :
    (∀ (path : List Nat) (flags : Nat) (e : Errno),
        romfs_open P fuel m path flags = some (.error e) →
        e ≠ Errno.EISDIR ∧ e ≠ Errno.ENOTDIR)
    ∧ (∀ (path : List Nat) (isDir : Bool) (e : Errno),
        navigateToDir P fuel m path isDir = some (.error e) →
        e ≠ Errno.EISDIR ∧ e ≠ Errno.ENOTDIR)
    ∧ (∀ (path : List Nat) (flags Pd : Nat) (n : List Nat),
        flags &&& P.O_ACCMODE = P.O_RDONLY → flags &&& P.O_CREAT = 0 →
        navigateToDir P fuel m path false = some (.ok (Pd, n)) →
        searchForFile fuel m Pd n (strlen n % U32) = some (.error Errno.ENOENT) →
        romfs_open P fuel m path flags = some (.error Errno.ENOENT))
    ∧ (∀ (isDir : Bool) (k dir : Nat) (comp rest : List Nat), IsComponent comp →
        comp.length ≤ P.PATH_MAX → comp.length < 2 ^ 32 → comp ≠ [46] → comp ≠ [46, 46] →
        searchForDir fuel m dir comp (strlen comp % U32) = some (.error Errno.ENOENT) →
        navigateLoop P fuel m isDir (k + 1) dir (comp ++ 47 :: rest)
          = some (.error Errno.ENOENT)) := by
  have hnav : ∀ (path : List Nat) (isDir : Bool) (e : Errno),
      navigateToDir P fuel m path isDir = some (.error e) →
      e ≠ Errno.EISDIR ∧ e ≠ Errno.ENOTDIR := by
    intro path isDir e h
    rcases navigateToDir_error P fuel m path isDir e h with h1 | h1 | h1 | h1 <;>
      subst h1 <;> exact ⟨by decide, by decide⟩
  refine ⟨?_, hnav, ?_, ?_⟩
  · intro path flags e h
    unfold romfs_open at h
    split at h
    · have : e = Errno.EROFS := by simpa using h.symm
      subst this
      exact ⟨by decide, by decide⟩
    · split at h
      · simp at h
      · rename_i e1 hn
        have he : e1 = e := by simpa using h
        subst he
        exact hnav path false e1 hn
      · split at h
        · simp at h
        · rename_i ret hs
          have hret : ret = Errno.ENOENT ∨ ret = Errno.EFAULT := by
            unfold searchForFile at hs
            exact searchForFileLoop_error _ _ _ _ _ _ _ hs
          split at h
          · have : e = Errno.EROFS := by simpa using h.symm
            subst this
            exact ⟨by decide, by decide⟩
          · have he : ret = e := by simpa using h
            subst he
            rcases hret with h1 | h1 <;> subst h1 <;> exact ⟨by decide, by decide⟩
        · split at h
          · have : e = Errno.EEXIST := by simpa using h.symm
            subst this
            exact ⟨by decide, by decide⟩
          · simp at h
  · intro path flags Pd n hacc hcreat hn hs
    unfold romfs_open
    simp [hacc, hcreat, hn, hs]
  · intro isDir k dir comp rest hc hlen h32 hdot hdotdot hs
    rw [navigateLoop_component P fuel m isDir k dir comp rest hc hlen h32 hdot hdotdot, hs]

/-- Witness for C6 (amended) on the sample image: opening the directory `/sub`
and resolving through the file `A.TXT` both fail with `ENOENT`. -/
theorem wrong_kind_is_not_distinguished_witness :
    romfs_open newlibPlatform 5 sampleMount [47, 115, 117, 98] 0 = some (.error Errno.ENOENT)
      ∧ navigateLoop newlibPlatform 5 sampleMount false (2 + 1) 0
          ([65, 46, 84, 88, 84] ++ 47 :: [120]) = some (.error Errno.ENOENT)
      ∧ (Errno.ENOENT ≠ Errno.EISDIR ∧ Errno.ENOENT ≠ Errno.ENOTDIR) :=
  ⟨(wrong_kind_is_not_distinguished newlibPlatform 5 sampleMount).2.2.1 [47, 115, 117, 98] 0 0
      [115, 117, 98] (by decide) (by decide) (by decide) (by decide),
   (wrong_kind_is_not_distinguished newlibPlatform 5 sampleMount).2.2.2 false 2 0
      [65, 46, 84, 88, 84] [120] (by decide) (by decide) (by decide) (by decide) (by decide)
      (by decide),
   (wrong_kind_is_not_distinguished newlibPlatform 5 sampleMount).1 [47, 115, 117, 98] 0
      Errno.ENOENT (by decide)⟩

/-! ## `romfs_seek` -/

theorem toInt64_of_lt (x : Nat) (h : x < 2 ^ 63) : toInt64 x = (x : Int) := by
  unfold toInt64 U64
  have e : x % 2 ^ 64 = x := Nat.mod_eq_of_lt (by omega)
  rw [e, if_pos h]

theorem wrapInt64_of_range (x : Int) (h1 : -(2 ^ 63) ≤ x) (h2 : x < 2 ^ 63) :
    wrapInt64 x = x := by
  unfold wrapInt64 toInt64 toUInt64 U64
  split <;> omega

theorem toUInt64_of_nonneg (x : Int) (h1 : 0 ≤ x) (h2 : x < 2 ^ 64) :
    toUInt64 x = x.toNat := by
  unfold toUInt64 U64
  congr 1
  omega

/-- Where the stored position and data size are below `2^63`, `romfs_seek`
does what its comments say: `EINVAL` for an unknown `whence` or a negative
target, `EOVERFLOW` for a target above `INT64_MAX`, position unchanged in both
cases; otherwise the target is stored and returned. -/
theorem romfs_seek_of_small (m : romfs_mount) (file : romfs_fileobj) (pos dir : Int)
    (hpos : file.pos < 2 ^ 63) (hsize : file_dataSize m file.file < 2 ^ 63)
    (h1 : -(2 ^ 63) ≤ pos) (h2 : pos < 2 ^ 63) :
    (dir ≠ SEEK_SET → dir ≠ SEEK_CUR → dir ≠ SEEK_END →
        romfs_seek m file pos dir = { ret := -1, errno := some Errno.EINVAL, file := file })
    ∧ (dir = SEEK_SET ∨ dir = SEEK_CUR ∨ dir = SEEK_END →
        (seekStart m file dir + pos < 0 →
          romfs_seek m file pos dir = { ret := -1, errno := some Errno.EINVAL, file := file })
        ∧ (INT64_MAX < seekStart m file dir + pos →
          romfs_seek m file pos dir = { ret := -1, errno := some Errno.EOVERFLOW, file := file })
        ∧ (0 ≤ seekStart m file dir + pos → seekStart m file dir + pos ≤ INT64_MAX →
          romfs_seek m file pos dir
            = { ret := seekStart m file dir + pos
                errno := none
                file := { file with pos := (seekStart m file dir + pos).toNat } })) := by
  have key : ∀ (start : Int), 0 ≤ start → start < 2 ^ 63 →
      (start + pos < 0 →
        romfs_seek_from file start pos = { ret := -1, errno := some Errno.EINVAL, file := file })
      ∧ (INT64_MAX < start + pos →
        romfs_seek_from file start pos
          = { ret := -1, errno := some Errno.EOVERFLOW, file := file })
      ∧ (0 ≤ start + pos → start + pos ≤ INT64_MAX →
        romfs_seek_from file start pos
          = { ret := start + pos, errno := none
              file := { file with pos := (start + pos).toNat } }) := by
    intro start hs0 hs1
    unfold INT64_MAX
    refine ⟨?_, ?_, ?_⟩
    · intro h
      have hneg : pos < 0 := by omega
      have hw : wrapInt64 (start + pos) = start + pos :=
        wrapInt64_of_range _ (by omega) (by omega)
      simp only [romfs_seek_from, if_pos hneg, hw, if_pos h]
    · intro h
      have hneg : ¬ pos < 0 := by omega
      have hov : INT64_MAX - pos < start := by unfold INT64_MAX; omega
      simp only [romfs_seek_from, if_neg hneg, if_pos hov]
    · intro h3 h4
      have hw : wrapInt64 (start + pos) = start + pos :=
        wrapInt64_of_range _ (by omega) (by omega)
      have hu : toUInt64 (start + pos) = (start + pos).toNat :=
        toUInt64_of_nonneg _ h3 (by omega)
      have hr : toInt64 (start + pos).toNat = start + pos := by
        rw [toInt64_of_lt _ (by omega)]
        omega
      by_cases hneg : pos < 0
      · simp only [romfs_seek_from, if_pos hneg, hw, if_neg (Int.not_lt.mpr h3), hu, hr]
      · have hov : ¬ INT64_MAX - pos < start := by unfold INT64_MAX; omega
        simp only [romfs_seek_from, if_neg hneg, if_neg hov, hw, hu, hr]
  constructor
  · intro d1 d2 d3
    simp only [romfs_seek, if_neg d1, if_neg d2, if_neg d3]
  · intro hd
    by_cases d1 : dir = SEEK_SET
    · have := key 0 (by omega) (by omega)
      simpa only [romfs_seek, seekStart, if_pos d1] using this
    · by_cases d2 : dir = SEEK_CUR
      · have := key (file.pos : Int) (by omega) (by omega)
        rw [← toInt64_of_lt _ hpos] at this
        simp only [romfs_seek, seekStart, if_neg d1, if_pos d2]
        rw [← toInt64_of_lt _ hpos]
        exact this
      · have d3 : dir = SEEK_END := by
          rcases hd with h | h | h
          · exact absurd h d1
          · exact absurd h d2
          · exact h
        have := key (file_dataSize m file.file : Int) (by omega) (by omega)
        rw [← toInt64_of_lt _ hsize] at this
        simp only [romfs_seek, seekStart, if_neg d1, if_neg d2, if_pos d3]
        rw [← toInt64_of_lt _ hsize]
        exact this

/-- C10 (evaluation at the failing input): for the file `/f` of
`hugeFileMount`, whose stored `dataSize` is `2^63`, `romfs_seek(0, SEEK_END)`
on the freshly opened file succeeds, stores the position `2^63` and returns
`-2^63`, a negative value, whereas the target `dataSize + 0` exceeds
`INT64_MAX`. -/
theorem romfs_seek_end_returns_negative :
    romfs_open newlibPlatform 5 hugeFileMount [47, 102] 0
        = some (.ok { file := 0, offset := 0x200, pos := 0 })
      ∧ file_dataSize hugeFileMount 0 = 2 ^ 63
      ∧ INT64_MAX < seekStart hugeFileMount { file := 0, offset := 0x200, pos := 0 } SEEK_END + 0
      ∧ romfs_seek hugeFileMount { file := 0, offset := 0x200, pos := 0 } 0 SEEK_END
          = { ret := -(2 ^ 63), errno := none, file := { file := 0, offset := 0x200, pos := 2 ^ 63 } }
      ∧ (romfs_seek hugeFileMount { file := 0, offset := 0x200, pos := 0 } 0 SEEK_END).ret < 0 := by
  decide

/-! ## `romfs_read` -/

theorem cafeChunkSize_bounds (len bytesRead ptr : Nat) (h : bytesRead < len) (h32 : len < 2 ^ 32) :
    1 ≤ cafeChunkSize len bytesRead ptr ∧ cafeChunkSize len bytesRead ptr ≤ len - bytesRead := by
  have e : (len - bytesRead) % U32 = len - bytesRead :=
    Nat.mod_eq_of_lt (by unfold U32; omega)
  unfold cafeChunkSize
  simp only [e]
  split <;> split <;> try split
  all_goals omega

/-- The CafeOS loop returns for every byte source when the length fits 32
bits: each iteration either leaves the loop or reads at least one byte. -/
theorem cafeReadLoop_returns (B : ByteSource) (len : Nat) (h32 : len < 2 ^ 32) :
    ∀ (fuel pos bytesRead ptr : Nat) (acc : List Nat),
      bytesRead ≤ len → len - bytesRead < fuel →
      ∃ r, cafeReadLoop B len fuel pos bytesRead ptr acc = some r := by
  intro fuel
  induction fuel with
  | zero => intro pos br ptr acc _ h; omega
  | succ f ih =>
    intro pos br ptr acc hle hf
    simp only [cafeReadLoop]
    by_cases hlt : br < len
    · have hb := cafeChunkSize_bounds len br ptr hlt h32
      simp only [hlt, not_true_eq_false, if_false]
      split
      · split <;> exact ⟨_, rfl⟩
      · split
        · exact ⟨_, rfl⟩
        · rename_i hn
          have hn2 : (B.FSAReadFileWithPos (cafeChunkSize len br ptr) pos).status.toNat % U32
              = cafeChunkSize len br ptr := by
            by_contra hc
            exact hn hc
          rw [hn2]
          have e : (br + cafeChunkSize len br ptr) % U32 = br + cafeChunkSize len br ptr :=
            Nat.mod_eq_of_lt (by unfold U32; omega)
          rw [e]
          exact ih _ _ _ _ (by omega) (by omega)
    · simp only [hlt, not_false_eq_true, if_true]
      exact ⟨_, rfl⟩

/-- The function `_romfs_read` returns for every byte source when the length
fits 32 bits. -/
theorem _romfs_read_returns (B : ByteSource) (m : romfs_mount) (readOffset ptr readSize : Nat)
    (h32 : readSize < 2 ^ 32) : ∃ r, _romfs_read B m readOffset ptr readSize = some r := by
  unfold _romfs_read
  split
  · exact ⟨_, rfl⟩
  · simp only
    split
    · split <;> exact ⟨_, rfl⟩
    · exact cafeReadLoop_returns B readSize h32 _ _ _ _ _ (Nat.zero_le _) (by omega)
    · exact ⟨_, rfl⟩

theorem rd64_lt (t : List Nat) (i : Nat) : rd64 t i < 2 ^ 64 := by
  unfold rd64
  have h0 := rd32_lt t i
  have h1 := rd32_lt t (i + 4)
  omega

/-- The truncated length `romfs_read` passes on, where `pos + len` does not
wrap in 64 bits. -/
theorem romfs_read_len (pos len size : Nat) (hlt : pos < size) (hsize : size < 2 ^ 64)
    (hlen : len < 2 ^ 32) (hw : pos + len < 2 ^ 64) :
    ((if (pos + len) % U64 > size then size else (pos + len) % U64) + U64 - pos) % U64 % U32
      = min len (size - pos) := by
  have e : (pos + len) % U64 = pos + len := Nat.mod_eq_of_lt (by unfold U64; omega)
  rw [e]
  unfold U64 U32
  split <;> omega

theorem romfs_seek_end_zero (m : romfs_mount) (file : romfs_fileobj) :
    romfs_seek m file 0 SEEK_END
      = { ret := toInt64 (file_dataSize m file.file)
          errno := none
          file := { file with pos := file_dataSize m file.file } } := by
  have hs := tbl64_lt m.fileTableBefore m.fileTable (file.file + 16)
  have hsz : file_dataSize m file.file < 2 ^ 64 := hs
  have d1 : ¬ SEEK_END = SEEK_SET := by decide
  have d2 : ¬ SEEK_END = SEEK_CUR := by decide
  have hr : -(2 ^ 63) ≤ toInt64 (file_dataSize m file.file)
      ∧ toInt64 (file_dataSize m file.file) < 2 ^ 63 := by
    unfold toInt64 U64
    split <;> omega
  have hov : ¬ INT64_MAX - 0 < toInt64 (file_dataSize m file.file) := by
    unfold INT64_MAX; omega
  have hw : wrapInt64 (toInt64 (file_dataSize m file.file) + 0)
      = toInt64 (file_dataSize m file.file) := by
    rw [Int.add_zero]
    exact wrapInt64_of_range _ hr.1 hr.2
  have hu : toUInt64 (toInt64 (file_dataSize m file.file)) = file_dataSize m file.file := by
    unfold toUInt64 toInt64 U64
    split <;> omega
  simp only [romfs_seek, if_neg d1, if_neg d2, if_true, romfs_seek_from,
    if_neg (show ¬ (0 : Int) < 0 by decide), if_neg hov, hw, hu]

/-- Inside the file and without 64-bit wrap of `pos + len`, `romfs_read` is
determined by what `_romfs_read` returns for the truncated request: a count
`>= 0` is returned and added to the position, a negative one becomes `EIO`. -/
theorem romfs_read_inside (B : ByteSource) (m : romfs_mount) (file : romfs_fileobj)
    (ptr len : Nat) (hlen : len < 2 ^ 32) (hlt : file.pos < file_dataSize m file.file)
    (hw : file.pos + len < 2 ^ 64) (r : RawRead)
    (hr : _romfs_read B m ((file.offset + file.pos) % U64) ptr
      (min len (file_dataSize m file.file - file.pos)) = some r) :
    romfs_read B m file ptr len
      = some (if r.ret ≥ 0 then
          { ret := r.ret
            errno := none
            file := { file with pos := (file.pos + r.ret.toNat) % U64 }
            data := r.data.take r.ret.toNat
            request := some ((file.offset + file.pos) % U64,
              min len (file_dataSize m file.file - file.pos)) }
        else
          { ret := -1
            errno := some Errno.EIO
            file := file
            data := []
            request := some ((file.offset + file.pos) % U64,
              min len (file_dataSize m file.file - file.pos)) }) := by
  have hsz : file_dataSize m file.file < 2 ^ 64 := tbl64_lt _ _ _
  have hl := romfs_read_len file.pos len (file_dataSize m file.file) hlt hsz hlen hw
  simp only [romfs_read, if_neg (Nat.not_le.mpr hlt), hl, hr]
  split <;> rfl

/-- C7 (evaluation at the failing input): for the file of `nearMaxFileMount`
(`dataSize` `2^64 - 5`) at position `2^64 - 10`, a read of 20 bytes is not
truncated to the 5 bytes before end-of-file: `endPos = pos + len` wraps in 64
bits to 10, the test `endPos > dataSize` of the truncation step is false,
`romfs_read` asks `_romfs_read` for 20 bytes and returns 20. -/
theorem romfs_read_wraps_past_eof :
    file_dataSize nearMaxFileMount 0 = 2 ^ 64 - 5
      ∧ min 20 (file_dataSize nearMaxFileMount 0 - (2 ^ 64 - 10)) = 5
      ∧ romfs_read (imageSource (fun _ => 0)) nearMaxFileMount
          { file := 0, offset := 0x200, pos := 2 ^ 64 - 10 } 0 20
        = some { ret := 20
                 errno := none
                 file := { file := 0, offset := 0x200, pos := 10 }
                 data := List.replicate 20 0
                 request := some (502, 20) } := by
  decide

/-- What `romfs_read` requests where the sum `pos + len` does not wrap: for an
open file with data size `dataSize`, position `pos` and requested length
`len` (a 32-bit `size_t`): if `pos >= dataSize`,
`romfs_read` returns 0 with no error, makes no call of `_romfs_read` and
leaves the position unchanged, so a read right after `seek(SEEK_END, 0)`
returns 0; otherwise, provided `pos + len < 2^64`, it returns, having asked
`_romfs_read` for exactly `min len (dataSize - pos)` bytes at image offset
`offset + pos` (in 64 bits), which ends at or before the file's end. -/
theorem romfs_read_request (B : ByteSource) (m : romfs_mount) (file : romfs_fileobj)
    (ptr len : Nat) (hlen : len < 2 ^ 32) :
    (file.pos ≥ file_dataSize m file.file →
        romfs_read B m file ptr len
          = some { ret := 0, errno := none, file := file, data := [], request := none })
    ∧ romfs_read B m (romfs_seek m file 0 SEEK_END).file ptr len
        = some { ret := 0, errno := none, file := (romfs_seek m file 0 SEEK_END).file
                 data := [], request := none }
    ∧ (file.pos < file_dataSize m file.file → file.pos + len < 2 ^ 64 →
        ∃ out, romfs_read B m file ptr len = some out
          ∧ out.request
              = some ((file.offset + file.pos) % U64, min len (file_dataSize m file.file - file.pos))
          ∧ file.pos + min len (file_dataSize m file.file - file.pos)
              ≤ file_dataSize m file.file) := by
  have hpast : ∀ f : romfs_fileobj, f.pos ≥ file_dataSize m f.file →
      romfs_read B m f ptr len
        = some { ret := 0, errno := none, file := f, data := [], request := none } := by
    intro f h
    simp only [romfs_read, if_pos h]
  refine ⟨hpast file, ?_, ?_⟩
  · apply hpast
    rw [romfs_seek_end_zero]
  · intro hlt hw
    have hmin : min len (file_dataSize m file.file - file.pos) < 2 ^ 32 := by omega
    obtain ⟨r, hr⟩ := _romfs_read_returns B m ((file.offset + file.pos) % U64) ptr
      (min len (file_dataSize m file.file - file.pos)) hmin
    have hend : file.pos + min len (file_dataSize m file.file - file.pos)
        ≤ file_dataSize m file.file := by omega
    refine ⟨_, romfs_read_inside B m file ptr len hlen hlt hw r hr, ?_, hend⟩
    split <;> rfl

/-- The request of a read on the sample image: `A.TXT` has 16 bytes; a read
of 100 bytes at position 10 asks for 6 bytes at image offset `0x200 + 10`. -/
theorem romfs_read_request_witness :
    ∃ out, romfs_read shortSource sampleMount { file := 0, offset := 0x200, pos := 10 } 0 100
        = some out
      ∧ out.request = some ((0x200 + 10) % U64, min 100 (file_dataSize sampleMount 0 - 10))
      ∧ 10 + min 100 (file_dataSize sampleMount 0 - 10) ≤ file_dataSize sampleMount 0 :=
  (romfs_read_request shortSource sampleMount { file := 0, offset := 0x200, pos := 10 } 0 100
    (by decide)).2.2 (by decide) (by decide)

/-! ## `romfs_read` and failures of the byte source -/

theorem cafeChunkSize_le (len bytesRead ptr : Nat) :
    cafeChunkSize len bytesRead ptr ≤ 0x100000 := by
  have key : ∀ x : Nat, (if x > 0x100000 then 0x100000 else x) ≤ 0x100000 := by
    intro x
    split <;> omega
  unfold cafeChunkSize
  exact key _

theorem toInt32_of_lt (x : Nat) (h : x < 2 ^ 31) : toInt32 x = (x : Int) := by
  unfold toInt32 U32
  have e : x % 2 ^ 32 = x := Nat.mod_eq_of_lt (by omega)
  rw [e, if_pos h]

/-- C9 (counterexample): the request for the 16 bytes of `A.TXT` lies inside
the file; the byte source delivers only 4 bytes, and `romfs_read` returns the
short count 4 without error and advances the position to 4. Likewise, when
the source fails after 64 of 100 requested bytes, `romfs_read` returns 64. -/
theorem romfs_read_returns_short_count :
    romfs_read shortSource sampleMount { file := 0, offset := 0x200, pos := 0 } 0 16
        = some { ret := 4
                 errno := none
                 file := { file := 0, offset := 0x200, pos := 4 }
                 data := [0, 1, 2, 3]
                 request := some (0x200, 16) }
      ∧ (romfs_read (failingSource (0x200 + 64)) hugeFileMount
            { file := 0, offset := 0x200, pos := 0 } 0 100).map
          (fun o => (o.ret, o.errno, o.file.pos, o.request))
        = some (64, none, 64, some (0x200, 100)) := by
  decide

/-- C9 (amended): for a read whose truncated request `n = min len (dataSize -
pos)` lies inside the file, `romfs_read` fails with `EIO`, returning `-1` and
leaving the position unchanged, when `_romfs_read` returns a negative count,
as it does when the first `FSAReadFileWithPos` call fails or when `lseek` or
`read` fails; when `_romfs_read` returns a count `>= 0`, `romfs_read` returns
it without error and advances the position by it, also when it is short of the
request: a first `FSAReadFileWithPos` or a `read` that delivers `s` bytes,
fewer than asked, makes `romfs_read` return `s`. -/
theorem romfs_read_source_failure (B : ByteSource) (m : romfs_mount) (file : romfs_fileobj)
    (ptr len : Nat) (hlen : len < 2 ^ 32) (hpos : 0 < len)
    (hlt : file.pos < file_dataSize m file.file) (hw : file.pos + len < 2 ^ 64) :
    (∀ r, _romfs_read B m ((file.offset + file.pos) % U64) ptr
          (min len (file_dataSize m file.file - file.pos)) = some r →
        (r.ret < 0 →
          romfs_read B m file ptr len
            = some { ret := -1, errno := some Errno.EIO, file := file, data := []
                     request := some ((file.offset + file.pos) % U64,
                       min len (file_dataSize m file.file - file.pos)) })
        ∧ (0 ≤ r.ret →
          romfs_read B m file ptr len
            = some { ret := r.ret, errno := none
                     file := { file with pos := (file.pos + r.ret.toNat) % U64 }
                     data := r.data.take r.ret.toNat
                     request := some ((file.offset + file.pos) % U64,
                       min len (file_dataSize m file.file - file.pos)) }))
    ∧ (m.fd_type = RomfsSource.FileDescriptor_CafeOS →
        (B.FSAReadFileWithPos
            (cafeChunkSize (min len (file_dataSize m file.file - file.pos)) 0 ptr)
            ((m.offset + (file.offset + file.pos) % U64) % U64)).status < 0 →
        romfs_read B m file ptr len
          = some { ret := -1, errno := some Errno.EIO, file := file, data := []
                   request := some ((file.offset + file.pos) % U64,
                     min len (file_dataSize m file.file - file.pos)) })
    ∧ (m.fd_type = RomfsSource.FileDescriptor_CafeOS → ∀ (s : Nat) (bytes : List Nat),
        B.FSAReadFileWithPos
            (cafeChunkSize (min len (file_dataSize m file.file - file.pos)) 0 ptr)
            ((m.offset + (file.offset + file.pos) % U64) % U64)
          = { status := (s : Int), bytes := bytes } →
        s < cafeChunkSize (min len (file_dataSize m file.file - file.pos)) 0 ptr →
        romfs_read B m file ptr len
          = some { ret := (s : Int), errno := none
                   file := { file with pos := (file.pos + s) % U64 }
                   data := bytes.take s
                   request := some ((file.offset + file.pos) % U64,
                     min len (file_dataSize m file.file - file.pos)) })
    ∧ (m.fd_type = RomfsSource.FileDescriptor →
        (B.lseek (toInt64 ((m.offset + (file.offset + file.pos) % U64) % U64)) < 0
          ∨ toInt64 ((m.offset + (file.offset + file.pos) % U64) % U64)
              ≠ B.lseek (toInt64 ((m.offset + (file.offset + file.pos) % U64) % U64))) →
        romfs_read B m file ptr len
          = some { ret := -1, errno := some Errno.EIO, file := file, data := []
                   request := some ((file.offset + file.pos) % U64,
                     min len (file_dataSize m file.file - file.pos)) }) := by
  have hn0 : min len (file_dataSize m file.file - file.pos) ≠ 0 := by omega
  have hn32 : min len (file_dataSize m file.file - file.pos) < 2 ^ 32 := by omega
  have hinside := romfs_read_inside B m file ptr len hlen hlt hw
  refine ⟨?_, ?_, ?_, ?_⟩
  · intro r hr
    constructor
    · intro hneg
      rw [hinside r hr, if_neg (by omega)]
    · intro hge
      rw [hinside r hr, if_pos hge]
  · intro hfd hfail
    have hr : _romfs_read B m ((file.offset + file.pos) % U64) ptr
        (min len (file_dataSize m file.file - file.pos)) = some { ret := -1, data := [] } := by
      simp only [_romfs_read, if_neg hn0, hfd, cafeReadLoop]
      rw [if_neg (by omega), if_pos hfail]
      simp
    rw [hinside _ hr]
    simp
  · intro hfd s bytes hs hshort
    have hch := cafeChunkSize_le (min len (file_dataSize m file.file - file.pos)) 0 ptr
    have hs32 : s % U32 = s := Nat.mod_eq_of_lt (by unfold U32; omega)
    have hr : _romfs_read B m ((file.offset + file.pos) % U64) ptr
        (min len (file_dataSize m file.file - file.pos))
        = some { ret := (s : Int), data := bytes.take s } := by
      simp only [_romfs_read, if_neg hn0, hfd, cafeReadLoop]
      rw [if_neg (by omega), hs]
      simp only [Int.toNat_ofNat, hs32, Nat.zero_add, List.nil_append]
      rw [if_neg (by omega), if_pos (by omega), toInt32_of_lt s (by omega)]
    rw [hinside _ hr]
    simp [List.take_take]
  · intro hfd hseek
    have hr : _romfs_read B m ((file.offset + file.pos) % U64) ptr
        (min len (file_dataSize m file.file - file.pos)) = some { ret := -1, data := [] } := by
      simp only [_romfs_read, if_neg hn0, hfd]
      rw [if_pos hseek]
    rw [hinside _ hr]
    simp

/-- Witness for C9 (amended) on the sample image: a first `FSAReadFileWithPos`
that delivers 4 of the 16 bytes asked makes `romfs_read` return 4; one that
fails makes it fail with `EIO`. -/
theorem romfs_read_source_failure_witness :
    romfs_read shortSource sampleMount { file := 0, offset := 0x200, pos := 0 } 0 16
        = some { ret := 4, errno := none, file := { file := 0, offset := 0x200, pos := (0 + 4) % U64 }
                 data := [0, 1, 2, 3]
                 request := some ((0x200 + 0) % U64, min 16 (file_dataSize sampleMount 0 - 0)) }
      ∧ romfs_read (failingSource 0) sampleMount { file := 0, offset := 0x200, pos := 0 } 0 16
        = some { ret := -1, errno := some Errno.EIO, file := { file := 0, offset := 0x200, pos := 0 }
                 data := []
                 request := some ((0x200 + 0) % U64, min 16 (file_dataSize sampleMount 0 - 0)) } :=
  ⟨(romfs_read_source_failure shortSource sampleMount { file := 0, offset := 0x200, pos := 0 } 0 16
      (by decide) (by decide) (by decide) (by decide)).2.2.1 (by decide) 4 [0, 1, 2, 3]
      (by decide) (by decide),
   (romfs_read_source_failure (failingSource 0) sampleMount
      { file := 0, offset := 0x200, pos := 0 } 0 16
      (by decide) (by decide) (by decide) (by decide)).2.1 (by decide) (by decide)⟩

/-! ## Sequential reads against a byte source that delivers -/

theorem imgBytes_length (img : Nat → Nat) (pos n : Nat) : (imgBytes img pos n).length = n := by
  simp [imgBytes]

theorem imgBytes_add (img : Nat → Nat) (pos a b : Nat) :
    imgBytes img pos (a + b) = imgBytes img pos a ++ imgBytes img (pos + a) b := by
  unfold imgBytes
  rw [List.range_add, List.map_append, List.map_map]
  congr 1
  apply List.map_congr_left
  intro i _
  simp [Nat.add_assoc]

theorem imgBytes_take (img : Nat → Nat) (pos n : Nat) :
    (imgBytes img pos n).take n = imgBytes img pos n := by
  apply List.take_of_length_le
  rw [imgBytes_length]

theorem imageSource_delivers (img : Nat → Nat) : Delivers (imageSource img) img := by
  refine ⟨?_, ?_, ?_⟩
  · intro p hp
    simp [imageSource, hp]
  · intro off n _ _
    rfl
  · intro size pos
    rfl

/-- Against a byte source that delivers, the CafeOS loop reads all the bytes
still missing and returns the full length, converted to `ssize_t`. -/
theorem cafeReadLoop_delivers (B : ByteSource) (img : Nat → Nat) (hB : Delivers B img)
    (len : Nat) (h32 : len < 2 ^ 32) :
    ∀ (fuel pos bytesRead ptr : Nat) (acc : List Nat),
      bytesRead ≤ len → len - bytesRead < fuel → pos + (len - bytesRead) < 2 ^ 64 →
      cafeReadLoop B len fuel pos bytesRead ptr acc
        = some { ret := toInt32 len, data := acc ++ imgBytes img pos (len - bytesRead) } := by
  intro fuel
  induction fuel with
  | zero => intro pos br ptr acc _ h; omega
  | succ f ih =>
    intro pos br ptr acc hle hf hpos
    simp only [cafeReadLoop]
    by_cases hlt : br < len
    · have hb := cafeChunkSize_bounds len br ptr hlt h32
      have hc := cafeChunkSize_le len br ptr
      have hs : B.FSAReadFileWithPos (cafeChunkSize len br ptr) pos
          = { status := (cafeChunkSize len br ptr : Int)
              bytes := imgBytes img pos (cafeChunkSize len br ptr) } := hB.2.2 _ _
      have e32 : cafeChunkSize len br ptr % U32 = cafeChunkSize len br ptr :=
        Nat.mod_eq_of_lt (by unfold U32; omega)
      have ebr : (br + cafeChunkSize len br ptr) % U32 = br + cafeChunkSize len br ptr :=
        Nat.mod_eq_of_lt (by unfold U32; omega)
      have epos : (pos + cafeChunkSize len br ptr) % U64 = pos + cafeChunkSize len br ptr :=
        Nat.mod_eq_of_lt (by unfold U64; omega)
      simp only [hlt, not_true_eq_false, if_false, hs, Int.toNat_ofNat, e32, ebr, epos,
        imgBytes_take]
      rw [if_neg (by omega), if_neg (by simp)]
      rw [ih _ _ _ _ (by omega) (by omega) (by omega)]
      have hsplit : len - br = cafeChunkSize len br ptr + (len - (br + cafeChunkSize len br ptr)) := by
        omega
      rw [hsplit, imgBytes_add, List.append_assoc]
    · have hbr : br = len := by omega
      simp only [hlt, not_false_eq_true, if_true, hbr, Nat.sub_self]
      simp [imgBytes]

/-- Against a byte source that delivers, `_romfs_read` of `n` bytes, with the
range below `2^63`, stores the `n` image bytes at the position and returns `n`
converted to `ssize_t`. -/
theorem _romfs_read_delivers (B : ByteSource) (img : Nat → Nat) (hB : Delivers B img)
    (m : romfs_mount) (hfd : m.fd_type ≠ RomfsSource.other) (readOffset ptr n : Nat)
    (hn0 : 0 < n) (hn : n < 2 ^ 32)
    (hn31 : m.fd_type = RomfsSource.FileDescriptor → n < 2 ^ 31)
    (hrange : (m.offset + readOffset) % U64 + n < 2 ^ 63) :
    _romfs_read B m readOffset ptr n
      = some { ret := toInt32 n, data := imgBytes img ((m.offset + readOffset) % U64) n } := by
  have hne : n ≠ 0 := by omega
  simp only [_romfs_read, if_neg hne]
  cases hty : m.fd_type with
  | FileDescriptor =>
    have hp : toInt64 ((m.offset + readOffset) % U64) = (((m.offset + readOffset) % U64 : Nat) : Int) :=
      toInt64_of_lt _ (by omega)
    have hseek := hB.1 (toInt64 ((m.offset + readOffset) % U64)) (by rw [hp]; omega)
    have hmod : n % U32 = n := Nat.mod_eq_of_lt (by unfold U32; exact hn)
    have h31 : n < 2 ^ 31 := hn31 hty
    simp only [hseek]
    rw [if_neg (by rw [hp]; omega), hmod, hB.2.1 _ _ (by rw [hp]; omega) h31, hp]
    simp only [Int.toNat_ofNat, imgBytes_take]
    rw [toInt32_of_lt n h31]
  | FileDescriptor_CafeOS =>
    simp only
    rw [cafeReadLoop_delivers B img hB n hn (n + 1) _ 0 ptr [] (Nat.zero_le _) (by omega)
      (by omega)]
    simp
  | other => exact absurd hty hfd

/-- Why the read lengths are taken below `2^31`: were there a buffer of `2^31`
bytes, a single read of that length from the file of `twoGiBFileMount` would
fail with `EIO` although the byte source delivers every requested byte: the
count `2^31` does not fit the `ssize_t` that `_romfs_read` returns. -/
theorem readSeq_two_GiB_request_fails :
    Delivers (imageSource (fun _ => 0)) (fun _ => 0)
      ∧ file_dataSize twoGiBFileMount 0 = 0x80000000
      ∧ romfs_open newlibPlatform 5 twoGiBFileMount [47, 102] 0
          = some (.ok { file := 0, offset := 0x200, pos := 0 })
      ∧ readSeq (imageSource (fun _ => 0)) twoGiBFileMount
          { file := 0, offset := 0x200, pos := 0 } [(0, 0x80000000)]
        = some [{ ret := -1, errno := some Errno.EIO
                  file := { file := 0, offset := 0x200, pos := 0 }
                  data := [], request := some (0x200, 0x80000000) }] := by
  refine ⟨imageSource_delivers _, by decide, by decide, ?_⟩
  have hmin : min 0x80000000 (file_dataSize twoGiBFileMount 0 - 0) = 0x80000000 := by decide
  have hoff : (0x200 + 0) % U64 = 0x200 := by decide
  have hr := _romfs_read_delivers (imageSource (fun _ => 0)) (fun _ => 0)
    (imageSource_delivers _) twoGiBFileMount (by decide) 0x200 0 0x80000000 (by decide)
    (by decide) (fun h => absurd h (by decide)) (by decide)
  have hneg : ¬ toInt32 0x80000000 ≥ 0 := by decide
  have h := romfs_read_inside (imageSource (fun _ => 0)) twoGiBFileMount
    { file := 0, offset := 0x200, pos := 0 } 0 0x80000000 (by decide) (by decide) (by decide) _
    (by rw [hmin, hoff]; exact hr)
  rw [readSeq, h, if_neg hneg, hmin, hoff]
  rfl

theorem dirnextRun_add (P : Platform) (m : romfs_mount) :
    ∀ (a b : Nat) (it : romfs_diriter),
      dirnextRun P m (a + b) it = dirnextRun P m a it ++ dirnextRun P m b (dirnextIter P m a it)
        ∧ dirnextIter P m (a + b) it = dirnextIter P m b (dirnextIter P m a it) := by
  intro a
  induction a with
  | zero => intro b it; simp [dirnextRun, dirnextIter]
  | succ a ih =>
    intro b it
    have e : a + 1 + b = (a + b) + 1 := by omega
    rw [e]
    simp only [dirnextRun, dirnextIter, List.cons_append]
    exact ⟨by rw [(ih b _).1], (ih b _).2⟩

theorem strncpy_of_no_NUL (src : List Nat) (h : 0 ∉ src) : strncpy src src.length = src := by
  unfold strncpy
  rw [List.take_length]
  apply List.takeWhile_eq_self_iff.mpr
  intro c hc
  simp only [ne_eq, decide_not, Bool.not_eq_true', decide_eq_false_iff_not]
  intro h0
  exact h (h0 ▸ hc)

theorem dirNameList_length (m : romfs_mount) (off : Nat) :
    (dirNameList m off).length = dir_nameLen m off := by
  simp [dirNameList]

theorem fileNameList_length (m : romfs_mount) (off : Nat) :
    (fileNameList m off).length = file_nameLen m off := by
  simp [fileNameList]

/-- The calls that walk the chain of child directories. -/
theorem dirnextRun_childDirs (P : Platform) (m : romfs_mount) :
    ∀ (ds : List Nat) (it : romfs_diriter), it.state = 2 →
      dirSiblingChain m it.childDir ds →
      (∀ o ∈ ds, dir_nameLen m o < P.NAME_MAX ∧ 0 ∉ dirNameList m o) →
      (dirnextRun P m ds.length it).map (Except.map Prod.fst)
          = ds.map (fun o => Except.ok (dirNameList m o))
        ∧ dirnextIter P m ds.length it = { it with childDir := romFS_none } := by
  intro ds
  induction ds with
  | nil =>
    intro it _ hch _
    have h : it.childDir = romFS_none := hch
    refine ⟨rfl, ?_⟩
    simp only [List.length_nil, dirnextIter]
    rw [← h]
  | cons o rest ih =>
    intro it hst hch hn
    obtain ⟨hstart, hne, hin, hrest⟩ := hch
    have hno := hn o (List.mem_cons_self _ _)
    have hstep : romfs_dirnext P m it
        = (.ok (dirNameList m o,
            { zeroStat with st_ino := dir_inode P m o, st_mode := romFS_dir_mode }),
           { it with childDir := dir_sibling m o }) := by
      unfold romfs_dirnext
      rw [if_neg (by omega), if_neg (by omega), hstart, if_pos hne,
        romFS_dir_of_inBounds m o hin]
      simp only
      rw [if_neg (by omega), ← dirNameList_length, strncpy_of_no_NUL _ hno.2]
    have hih := ih { it with childDir := dir_sibling m o } hst hrest
      (fun x hx => hn x (List.mem_cons_of_mem _ hx))
    simp only [List.length_cons, dirnextRun, dirnextIter, hstep, List.map_cons]
    exact ⟨by rw [hih.1]; rfl, hih.2⟩

/-- The calls that walk the chain of child files, once the chain of child
directories is used up. -/
theorem dirnextRun_childFiles (P : Platform) (m : romfs_mount) :
    ∀ (fs : List Nat) (it : romfs_diriter), it.state = 2 → it.childDir = romFS_none →
      fileSiblingChain m it.childFile fs →
      (∀ o ∈ fs, file_nameLen m o < P.NAME_MAX ∧ 0 ∉ fileNameList m o) →
      (dirnextRun P m fs.length it).map (Except.map Prod.fst)
          = fs.map (fun o => Except.ok (fileNameList m o))
        ∧ dirnextIter P m fs.length it = { it with childFile := romFS_none } := by
  intro fs
  induction fs with
  | nil =>
    intro it _ _ hch _
    have h : it.childFile = romFS_none := hch
    refine ⟨rfl, ?_⟩
    simp only [List.length_nil, dirnextIter]
    rw [← h]
  | cons o rest ih =>
    intro it hst hcd hch hn
    obtain ⟨hstart, hne, hin, hrest⟩ := hch
    have hno := hn o (List.mem_cons_self _ _)
    have hstep : romfs_dirnext P m it
        = (.ok (fileNameList m o,
            { zeroStat with st_ino := file_inode P m o, st_mode := romFS_file_mode }),
           { it with childFile := file_sibling m o }) := by
      unfold romfs_dirnext
      rw [if_neg (by omega), if_neg (by omega), if_neg (by simp [hcd]), hstart, if_pos hne,
        romFS_file_of_inBounds m o hin]
      simp only
      rw [if_neg (by omega), ← fileNameList_length, strncpy_of_no_NUL _ hno.2]
    have hih := ih { it with childFile := file_sibling m o } hst hcd hrest
      (fun x hx => hn x (List.mem_cons_of_mem _ hx))
    simp only [List.length_cons, dirnextRun, dirnextIter, hstep, List.map_cons]
    exact ⟨by rw [hih.1]; rfl, hih.2⟩

/-- Once both chains are used up every call fails with `ENOENT` and leaves the
iterator as it is. -/
theorem dirnextRun_exhausted (P : Platform) (m : romfs_mount) (it : romfs_diriter)
    (hst : it.state = 2) (hcd : it.childDir = romFS_none) (hcf : it.childFile = romFS_none) :
    ∀ k, dirnextRun P m k it = List.replicate k (Except.error Errno.ENOENT)
      ∧ dirnextIter P m k it = it := by
  have hstep : romfs_dirnext P m it = (.error Errno.ENOENT, it) := by
    unfold romfs_dirnext
    rw [if_neg (by omega), if_neg (by omega), if_neg (by simp [hcd]), if_neg (by simp [hcf])]
  intro k
  induction k with
  | zero => exact ⟨rfl, rfl⟩
  | succ k ih =>
    simp only [dirnextRun, dirnextIter, hstep, List.replicate_succ]
    exact ⟨by rw [ih.1], ih.2⟩

theorem romfs_dirnext_dir (P : Platform) (m : romfs_mount) (it : romfs_diriter) :
    (romfs_dirnext P m it).2.dir = it.dir := by
  unfold romfs_dirnext
  split
  · rfl
  · split
    · split <;> rfl
    · split
      · split
        · rfl
        · simp only
          split <;> rfl
      · split
        · split
          · rfl
          · simp only
            split <;> rfl
        · rfl

theorem dirnextIter_dir (P : Platform) (m : romfs_mount) :
    ∀ (k : Nat) (it : romfs_diriter), (dirnextIter P m k it).dir = it.dir := by
  intro k
  induction k with
  | zero => intro it; rfl
  | succ k ih =>
    intro it
    simp only [dirnextIter]
    rw [ih, romfs_dirnext_dir]

/-- C11 (counterexample): the root of `nulNameMount` has a valid parent, one
child directory in bounds whose three-byte name `a`, NUL, `b` is shorter than
`NAME_MAX`, and no child file; the third `romfs_dirnext` call yields the name
`a`, not the record's name: `strncpy` stops at the NUL byte. -/
theorem dirnext_truncates_name_at_NUL :
    romFS_dir nulNameMount (dir_parent nulNameMount 0) ≠ none
      ∧ dirSiblingChain nulNameMount (dir_childDir nulNameMount 0) [24]
      ∧ fileSiblingChain nulNameMount (dir_childFile nulNameMount 0) []
      ∧ dir_nameLen nulNameMount 24 < newlibPlatform.NAME_MAX
      ∧ dirNameList nulNameMount 24 = [97, 0, 98]
      ∧ (dirnextRun newlibPlatform nulNameMount 3 (iterStart nulNameMount 0)).map
          (Except.map Prod.fst)
        = [.ok [46], .ok [46, 46], .ok [97]] := by
  decide

/-- C11 (amended): from the state that `romfs_diropen` produces, and that
`romfs_dirreset` restores at any point of the iteration, for a directory whose
parent offset is valid, whose `childDir` and `childFile` sibling chains are
finite and in bounds, and whose entry names are shorter than `NAME_MAX` and
hold no NUL byte: the first `2 + childDirCount + childFileCount` calls of
`romfs_dirnext` succeed and yield `.`, `..`, the child directories' names in
chain order, then the child files' names in chain order; every further call
fails with `ENOENT`. -/
theorem dirnext_sequence (P : Platform) (m : romfs_mount) (d : Nat) (ds fs : List Nat)
    (hparent : romFS_dir m (dir_parent m d) ≠ none)
    (hds : dirSiblingChain m (dir_childDir m d) ds)
    (hfs : fileSiblingChain m (dir_childFile m d) fs)
    (hdn : ∀ o ∈ ds, dir_nameLen m o < P.NAME_MAX ∧ 0 ∉ dirNameList m o)
    (hfn : ∀ o ∈ fs, file_nameLen m o < P.NAME_MAX ∧ 0 ∉ fileNameList m o) :
    (dirnextRun P m (2 + ds.length + fs.length) (iterStart m d)).map (Except.map Prod.fst)
        = [Except.ok [46], Except.ok [46, 46]] ++ ds.map (fun o => Except.ok (dirNameList m o))
            ++ fs.map (fun o => Except.ok (fileNameList m o))
      ∧ (∀ k, dirnextRun P m k (dirnextIter P m (2 + ds.length + fs.length) (iterStart m d))
          = List.replicate k (Except.error Errno.ENOENT))
      ∧ (∀ j, romfs_dirreset m (dirnextIter P m j (iterStart m d)) = iterStart m d)
      ∧ (∀ (fuel : Nat) (path : List Nat) (it : romfs_diriter),
          romfs_diropen P fuel m path = some (.ok it) →
          ∃ D rest, navigateToDir P fuel m path true = some (.ok (D, rest))
            ∧ it = iterStart m D) := by
  -- the two fixed entries
  obtain ⟨p, hp⟩ : ∃ p, romFS_dir m (dir_parent m d) = some p := by
    cases h : romFS_dir m (dir_parent m d) with
    | none => exact absurd h hparent
    | some p => exact ⟨p, rfl⟩
  have h1 : romfs_dirnext P m (iterStart m d)
      = (.ok ([46], { zeroStat with st_ino := dir_inode P m d, st_mode := romFS_dir_mode }),
         { iterStart m d with state := 1 }) := by
    simp [romfs_dirnext, iterStart]
  have h2 : romfs_dirnext P m { iterStart m d with state := 1 }
      = (.ok ([46, 46], { zeroStat with st_ino := dir_inode P m p, st_mode := romFS_dir_mode }),
         { iterStart m d with state := 2 }) := by
    simp [romfs_dirnext, iterStart, hp]
  have hrun2 : dirnextRun P m 2 (iterStart m d)
      = [.ok ([46], { zeroStat with st_ino := dir_inode P m d, st_mode := romFS_dir_mode }),
         .ok ([46, 46], { zeroStat with st_ino := dir_inode P m p, st_mode := romFS_dir_mode })]
      ∧ dirnextIter P m 2 (iterStart m d) = { iterStart m d with state := 2 } := by
    simp only [dirnextRun, dirnextIter, h1, h2]
    exact ⟨trivial, trivial⟩
  have hD := dirnextRun_childDirs P m ds { iterStart m d with state := 2 } rfl hds hdn
  have hF := dirnextRun_childFiles P m fs
    { iterStart m d with state := 2, childDir := romFS_none } rfl rfl hfs hfn
  have hsplit := dirnextRun_add P m (2 + ds.length) fs.length (iterStart m d)
  have hsplit2 := dirnextRun_add P m 2 ds.length (iterStart m d)
  have hit : dirnextIter P m (2 + ds.length) (iterStart m d)
      = { iterStart m d with state := 2, childDir := romFS_none } := by
    rw [hsplit2.2, hrun2.2, hD.2]
  have hend : dirnextIter P m (2 + ds.length + fs.length) (iterStart m d)
      = { iterStart m d with state := 2, childDir := romFS_none, childFile := romFS_none } := by
    rw [hsplit.2, hit, hF.2]
  refine ⟨?_, ?_, ?_, ?_⟩
  · rw [hsplit.1, hsplit2.1, hrun2.1, hrun2.2, hit, List.map_append, List.map_append, hD.1, hF.1]
    rfl
  · intro k
    rw [hend]
    exact (dirnextRun_exhausted P m _ rfl rfl rfl k).1
  · intro j
    have hdir := dirnextIter_dir P m j (iterStart m d)
    unfold romfs_dirreset
    rw [hdir]
    rfl
  · intro fuel path it h
    unfold romfs_diropen at h
    split at h
    · simp at h
    · simp at h
    · rename_i D rest hn
      simp only [Option.some.injEq, Except.ok.injEq] at h
      exact ⟨D, rest, hn, h.symm⟩

/-- Witness for C11 (amended) on the sample image: the root yields `.`, `..`,
`sub`, `A.TXT`, then `ENOENT`. -/
theorem dirnext_sequence_witness :
    (dirnextRun newlibPlatform sampleMount (2 + [24].length + [0].length)
        (iterStart sampleMount 0)).map (Except.map Prod.fst)
      = [Except.ok [46], Except.ok [46, 46]]
          ++ [24].map (fun o => Except.ok (dirNameList sampleMount o))
          ++ [0].map (fun o => Except.ok (fileNameList sampleMount o)) :=
  (dirnext_sequence newlibPlatform sampleMount 0 [24] [0] (by decide) (by decide) (by decide)
    (by decide) (by decide)).1

/-! ## Directory iteration: the records of `.` and `..` -/

/-- C12 (counterexample): iterating the directory `sub` of the sample image,
the record emitted with `.` has link count 0 and size 0, while `romfs_stat`
synthesizes link count 3 and size 25 for `/sub`; the record emitted with `..`
has link count 0, while `romfs_stat` synthesizes link count 4 for the root. -/
theorem dirnext_dot_record_is_not_stat :
    (romfs_dirnext newlibPlatform sampleMount (iterStart sampleMount 24)).1
        = .ok ([46], { st_ino := 6, st_mode := romFS_dir_mode, st_nlink := 0, st_size := 0
                       st_blksize := 0, st_blocks := 0, st_atime := 0, st_mtime := 0
                       st_ctime := 0 })
      ∧ romfs_stat newlibPlatform 5 sampleMount [47, 115, 117, 98]
        = some (.ok { st_ino := 6, st_mode := romFS_dir_mode, st_nlink := 3, st_size := 25
                      st_blksize := 512, st_blocks := 1, st_atime := 1000, st_mtime := 1000
                      st_ctime := 1000 })
      ∧ (romfs_dirnext newlibPlatform sampleMount
            { iterStart sampleMount 24 with state := 1 }).1
        = .ok ([46, 46], { st_ino := 0, st_mode := romFS_dir_mode, st_nlink := 0, st_size := 0
                           st_blksize := 0, st_blocks := 0, st_atime := 0, st_mtime := 0
                           st_ctime := 0 })
      ∧ romfs_stat newlibPlatform 5 sampleMount [47]
        = some (.ok { st_ino := 0, st_mode := romFS_dir_mode, st_nlink := 4, st_size := 24
                      st_blksize := 512, st_blocks := 1, st_atime := 1000, st_mtime := 1000
                      st_ctime := 1000 }) := by
  decide

/-- C12 (amended): the record that `romfs_dirnext` emits with `.` carries the
inode and the mode that `romfs_stat` (`fillDir`) synthesizes for the iterated
directory, and the record emitted with `..` those of the parent directory;
every other field of the two records (link count, size, block size, block
count, timestamps) is zero, so the records differ from the synthesized
metadata. -/
theorem dirnext_dot_records (P : Platform) (m : romfs_mount) (it : romfs_diriter) :
    (it.state = 0 →
        (romfs_dirnext P m it).1
            = .ok ([46], { zeroStat with st_ino := dir_inode P m it.dir
                                         st_mode := romFS_dir_mode })
          ∧ ∀ (fuel : Nat) (sd : Stat), fillDir P fuel m it.dir = some sd →
              sd.st_ino = dir_inode P m it.dir ∧ sd.st_mode = romFS_dir_mode
                ∧ sd ≠ { zeroStat with st_ino := dir_inode P m it.dir
                                       st_mode := romFS_dir_mode })
    ∧ (it.state = 1 → ∀ p, romFS_dir m (dir_parent m it.dir) = some p →
        (romfs_dirnext P m it).1
            = .ok ([46, 46], { zeroStat with st_ino := dir_inode P m p
                                             st_mode := romFS_dir_mode })
          ∧ ∀ (fuel : Nat) (sd : Stat), fillDir P fuel m p = some sd →
              sd.st_ino = dir_inode P m p ∧ sd.st_mode = romFS_dir_mode
                ∧ sd ≠ { zeroStat with st_ino := dir_inode P m p
                                       st_mode := romFS_dir_mode }) := by
  have hfill : ∀ (fuel d : Nat) (sd : Stat), fillDir P fuel m d = some sd →
      sd.st_ino = dir_inode P m d ∧ sd.st_mode = romFS_dir_mode
        ∧ sd ≠ { zeroStat with st_ino := dir_inode P m d, st_mode := romFS_dir_mode } := by
    intro fuel d sd h
    unfold fillDir at h
    split at h
    · simp at h
    · simp only [Option.some.injEq] at h
      subst h
      refine ⟨rfl, rfl, ?_⟩
      intro hc
      have hb := congrArg Stat.st_blksize hc
      simp [zeroStat] at hb
  constructor
  · intro hst
    refine ⟨?_, fun fuel sd h => hfill fuel it.dir sd h⟩
    simp [romfs_dirnext, hst]
  · intro hst p hp
    refine ⟨?_, fun fuel sd h => hfill fuel p sd h⟩
    simp [romfs_dirnext, hst, hp]

/-- Witness for C12 (amended) on the sample image: the `..` record of the
iteration of `sub` carries the inode and mode of the root. -/
theorem dirnext_dot_records_witness :
    (romfs_dirnext newlibPlatform sampleMount { iterStart sampleMount 24 with state := 1 }).1
      = .ok ([46, 46], { zeroStat with st_ino := dir_inode newlibPlatform sampleMount 0
                                       st_mode := romFS_dir_mode }) :=
  ((dirnext_dot_records newlibPlatform sampleMount
    { iterStart sampleMount 24 with state := 1 }).2 (by decide) 0 (by decide)).1

/-! ## Metadata: link count, size and inode numbers -/

theorem nlinkDirLoop_chain (P : Platform) (m : romfs_mount) :
    ∀ (ds : List Nat) (start c fuel : Nat), dirSiblingChain m start ds → ds.length < fuel →
      nlinkDirLoop P m fuel start (c % P.NLINK_MOD) = some ((c + ds.length) % P.NLINK_MOD) := by
  intro ds
  induction ds with
  | nil =>
    intro start c fuel hch hf
    have h : start = romFS_none := hch
    obtain ⟨f, rfl⟩ : ∃ f, fuel = f + 1 := ⟨fuel - 1, by omega⟩
    simp [nlinkDirLoop, h]
  | cons o rest ih =>
    intro start c fuel hch hf
    obtain ⟨hstart, hne, hin, hrest⟩ := hch
    obtain ⟨f, rfl⟩ : ∃ f, fuel = f + 1 := ⟨fuel - 1, by omega⟩
    simp only [nlinkDirLoop, hstart, if_neg hne, romFS_dir_of_inBounds m o hin]
    have e : (c % P.NLINK_MOD + 1) % P.NLINK_MOD = (c + 1) % P.NLINK_MOD := by
      rw [Nat.add_mod, Nat.mod_mod, ← Nat.add_mod]
    rw [e, ih _ (c + 1) f hrest (by simpa using hf)]
    congr 2
    simp only [List.length_cons]
    omega

theorem nlinkFileLoop_chain (P : Platform) (m : romfs_mount) :
    ∀ (fs : List Nat) (start c fuel : Nat), fileSiblingChain m start fs → fs.length < fuel →
      nlinkFileLoop P m fuel start (c % P.NLINK_MOD) = some ((c + fs.length) % P.NLINK_MOD) := by
  intro fs
  induction fs with
  | nil =>
    intro start c fuel hch hf
    have h : start = romFS_none := hch
    obtain ⟨f, rfl⟩ : ∃ f, fuel = f + 1 := ⟨fuel - 1, by omega⟩
    simp [nlinkFileLoop, h]
  | cons o rest ih =>
    intro start c fuel hch hf
    obtain ⟨hstart, hne, hin, hrest⟩ := hch
    obtain ⟨f, rfl⟩ : ∃ f, fuel = f + 1 := ⟨fuel - 1, by omega⟩
    simp only [nlinkFileLoop, hstart, if_neg hne, romFS_file_of_inBounds m o hin]
    have e : (c % P.NLINK_MOD + 1) % P.NLINK_MOD = (c + 1) % P.NLINK_MOD := by
      rw [Nat.add_mod, Nat.mod_mod, ← Nat.add_mod]
    rw [e, ih _ (c + 1) f hrest (by simpa using hf)]
    congr 2
    simp only [List.length_cons]
    omega

/-- C13: for a directory whose `childDir` and `childFile` sibling chains are
finite and consist of in-bounds records, `dir_nlink` returns (for every fuel
above the chain lengths) 2 plus the number of records on the `childDir` chain
plus the number on the `childFile` chain, as an `nlink_t`; where that number
fits `nlink_t` it is the link count that `fillDir` reports. -/
theorem dir_nlink_counts (P : Platform) (fuel : Nat) (m : romfs_mount) (d : Nat)
    (ds fs : List Nat) (hds : dirSiblingChain m (dir_childDir m d) ds)
    (hfs : fileSiblingChain m (dir_childFile m d) fs)
    (hfd : ds.length < fuel) (hff : fs.length < fuel) :
    dir_nlink P fuel m d = some ((2 + ds.length + fs.length) % P.NLINK_MOD)
      ∧ (2 + ds.length + fs.length < P.NLINK_MOD →
          dir_nlink P fuel m d = some (2 + ds.length + fs.length)
            ∧ ∃ st, fillDir P fuel m d = some st ∧ st.st_nlink = 2 + ds.length + fs.length) := by
  have h : dir_nlink P fuel m d = some ((2 + ds.length + fs.length) % P.NLINK_MOD) := by
    unfold dir_nlink
    rw [nlinkDirLoop_chain P m ds _ 2 fuel hds hfd]
    exact nlinkFileLoop_chain P m fs _ (2 + ds.length) fuel hfs hff
  refine ⟨h, ?_⟩
  intro hfit
  rw [Nat.mod_eq_of_lt hfit] at h
  refine ⟨h, ?_⟩
  unfold fillDir
  rw [h]
  exact ⟨_, rfl, rfl⟩

/-- Witness for C13 on the sample image: `sub` holds one file and no
subdirectory, its link count is 3. -/
theorem dir_nlink_counts_witness :
    dir_nlink newlibPlatform 5 sampleMount 24 = some (2 + ([] : List Nat).length + [40].length)
      ∧ ∃ st, fillDir newlibPlatform 5 sampleMount 24 = some st
          ∧ st.st_nlink = 2 + ([] : List Nat).length + [40].length :=
  (dir_nlink_counts newlibPlatform 5 sampleMount 24 [] [40] (by decide) (by decide) (by decide)
    (by decide)).2 (by decide)

/-- What `dir_size` computes: 24 plus the number of 32-bit words of the name. -/
theorem dir_size_eq (m : romfs_mount) (d : Nat) (h : dir_nameLen m d + 3 < 2 ^ 32) :
    dir_size m d = ((24 + (dir_nameLen m d + 3) / 4 : Nat) : Int) := by
  unfold dir_size sizeof_romfs_dir U32
  congr 1
  omega

/-- The size `dir_size` computes is the record size `24 + roundUp4 nameLen`
only for the empty name. -/
theorem dir_size_eq_record_size_iff (m : romfs_mount) (d : Nat)
    (h : dir_nameLen m d + 3 < 2 ^ 32) :
    dir_size m d = ((24 + roundUp4 (dir_nameLen m d) : Nat) : Int) ↔ dir_nameLen m d = 0 := by
  rw [dir_size_eq m d h]
  unfold roundUp4
  constructor
  · intro hh
    have : 24 + (dir_nameLen m d + 3) / 4 = 24 + (dir_nameLen m d + 3) / 4 * 4 := by
      exact_mod_cast hh
    omega
  · intro hh
    rw [hh]

/-- C14 (evaluation at the failing input): the directory `sub` of the sample
image has a name of 3 bytes; `dir_size`, and with it the `st_size` of
`romfs_stat`, is 25, while 24 plus the name length rounded up to a multiple of
4 is 28. -/
theorem dir_size_adds_words_to_bytes :
    dir_nameLen sampleMount 24 = 3
      ∧ dir_size sampleMount 24 = 25
      ∧ 24 + roundUp4 (dir_nameLen sampleMount 24) = 28
      ∧ (romfs_stat newlibPlatform 5 sampleMount [47, 115, 117, 98]).map
          (fun r => r.map (fun st => st.st_size)) = some (.ok 25) := by
  decide

theorem tdiv_toInt32_of_lt (x : Nat) (h : x < 2 ^ 31) :
    Int.tdiv (toInt32 x) 4 = ((x / 4 : Nat) : Int) := by
  rw [toInt32_of_lt x h]
  rfl

/-- C15: in a loaded image whose tables are smaller than `2^31` bytes and whose
inode numbers fit `ino_t`, for every valid directory record offset `d` and
every valid file record offset `f`: `dir_inode` is `d / 4`, `file_inode` is
`f / 4 + dirTableSize / 4`, and the two are different. -/
theorem inode_numbers (P : Platform) (m : romfs_mount) (d f : Nat) (_hload : Loaded m)
    (hdsz : m.header.dirTableSize < 2 ^ 31) (hfsz : m.header.fileTableSize < 2 ^ 31)
    (hino : m.header.fileTableSize / 4 + m.header.dirTableSize / 4 ≤ P.INO_MOD)
    (hd : dirInBounds m d) (hf : fileInBounds m f) :
    dir_inode P m d = d / 4
      ∧ file_inode P m f = f / 4 + m.header.dirTableSize / 4
      ∧ dir_inode P m d ≠ file_inode P m f := by
  unfold dirInBounds at hd
  unfold fileInBounds at hf
  have h1 : dir_inode P m d = d / 4 := by
    unfold dir_inode
    rw [tdiv_toInt32_of_lt d (by omega)]
    have hlt : d / 4 < P.INO_MOD := by omega
    have : ((d / 4 : Nat) : Int) % (P.INO_MOD : Int) = ((d / 4 : Nat) : Int) := by
      rw [← Int.ofNat_emod, Nat.mod_eq_of_lt hlt]
    rw [this]
    rfl
  have h2 : file_inode P m f = f / 4 + m.header.dirTableSize / 4 := by
    unfold file_inode
    rw [tdiv_toInt32_of_lt f (by omega)]
    have e1 : toUInt64 ((f / 4 : Nat) : Int) = f / 4 := by
      unfold toUInt64 U64
      omega
    have e2 : (f / 4 + m.header.dirTableSize / 4) % U64 = f / 4 + m.header.dirTableSize / 4 :=
      Nat.mod_eq_of_lt (by unfold U64; omega)
    have e3 : (f / 4 + m.header.dirTableSize / 4) % P.INO_MOD
        = f / 4 + m.header.dirTableSize / 4 := Nat.mod_eq_of_lt (by omega)
    rw [e1, e2, e3]
  refine ⟨h1, h2, ?_⟩
  rw [h1, h2]
  omega

/-- Witness for C15 on the sample image: the directory `sub` (offset 24) has
inode 6, the file `b.bin` (offset 40) has inode 10 + 13. -/
theorem inode_numbers_witness :
    dir_inode newlibPlatform sampleMount 24 = 24 / 4
      ∧ file_inode newlibPlatform sampleMount 40 = 40 / 4 + sampleMount.header.dirTableSize / 4
      ∧ dir_inode newlibPlatform sampleMount 24 ≠ file_inode newlibPlatform sampleMount 40 :=
  inode_numbers newlibPlatform sampleMount 24 40 (by decide) (by decide) (by decide) (by decide)
    (by decide) (by decide)

/-! ## Path resolution: iterations and directory prefixes -/

theorem navigateLoop_nil (P : Platform) (fuel : Nat) (m : romfs_mount) (isDir : Bool)
    (k dir : Nat) : navigateLoop P fuel m isDir (k + 1) dir [] = some (.ok (dir, [])) := by
  simp [navigateLoop]

theorem navigateLoop_slash (P : Platform) (fuel : Nat) (m : romfs_mount) (isDir : Bool)
    (k dir i : Nat) (path : List Nat) (hne : path ≠ []) (hs : strchr path 47 = some i) :
    navigateLoop P fuel m isDir (k + 1) dir path
      = componentStep P fuel m dir i path
          (fun d => navigateLoop P fuel m isDir k d (path.drop (i + 1))) := by
  by_cases h0 : i % U32 = 0
  · simp only [navigateLoop, if_neg hne, hs, componentStep, if_pos h0]
  · by_cases h1 : i % U32 > P.PATH_MAX
    · simp only [navigateLoop, if_neg hne, hs, componentStep, if_neg h0, if_pos h1]
    · simp only [navigateLoop, if_neg hne, hs, componentStep, if_neg h0, if_neg h1, lookupStep]

theorem navigateLoop_last_dir (P : Platform) (fuel : Nat) (m : romfs_mount)
    (k dir : Nat) (path : List Nat) (hne : path ≠ []) (hs : strchr path 47 = none) :
    navigateLoop P fuel m true (k + 1) dir path
      = lookupStep fuel m dir path (fun d => navigateLoop P fuel m true k d []) := by
  simp only [navigateLoop, if_neg hne, hs, lookupStep, if_true, strlen, List.drop_length]

theorem navigateLoop_last_file (P : Platform) (fuel : Nat) (m : romfs_mount)
    (k dir : Nat) (path : List Nat) (hne : path ≠ []) (hs : strchr path 47 = none) :
    navigateLoop P fuel m false (k + 1) dir path = some (.ok (dir, path)) := by
  simp only [navigateLoop, if_neg hne, hs]
  rfl

theorem strchr_lt (c : Nat) : ∀ (s : List Nat) (i : Nat), strchr s c = some i → i < s.length := by
  intro s
  induction s with
  | nil => intro i h; simp [strchr] at h
  | cons x xs ih =>
    intro i h
    simp only [strchr] at h
    split at h
    · simp only [Option.some.injEq] at h
      simp only [List.length_cons]
      omega
    · cases hx : strchr xs c with
      | none => simp [hx] at h
      | some j =>
        simp only [hx, Option.map_some', Option.some.injEq] at h
        have := ih j hx
        simp only [List.length_cons]
        omega

theorem strchr_of_mem (c : Nat) : ∀ (s : List Nat), c ∈ s → ∃ i, strchr s c = some i := by
  intro s
  induction s with
  | nil => intro h; simp at h
  | cons x xs ih =>
    intro h
    by_cases hx : x = c
    · exact ⟨0, by simp [strchr, hx]⟩
    · have hmem : c ∈ xs := by
        rcases List.mem_cons.mp h with h1 | h1
        · exact absurd h1.symm hx
        · exact h1
      obtain ⟨i, hi⟩ := ih hmem
      exact ⟨i + 1, by simp [strchr, hx, hi]⟩

theorem strchr_append (c : Nat) (rest : List Nat) :
    ∀ (s : List Nat) (i : Nat), strchr s c = some i → strchr (s ++ rest) c = some i := by
  intro s
  induction s with
  | nil => intro i h; simp [strchr] at h
  | cons x xs ih =>
    intro i h
    by_cases hx : x = c
    · simp only [strchr, List.cons_append, if_pos hx] at h ⊢
      exact h
    · simp only [strchr, if_neg hx] at h
      cases hxs : strchr xs c with
      | none => simp [hxs] at h
      | some j =>
        have e : strchr (x :: (xs ++ rest)) c = some (j + 1) := by
          simp [strchr, hx, ih j hxs]
        rw [List.cons_append, e]
        simpa [hxs] using h

theorem lookupStep_congr (fuel : Nat) (m : romfs_mount) (dir : Nat) (component : List Nat)
    (k1 k2 : Nat → Option (Except Errno (Nat × List Nat))) (h : ∀ d, k1 d = k2 d) :
    lookupStep fuel m dir component k1 = lookupStep fuel m dir component k2 := by
  have : k1 = k2 := funext h
  rw [this]

theorem lookupStep_post (fuel : Nat) (m : romfs_mount) (dir : Nat) (component : List Nat)
    (k : Nat → Option (Except Errno (Nat × List Nat)))
    (post : Option (Except Errno (Nat × List Nat)) → Option (Except Errno (Nat × List Nat)))
    (hnone : post none = none) (herr : ∀ e, post (some (.error e)) = some (.error e)) :
    post (lookupStep fuel m dir component k)
      = lookupStep fuel m dir component (fun d => post (k d)) := by
  unfold lookupStep
  split
  · rfl
  · split
    · split
      · exact herr _
      · rfl
    · split
      · exact hnone
      · exact herr _
      · rfl

theorem componentStep_post (P : Platform) (fuel : Nat) (m : romfs_mount) (dir i : Nat)
    (path : List Nat) (k : Nat → Option (Except Errno (Nat × List Nat)))
    (post : Option (Except Errno (Nat × List Nat)) → Option (Except Errno (Nat × List Nat)))
    (hnone : post none = none) (herr : ∀ e, post (some (.error e)) = some (.error e)) :
    post (componentStep P fuel m dir i path k)
      = componentStep P fuel m dir i path (fun d => post (k d)) := by
  unfold componentStep
  split
  · exact herr _
  · split
    · exact herr _
    · exact lookupStep_post fuel m dir _ k post hnone herr

theorem componentStep_congr (P : Platform) (fuel : Nat) (m : romfs_mount) (dir i : Nat)
    (path1 path2 : List Nat) (k1 k2 : Nat → Option (Except Errno (Nat × List Nat)))
    (hp : path1.take (i % U32) = path2.take (i % U32)) (h : ∀ d, k1 d = k2 d) :
    componentStep P fuel m dir i path1 k1 = componentStep P fuel m dir i path2 k2 := by
  unfold componentStep
  rw [hp, lookupStep_congr fuel m dir _ k1 k2 h]

/-- The iteration bound of the resolver loop does not matter once it exceeds
the length of the path. -/
theorem navigateLoop_bound (P : Platform) (fuel : Nat) (m : romfs_mount) (isDir : Bool) :
    ∀ (n : Nat) (path : List Nat) (dir n1 : Nat), path.length < n → path.length < n1 →
      navigateLoop P fuel m isDir n dir path = navigateLoop P fuel m isDir n1 dir path := by
  intro n
  induction n with
  | zero => intro path dir n1 h; omega
  | succ k ih =>
    intro path dir n1 h h1
    obtain ⟨k1, rfl⟩ : ∃ k1, n1 = k1 + 1 := ⟨n1 - 1, by omega⟩
    by_cases hne : path = []
    · rw [hne, navigateLoop_nil, navigateLoop_nil]
    · have hpos : 0 < path.length := List.length_pos.mpr hne
      cases hs : strchr path 47 with
      | some i =>
        rw [navigateLoop_slash P fuel m isDir k dir i path hne hs,
          navigateLoop_slash P fuel m isDir k1 dir i path hne hs]
        apply componentStep_congr _ _ _ _ _ _ _ _ _ rfl
        intro d
        have hl : (path.drop (i + 1)).length < path.length := by
          rw [List.length_drop]; omega
        exact ih _ d k1 (by omega) (by omega)
      | none =>
        cases isDir with
        | true =>
          rw [navigateLoop_last_dir P fuel m k dir path hne hs,
            navigateLoop_last_dir P fuel m k1 dir path hne hs]
          apply lookupStep_congr
          intro d
          obtain ⟨k2, rfl⟩ : ∃ k2, k = k2 + 1 := ⟨k - 1, by omega⟩
          obtain ⟨k3, rfl⟩ : ∃ k3, k1 = k3 + 1 := ⟨k1 - 1, by omega⟩
          rw [navigateLoop_nil, navigateLoop_nil]
        | false =>
          rw [navigateLoop_last_file P fuel m k dir path hne hs,
            navigateLoop_last_file P fuel m k1 dir path hne hs]

/-- Resolution of a path that begins with a directory prefix `S`: it goes as
the resolution of `S` alone, in directory-only mode, and then resolves the
remaining text from the directory reached. -/
theorem navigateLoop_prefix_then (P : Platform) (fuel : Nat) (m : romfs_mount) (isDir : Bool)
    (rest : List Nat) :
    ∀ (n : Nat) (S : List Nat) (d0 n1 : Nat), DirPrefix S → S.length < n →
      (S ++ rest).length < n1 →
      navigateLoop P fuel m isDir n1 d0 (S ++ rest)
        = afterPrefix P fuel m isDir rest (navigateLoop P fuel m true n d0 S) := by
  intro n
  induction n with
  | zero => intro S d0 n1 _ h; omega
  | succ k ih =>
    intro S d0 n1 hS hn hn1
    obtain ⟨k1, rfl⟩ : ∃ k1, n1 = k1 + 1 := ⟨n1 - 1, by omega⟩
    by_cases hne : S = []
    · subst hne
      rw [navigateLoop_nil]
      simp only [List.nil_append, afterPrefix]
      simp only [List.nil_append] at hn1
      exact navigateLoop_bound P fuel m isDir _ rest d0 _ hn1 (by omega)
    · have hlast : S.getLast? = some 47 := by
        rcases hS with h | h
        · exact absurd h hne
        · exact h
      obtain ⟨i, hi⟩ := strchr_of_mem 47 S (List.mem_of_getLast?_eq_some hlast)
      have hilt := strchr_lt 47 S i hi
      have hne2 : S ++ rest ≠ [] := by simp [hne]
      have hmod : i % U32 ≤ S.length := by
        have := Nat.mod_le i U32
        omega
      rw [navigateLoop_slash P fuel m isDir k1 d0 i (S ++ rest) hne2 (strchr_append 47 rest S i hi),
        navigateLoop_slash P fuel m true k d0 i S hne hi,
        componentStep_post P fuel m d0 i S _ (afterPrefix P fuel m isDir rest) rfl (fun _ => rfl)]
      apply componentStep_congr _ _ _ _ _ _ _ _ _ (List.take_append_of_le_length hmod)
      intro d
      rw [List.drop_append_of_le_length (by omega)]
      have hS2 : DirPrefix (S.drop (i + 1)) := by
        by_cases hl : S.length ≤ i + 1
        · left
          exact List.drop_eq_nil_of_le hl
        · right
          rw [List.getLast?_drop, if_neg hl]
          exact hlast
      have hl2 : (S.drop (i + 1)).length < k := by
        rw [List.length_drop]; omega
      have hl3 : (S.drop (i + 1) ++ rest).length < k1 := by
        simp only [List.length_append, List.length_drop] at hn1 ⊢
        omega
      exact ih _ d k1 hS2 hl2 hl3

theorem navigateToDir_navStart (P : Platform) (fuel : Nat) (m : romfs_mount) (path : List Nat)
    (isDir : Bool) (h : stripDevice path ≠ []) :
    navigateToDir P fuel m path isDir
      = navigateLoop P fuel m isDir ((navStart m (stripDevice path)).2.length + 1)
          (navStart m (stripDevice path)).1 (navStart m (stripDevice path)).2 := by
  unfold navigateToDir navStart
  simp only [if_neg h]
  split <;> rfl

/-- Resolution of a path whose text after the start is a directory prefix `S`
followed by `rest`: it goes as the resolution of `S` from the start directory
and then resolves `rest` from the directory reached. -/
theorem navigateToDir_prefix_then (P : Platform) (fuel : Nat) (m : romfs_mount)
    (path : List Nat) (isDir : Bool) (d0 : Nat) (S rest : List Nat)
    (h : stripDevice path ≠ []) (hstart : navStart m (stripDevice path) = (d0, S ++ rest))
    (hS : DirPrefix S) :
    navigateToDir P fuel m path isDir
      = afterPrefix P fuel m isDir rest (navigateLoop P fuel m true (S.length + 1) d0 S) := by
  rw [navigateToDir_navStart P fuel m path isDir h, hstart]
  exact navigateLoop_prefix_then P fuel m isDir rest (S.length + 1) S d0 _ hS (by omega)
    (Nat.lt_succ_self _)

/-- C19: in both resolution modes `navigateToDir` fails with `EILSEQ` when the
path left after the device part is empty, and when the loop meets an empty
`/`-terminated component: at any iteration, and so for every path in which a
directory prefix that resolves is followed by `/`. `romfs_chdir` then fails
with `EILSEQ` as well, which leaves the mount and its current directory as
they are. -/
theorem navigateToDir_EILSEQ (P : Platform) (fuel : Nat) (m : romfs_mount) (isDir : Bool) :
    (∀ (path : List Nat), stripDevice path = [] →
        navigateToDir P fuel m path isDir = some (.error Errno.EILSEQ)
          ∧ romfs_chdir P fuel m path = some (.error Errno.EILSEQ))
    ∧ (∀ (k dir : Nat) (rest : List Nat),
        navigateLoop P fuel m isDir (k + 1) dir (47 :: rest) = some (.error Errno.EILSEQ))
    ∧ (∀ (path : List Nat) (d0 D : Nat) (S rest r : List Nat), stripDevice path ≠ [] →
        navStart m (stripDevice path) = (d0, S ++ 47 :: rest) → DirPrefix S →
        navigateLoop P fuel m true (S.length + 1) d0 S = some (.ok (D, r)) →
        navigateToDir P fuel m path isDir = some (.error Errno.EILSEQ)
          ∧ romfs_chdir P fuel m path = some (.error Errno.EILSEQ)) := by
  have hloop : ∀ (isDir : Bool) (k dir : Nat) (rest : List Nat),
      navigateLoop P fuel m isDir (k + 1) dir (47 :: rest) = some (.error Errno.EILSEQ) := by
    intro isDir k dir rest
    rw [navigateLoop_slash P fuel m isDir k dir 0 (47 :: rest) (by simp) (by simp [strchr])]
    simp [componentStep]
  have hempty : ∀ (isDir : Bool) (path : List Nat), stripDevice path = [] →
      navigateToDir P fuel m path isDir = some (.error Errno.EILSEQ) := by
    intro isDir path h
    simp [navigateToDir, h]
  have hpre : ∀ (isDir : Bool) (path : List Nat) (d0 D : Nat) (S rest r : List Nat),
      stripDevice path ≠ [] → navStart m (stripDevice path) = (d0, S ++ 47 :: rest) →
      DirPrefix S → navigateLoop P fuel m true (S.length + 1) d0 S = some (.ok (D, r)) →
      navigateToDir P fuel m path isDir = some (.error Errno.EILSEQ) := by
    intro isDir path d0 D S rest r h hstart hS hres
    rw [navigateToDir_prefix_then P fuel m path isDir d0 S (47 :: rest) h hstart hS, hres]
    exact hloop isDir (47 :: rest).length D rest
  refine ⟨?_, hloop isDir, ?_⟩
  · intro path h
    refine ⟨hempty isDir path h, ?_⟩
    simp only [romfs_chdir, hempty true path h]
  · intro path d0 D S rest r h hstart hS hres
    refine ⟨hpre isDir path d0 D S rest r h hstart hS hres, ?_⟩
    simp only [romfs_chdir, hpre true path d0 D S rest r h hstart hS hres]

/-- Witness for C19 on the sample image: `romfs:` leaves an empty path, and in
`sub//b.bin` the prefix `sub/` resolves and is followed by `/`. -/
theorem navigateToDir_EILSEQ_witness :
    navigateToDir newlibPlatform 5 sampleMount [114, 111, 109, 102, 115, 58] false
        = some (.error Errno.EILSEQ)
      ∧ navigateToDir newlibPlatform 5 sampleMount
          [115, 117, 98, 47, 47, 98, 46, 98, 105, 110] false = some (.error Errno.EILSEQ)
      ∧ romfs_chdir newlibPlatform 5 sampleMount [115, 117, 98, 47, 47, 98, 46, 98, 105, 110]
          = some (.error Errno.EILSEQ) :=
  ⟨((navigateToDir_EILSEQ newlibPlatform 5 sampleMount false).1
      [114, 111, 109, 102, 115, 58] (by decide)).1,
   ((navigateToDir_EILSEQ newlibPlatform 5 sampleMount false).2.2
      [115, 117, 98, 47, 47, 98, 46, 98, 105, 110] 0 24 [115, 117, 98, 47]
      [98, 46, 98, 105, 110] [] (by decide) (by decide) (by decide) (by decide)).1,
   ((navigateToDir_EILSEQ newlibPlatform 5 sampleMount false).2.2
      [115, 117, 98, 47, 47, 98, 46, 98, 105, 110] 0 24 [115, 117, 98, 47]
      [98, 46, 98, 105, 110] [] (by decide) (by decide) (by decide) (by decide)).2⟩

theorem strchr_eq_none (c : Nat) : ∀ (s : List Nat), (∀ x ∈ s, x ≠ c) → strchr s c = none := by
  intro s
  induction s with
  | nil => intro _; rfl
  | cons x xs ih =>
    intro h
    have hx : x ≠ c := h x (List.mem_cons_self _ _)
    simp [strchr, hx, ih (fun y hy => h y (List.mem_cons_of_mem _ hy))]

/-- In directory-only mode the last component of a path, when it is neither
`.` nor `..`, is looked up with `searchForDir` whatever its length. -/
theorem navigateLoop_last_component (P : Platform) (fuel : Nat) (m : romfs_mount)
    (k dir : Nat) (comp : List Nat) (hc : IsComponent comp) (hdot : comp ≠ [46])
    (hdotdot : comp ≠ [46, 46]) :
    navigateLoop P fuel m true (k + 2) dir comp
      = match searchForDir fuel m dir comp (strlen comp % U32) with
        | none => none
        | some (.error e) => some (.error e)
        | some (.ok d) => some (.ok (d, [])) := by
  rw [navigateLoop_last_dir P fuel m (k + 1) dir comp hc.1 (strchr_eq_none 47 comp hc.2.2)]
  simp only [lookupStep, if_neg (component_not_dot comp hc hdot),
    if_neg (component_not_dotdot comp hc hdotdot), navigateLoop_nil]

theorem navigateLoop_long_component (P : Platform) (fuel : Nat) (m : romfs_mount) (isDir : Bool)
    (k dir : Nat) (comp rest : List Nat) (hc : ∀ c ∈ comp, c ≠ 47)
    (hlong : P.PATH_MAX < comp.length) (h32 : comp.length < 2 ^ 32) :
    navigateLoop P fuel m isDir (k + 1) dir (comp ++ 47 :: rest)
      = some (.error Errno.ENAMETOOLONG) := by
  have hmod : comp.length % U32 = comp.length := Nat.mod_eq_of_lt (by unfold U32; exact h32)
  rw [navigateLoop_slash P fuel m isDir k dir comp.length (comp ++ 47 :: rest) (by simp)
    (strchr_append_sep comp rest hc)]
  simp only [componentStep, hmod]
  rw [if_neg (by omega), if_pos hlong]

/-- Resolution, in directory-only mode, of the absolute path `/comp` with a
single component that is neither `.` nor `..`. -/
theorem navigateToDir_root_component (P : Platform) (fuel : Nat) (m : romfs_mount)
    (comp : List Nat) (hc : IsComponent comp) (hcolon : ∀ x ∈ comp, x ≠ 58)
    (hdot : comp ≠ [46]) (hdotdot : comp ≠ [46, 46]) :
    navigateToDir P fuel m (47 :: comp) true
      = match searchForDir fuel m (romFS_root m) comp (strlen comp % U32) with
        | none => none
        | some (.error e) => some (.error e)
        | some (.ok d) => some (.ok (d, [])) := by
  have hs : stripDevice (47 :: comp) = 47 :: comp := by
    unfold stripDevice
    rw [strchr_eq_none 58 _ (fun x hx => by
      rcases List.mem_cons.mp hx with h | h
      · rw [h]; decide
      · exact hcolon x h)]
  have hstart : navStart m (47 :: comp) = (romFS_root m, comp) := by
    simp [navStart, byteAt]
  obtain ⟨k, hk⟩ : ∃ k, comp.length = k + 1 :=
    ⟨comp.length - 1, by have := List.length_pos.mpr hc.1; omega⟩
  rw [navigateToDir_navStart P fuel m (47 :: comp) true (by rw [hs]; simp), hs, hstart]
  show navigateLoop P fuel m true (comp.length + 1) (romFS_root m) comp = _
  rw [hk]
  exact navigateLoop_last_component P fuel m k (romFS_root m) comp hc hdot hdotdot

/-- No directory of the sample image has a name of 1025 bytes: the lookup of
such a name fails with `ENOENT` in whichever bucket its hash falls. -/
theorem sampleMount_long_lookup (nm : List Nat) (hlen : nm.length = 1025) :
    searchForDir 5 sampleMount (romFS_root sampleMount) nm (strlen nm % U32)
      = some (.error Errno.ENOENT) := by
  have hl : strlen nm % U32 = 1025 := by
    unfold strlen; rw [hlen]; decide
  have ht : dirHashTotal sampleMount = 3 := by decide
  have hb : ∀ h : Nat, h < 3 →
      searchForDirLoop sampleMount (romFS_root sampleMount % U32) nm 1025 5
        (rd32 sampleMount.dirHashTable (4 * h)) = some (.error Errno.ENOENT) := by
    intro h hh
    interval_cases h <;> rfl
  unfold searchForDir calcHash
  rw [hl, ht]
  exact hb _ (Nat.mod_lt _ (by decide))

/-- C20 (counterexample): with `PATH_MAX` 1024, in directory-only mode the
path `/aaa...a` whose only component has 1025 bytes is not rejected with
`ENAMETOOLONG`: the component is looked up and resolution fails with `ENOENT`. -/
theorem long_last_component_is_looked_up :
    newlibPlatform.PATH_MAX < longName.length
      ∧ navigateToDir newlibPlatform 5 sampleMount (47 :: longName) true
          = some (.error Errno.ENOENT) := by
  have hmem : ∀ x ∈ longName, x = 97 := fun x hx => List.eq_of_mem_replicate hx
  have hlen : longName.length = 1025 := List.length_replicate _ _
  have hc : IsComponent longName :=
    ⟨fun h => by rw [h] at hlen; exact absurd hlen (by decide),
      fun c hc => by rw [hmem c hc]; decide, fun c hc => by rw [hmem c hc]; decide⟩
  refine ⟨by rw [hlen]; decide, ?_⟩
  rw [navigateToDir_root_component newlibPlatform 5 sampleMount longName hc
    (fun c hc => by rw [hmem c hc]; decide)
    (fun h => by rw [h] at hlen; exact absurd hlen (by decide))
    (fun h => by rw [h] at hlen; exact absurd hlen (by decide))]
  rw [sampleMount_long_lookup longName hlen]

theorem stripDevice_of_no_colon (path : List Nat) (h : ∀ x ∈ path, x ≠ 58) :
    stripDevice path = path := by
  unfold stripDevice
  rw [strchr_eq_none 58 path h]

theorem navStart_slash (m : romfs_mount) (t : List Nat) :
    navStart m (47 :: t) = (romFS_root m, t) := by
  simp [navStart, byteAt]

theorem longName_mem (x : Nat) (h : x ∈ longName) : x = 97 := List.eq_of_mem_replicate h

theorem longName_length : longName.length = 1025 := List.length_replicate _ _

theorem longName_path_no_colon (tail : List Nat) (ht : ∀ x ∈ tail, x ≠ 58) :
    ∀ x ∈ 47 :: (longName ++ tail), x ≠ 58 := by
  intro x hx
  rcases List.mem_cons.mp hx with h | h
  · rw [h]; decide
  · rcases List.mem_append.mp h with h | h
    · rw [longName_mem x h]; decide
    · exact ht x h

/-- C20 (amended): a component longer than `PATH_MAX` that is followed by `/`
makes resolution fail with `ENAMETOOLONG` in both modes, at any iteration of
the loop and so for every path in which a directory prefix that resolves is
followed by it. In directory-only mode the last component of the path, when it
is neither `.` nor `..`, is looked up with `searchForDir` whatever its length:
the result is the directory found or the error of that search, never
`ENAMETOOLONG`. -/
theorem component_length_limit (P : Platform) (fuel : Nat) (m : romfs_mount) :
    (∀ (isDir : Bool) (k dir : Nat) (comp rest : List Nat), (∀ c ∈ comp, c ≠ 47) →
        P.PATH_MAX < comp.length → comp.length < 2 ^ 32 →
        navigateLoop P fuel m isDir (k + 1) dir (comp ++ 47 :: rest)
          = some (.error Errno.ENAMETOOLONG))
    ∧ (∀ (isDir : Bool) (path : List Nat) (d0 D : Nat) (S comp rest r : List Nat),
        stripDevice path ≠ [] →
        navStart m (stripDevice path) = (d0, S ++ (comp ++ 47 :: rest)) → DirPrefix S →
        navigateLoop P fuel m true (S.length + 1) d0 S = some (.ok (D, r)) →
        (∀ c ∈ comp, c ≠ 47) → P.PATH_MAX < comp.length → comp.length < 2 ^ 32 →
        navigateToDir P fuel m path isDir = some (.error Errno.ENAMETOOLONG))
    ∧ (∀ (path : List Nat) (d0 D : Nat) (S comp r : List Nat),
        stripDevice path ≠ [] →
        navStart m (stripDevice path) = (d0, S ++ comp) → DirPrefix S →
        navigateLoop P fuel m true (S.length + 1) d0 S = some (.ok (D, r)) →
        IsComponent comp → comp ≠ [46] → comp ≠ [46, 46] →
        navigateToDir P fuel m path true
            = (match searchForDir fuel m D comp (strlen comp % U32) with
              | none => none
              | some (.error e) => some (.error e)
              | some (.ok d) => some (.ok (d, [])))
          ∧ navigateToDir P fuel m path true ≠ some (.error Errno.ENAMETOOLONG)) := by
  refine ⟨fun isDir k dir comp rest hc hlong h32 =>
      navigateLoop_long_component P fuel m isDir k dir comp rest hc hlong h32, ?_, ?_⟩
  · intro isDir path d0 D S comp rest r h hstart hS hres hc hlong h32
    rw [navigateToDir_prefix_then P fuel m path isDir d0 S (comp ++ 47 :: rest) h hstart hS,
      hres]
    exact navigateLoop_long_component P fuel m isDir _ D comp rest hc hlong h32
  · intro path d0 D S comp r h hstart hS hres hc hdot hdotdot
    obtain ⟨k, hk⟩ : ∃ k, comp.length = k + 1 :=
      ⟨comp.length - 1, by have := List.length_pos.mpr hc.1; omega⟩
    have e : navigateToDir P fuel m path true
        = (match searchForDir fuel m D comp (strlen comp % U32) with
          | none => none
          | some (.error e) => some (.error e)
          | some (.ok d) => some (.ok (d, []))) := by
      rw [navigateToDir_prefix_then P fuel m path true d0 S comp h hstart hS, hres]
      show navigateLoop P fuel m true (comp.length + 1) D comp = _
      rw [hk]
      exact navigateLoop_last_component P fuel m k D comp hc hdot hdotdot
    refine ⟨e, ?_⟩
    rw [e]
    cases hr : searchForDir fuel m D comp (strlen comp % U32) with
    | none => simp
    | some res =>
      cases res with
      | ok d => simp
      | error err =>
        rcases searchForDirLoop_error m _ _ _ fuel _ err hr with h1 | h1 <;> simp [h1]

/-- Witness for C20 (amended) with `PATH_MAX` 1024 on the sample image: the
path `/aaa...a/x` with a component of 1025 bytes fails with `ENAMETOOLONG` in
both modes, and the last component of `/sub` is looked up in directory-only
mode. -/
theorem component_length_limit_witness :
    navigateLoop newlibPlatform 5 sampleMount true 1 0 (longName ++ [47, 120])
        = some (.error Errno.ENAMETOOLONG)
      ∧ navigateToDir newlibPlatform 5 sampleMount (47 :: (longName ++ [47, 120])) false
        = some (.error Errno.ENAMETOOLONG)
      ∧ navigateToDir newlibPlatform 5 sampleMount [47, 115, 117, 98] true
        = some (.ok (24, [])) :=
  ⟨(component_length_limit newlibPlatform 5 sampleMount).1 true 0 0 longName [120]
      (fun c hc => by rw [longName_mem c hc]; decide)
      (by rw [longName_length]; decide) (by rw [longName_length]; decide),
   (component_length_limit newlibPlatform 5 sampleMount).2.1 false
      (47 :: (longName ++ [47, 120])) 0 0 [] longName [120] []
      (by rw [stripDevice_of_no_colon _ (longName_path_no_colon [47, 120] (by decide))]
          exact List.cons_ne_nil _ _)
      (by rw [stripDevice_of_no_colon _ (longName_path_no_colon [47, 120] (by decide))]
          exact navStart_slash sampleMount _)
      (by decide) (by decide)
      (fun c hc => by rw [longName_mem c hc]; decide)
      (by rw [longName_length]; decide) (by rw [longName_length]; decide),
   ((component_length_limit newlibPlatform 5 sampleMount).2.2
      [47, 115, 117, 98] 0 0 [] [115, 117, 98] []
      (by decide) (by decide) (by decide) (by decide) (by decide) (by decide)
      (by decide)).1.trans (by decide)⟩

/-! ## The mount table: lookup, failed mounts -/

theorem romfs_mountclose_eq (s : mount_slot) : romfs_mountclose s = _romfsResetMount s.id := by
  unfold romfs_mountclose romfs_free
  split <;> rfl

theorem _romfsInit_initialised (st : romfs_state) : (_romfsInit st).romfs_initialised = true := by
  unfold _romfsInit
  split
  · assumption
  · rfl

theorem _romfsInit_idem (st : romfs_state) : _romfsInit (_romfsInit st) = _romfsInit st := by
  have h := _romfsInit_initialised st
  generalize _romfsInit st = t at h
  simp [_romfsInit, h]

theorem find?_congr_mem {α : Type} (p q : α → Bool) :
    ∀ (l : List α), (∀ x ∈ l, p x = q x) → l.find? p = l.find? q := by
  intro l
  induction l with
  | nil => intro _; rfl
  | cons x xs ih =>
    intro h
    simp only [List.find?, h x (List.mem_cons_self _ _)]
    rw [ih (fun y hy => h y (List.mem_cons_of_mem _ hy))]

theorem findSlot_some (name : Option (List Nat)) (mounts : List mount_slot) (i : Nat)
    (h : findSlot name mounts = some i) :
    i < romfs_mounts_total ∧ ∃ s, mounts[i]? = some s ∧ slotMatches name s = true := by
  unfold findSlot at h
  have hm := List.mem_of_find?_eq_some h
  have hp := List.find?_some h
  refine ⟨List.mem_range.mp hm, ?_⟩
  cases hs : mounts[i]? with
  | none => simp [hs] at hp
  | some s => exact ⟨s, rfl, by simpa [hs] using hp⟩

/-- Replacing an entry that is not set up by another one that is not set up
does not change which entry a name finds. -/
theorem findSlot_set (nm : List Nat) (mounts : List mount_slot) (i : Nat) (s s1 : mount_slot)
    (hold : mounts[i]? = some s) (hs : s.setup = false) (hs1 : s1.setup = false) :
    findSlot (some nm) (mounts.set i s1) = findSlot (some nm) mounts
      ∧ ∀ j, findSlot (some nm) mounts = some j → j ≠ i := by
  have hlt : i < mounts.length := by
    rcases Nat.lt_or_ge i mounts.length with h | h
    · exact h
    · rw [List.getElem?_eq_none h] at hold; cases hold
  constructor
  · unfold findSlot
    apply find?_congr_mem
    intro j _
    by_cases hj : j = i
    · subst hj
      rw [List.getElem?_set_self hlt, hold]
      simp [slotMatches, hs, hs1]
    · rw [List.getElem?_set_ne (Ne.symm hj)]
  · intro j hj hji
    subst hji
    obtain ⟨_, t, ht, hm⟩ := findSlot_some _ _ _ hj
    rw [hold] at ht
    cases ht
    simp [slotMatches, hs] at hm

theorem loadTable_rc (E : MountEnv) (s : mount_slot) (k off size : Nat) (t : Option (List Nat))
    (rc : Int) (h : loadTable E s k off size = some (t, rc)) :
    rc = 0 ∨ rc = -9 ∨ rc = -10 := by
  unfold loadTable at h
  split at h
  · simp only [Option.some.injEq, Prod.mk.injEq] at h
    exact Or.inr (Or.inl h.2.symm)
  · split at h
    · cases h
    · split at h
      · simp only [Option.some.injEq, Prod.mk.injEq] at h
        exact Or.inl h.2.symm
      · simp only [Option.some.injEq, Prod.mk.injEq] at h
        exact Or.inr (Or.inr h.2.symm)

/-- Every return of `romfsMountCommon`: either `0` with the entry set up under
the copied name, or `-9` or `-10` with the entry reset. -/
theorem romfsMountCommon_result (E : MountEnv) (name : List Nat) (s s1 : mount_slot) (rc : Int)
    (h : romfsMountCommon E name s = some (s1, rc)) :
    (rc = 0 ∧ s1.setup = true ∧ s1.name = strncpy name 31 ∧ s1.id = s.id
        ∧ s1.fd_type = s.fd_type)
      ∨ ((rc = -9 ∨ rc = -10) ∧ s1 = _romfsResetMount s.id) := by
  unfold romfsMountCommon at h
  simp only [romfs_mountclose_eq] at h
  split at h
  · cases h
  · split at h
    · simp only [Option.some.injEq, Prod.mk.injEq] at h
      exact Or.inr ⟨Or.inr h.2.symm, h.1.symm⟩
    · split at h
      · simp only [Option.some.injEq, Prod.mk.injEq] at h
        exact Or.inr ⟨Or.inr h.2.symm, h.1.symm⟩
      · split at h
        · simp only [Option.some.injEq, Prod.mk.injEq] at h
          exact Or.inr ⟨Or.inr h.2.symm, h.1.symm⟩
        · split at h
          · cases h
          · rename_i t0 rc0 hl0
            split at h
            · simp only [Option.some.injEq, Prod.mk.injEq] at h
              rcases loadTable_rc _ _ _ _ _ _ _ hl0 with h0 | h0 | h0
              · rename_i hne; exact absurd h0 hne
              · exact Or.inr ⟨Or.inl (h.2.symm.trans h0), h.1.symm⟩
              · exact Or.inr ⟨Or.inr (h.2.symm.trans h0), h.1.symm⟩
            · split at h
              · cases h
              · rename_i t1 rc1 hl1
                split at h
                · simp only [Option.some.injEq, Prod.mk.injEq] at h
                  rcases loadTable_rc _ _ _ _ _ _ _ hl1 with h0 | h0 | h0
                  · rename_i hne; exact absurd h0 hne
                  · exact Or.inr ⟨Or.inl (h.2.symm.trans h0), h.1.symm⟩
                  · exact Or.inr ⟨Or.inr (h.2.symm.trans h0), h.1.symm⟩
                · split at h
                  · cases h
                  · rename_i t2 rc2 hl2
                    split at h
                    · simp only [Option.some.injEq, Prod.mk.injEq] at h
                      rcases loadTable_rc _ _ _ _ _ _ _ hl2 with h0 | h0 | h0
                      · rename_i hne; exact absurd h0 hne
                      · exact Or.inr ⟨Or.inl (h.2.symm.trans h0), h.1.symm⟩
                      · exact Or.inr ⟨Or.inr (h.2.symm.trans h0), h.1.symm⟩
                    · split at h
                      · cases h
                      · rename_i t3 rc3 hl3
                        split at h
                        · simp only [Option.some.injEq, Prod.mk.injEq] at h
                          rcases loadTable_rc _ _ _ _ _ _ _ hl3 with h0 | h0 | h0
                          · rename_i hne; exact absurd h0 hne
                          · exact Or.inr ⟨Or.inl (h.2.symm.trans h0), h.1.symm⟩
                          · exact Or.inr ⟨Or.inr (h.2.symm.trans h0), h.1.symm⟩
                        · split at h
                          · simp only [Option.some.injEq, Prod.mk.injEq] at h
                            exact Or.inr ⟨Or.inl h.2.symm, h.1.symm⟩
                          · simp only [Option.some.injEq, Prod.mk.injEq] at h
                            obtain ⟨h1, h2⟩ := h
                            subst h1
                            exact Or.inl ⟨h2.symm, rfl, rfl, rfl, rfl⟩

theorem slotAt_of_getElem? (st : romfs_state) (i : Nat) (s : mount_slot)
    (h : st.romfs_mounts[i]? = some s) : slotAt st i = s := by
  unfold slotAt
  rw [List.getD_eq_getElem?_getD, h]
  rfl

/-- Every return of `romfsMount`: `-99` when no entry is free; else, with `i`
the first free entry, either `0` and entry `i` set up under the copied name,
or `-1`, `-9` or `-10` and entry `i` reset; no other entry changes. -/
theorem romfsMount_result (E : MountEnv) (name : List Nat) (source : RomfsSource)
    (st st1 : romfs_state) (rc : Int) (h : romfsMount E name source st = some (st1, rc)) :
    (rc = -99 ∧ findSlot none (_romfsInit st).romfs_mounts = none ∧ st1 = _romfsInit st)
      ∨ ∃ i s0, findSlot none (_romfsInit st).romfs_mounts = some i
          ∧ (_romfsInit st).romfs_mounts[i]? = some s0 ∧ s0.setup = false
          ∧ ((rc = 0 ∧ ∃ s1, st1 = setSlot (_romfsInit st) i s1 ∧ s1.setup = true
                ∧ s1.name = strncpy name 31 ∧ s1.id = s0.id ∧ s1.fd_type = source)
              ∨ ((rc = -1 ∨ rc = -9 ∨ rc = -10)
                  ∧ st1 = setSlot (_romfsInit st) i (_romfsResetMount s0.id))) := by
  unfold romfsMount romfs_alloc romfsFindMount at h
  cases hf : findSlot none (_romfsInit st).romfs_mounts with
  | none =>
    simp only [hf, Option.some.injEq, Prod.mk.injEq] at h
    exact Or.inl ⟨h.2.symm, rfl, h.1.symm⟩
  | some i =>
    obtain ⟨_, s0, hs0, hm⟩ := findSlot_some _ _ _ hf
    have hsetup : s0.setup = false := by simpa [slotMatches] using hm
    have hat : slotAt (_romfsInit st) i = s0 := slotAt_of_getElem? _ _ _ hs0
    refine Or.inr ⟨i, s0, rfl, hs0, hsetup, ?_⟩
    simp only [hf, hat] at h
    have common : ∀ (s : mount_slot), s.id = s0.id → s.fd_type = source →
        (romfsMountCommon E name s).map (fun r => (setSlot (_romfsInit st) i r.1, r.2))
          = some (st1, rc) →
        ((rc = 0 ∧ ∃ s1, st1 = setSlot (_romfsInit st) i s1 ∧ s1.setup = true
                ∧ s1.name = strncpy name 31 ∧ s1.id = s0.id ∧ s1.fd_type = source)
              ∨ ((rc = -1 ∨ rc = -9 ∨ rc = -10)
                  ∧ st1 = setSlot (_romfsInit st) i (_romfsResetMount s0.id))) := by
      intro s hid hty hc
      cases hr : romfsMountCommon E name s with
      | none => simp [hr] at hc
      | some r =>
        obtain ⟨s1, rc1⟩ := r
        simp only [hr, Option.map_some', Option.some.injEq, Prod.mk.injEq] at hc
        obtain ⟨h1, h2⟩ := hc
        subst h2
        rcases romfsMountCommon_result E name s s1 rc1 hr with ⟨a, b, c, d, e⟩ | ⟨a, b⟩
        · exact Or.inl ⟨a, s1, h1.symm, b, c, d.trans hid, e.trans hty⟩
        · refine Or.inr ⟨Or.inr a, ?_⟩
          rw [← h1, b, hid]
    cases source with
    | FileDescriptor =>
      simp only at h
      split at h
      · simp only [romfs_free, Option.some.injEq, Prod.mk.injEq] at h
        exact Or.inr ⟨Or.inl h.2.symm, h.1.symm⟩
      · refine common _ ?_ ?_ h <;> rfl
    | FileDescriptor_CafeOS =>
      simp only at h
      split at h
      · simp only [romfs_free, Option.some.injEq, Prod.mk.injEq] at h
        exact Or.inr ⟨Or.inl h.2.symm, h.1.symm⟩
      · split at h
        · simp only [romfs_free, Option.some.injEq, Prod.mk.injEq] at h
          exact Or.inr ⟨Or.inl h.2.symm, h.1.symm⟩
        · refine common _ ?_ ?_ h <;> rfl
    | other => refine common _ ?_ ?_ h <;> rfl

theorem slotAt_setSlot_self (st : romfs_state) (i : Nat) (s s0 : mount_slot)
    (h : st.romfs_mounts[i]? = some s0) : slotAt (setSlot st i s) i = s := by
  have hlt : i < st.romfs_mounts.length := by
    rcases Nat.lt_or_ge i st.romfs_mounts.length with h1 | h1
    · exact h1
    · rw [List.getElem?_eq_none h1] at h; cases h
  apply slotAt_of_getElem?
  simp only [setSlot]
  rw [List.getElem?_set_self hlt]

theorem slotAt_setSlot_ne (st : romfs_state) (i j : Nat) (s : mount_slot) (h : j ≠ i) :
    slotAt (setSlot st i s) j = slotAt st j := by
  unfold slotAt setSlot
  simp only [List.getD_eq_getElem?_getD]
  rw [List.getElem?_set_ne (Ne.symm h)]

theorem romfsFindMount_setSlot (st : romfs_state) (i : Nat) (s0 s : mount_slot)
    (h0 : (_romfsInit st).romfs_mounts[i]? = some s0) (hs0 : s0.setup = false)
    (hs : s.setup = false) (nm : List Nat) :
    (romfsFindMount (setSlot (_romfsInit st) i s) (some nm)).2 = (romfsFindMount st (some nm)).2
      ∧ foundMount (setSlot (_romfsInit st) i s) nm = foundMount st nm := by
  have hinit : _romfsInit (setSlot (_romfsInit st) i s) = setSlot (_romfsInit st) i s := by
    have h := _romfsInit_initialised st
    unfold setSlot
    generalize _romfsInit st = t at h
    simp [_romfsInit, h]
  have hfind := findSlot_set nm (_romfsInit st).romfs_mounts i s0 s h0 hs0 hs
  have e1 : (romfsFindMount (setSlot (_romfsInit st) i s) (some nm)).2
      = (romfsFindMount st (some nm)).2 := by
    unfold romfsFindMount
    rw [hinit]
    exact hfind.1
  refine ⟨e1, ?_⟩
  unfold foundMount
  rw [e1]
  unfold romfsFindMount
  rw [hinit]
  cases hf : findSlot (some nm) (_romfsInit st).romfs_mounts with
  | none => rfl
  | some j =>
    simp only [Option.map_some']
    rw [slotAt_setSlot_ne _ _ _ _ (hfind.2 j hf)]

/-- C17: a `romfsMount` call that returns a non-zero value other than `-99`
(so after an entry was taken: backend open failure, short header read, wrong
magic, wrong header size, table allocation failure, short table read, device
registration failure) leaves the entry it took in the reset state (`setup`
false, the four table pointers `NULL`, the name empty) and every other entry
as it was, and `romfsFindMount` returns for every name the entry it returned
before the call. The failures before the tables are loaded do return so:
a failed `open`, `FSAAddClient` or `FSAOpenFileEx` gives `-1`, a header read
that is short or has a wrong magic or size gives `-10`. -/
theorem failed_mount_rolls_back (E : MountEnv) (name : List Nat) (source : RomfsSource)
    (st : romfs_state) :
    (∀ (st1 : romfs_state) (rc : Int), romfsMount E name source st = some (st1, rc) →
        rc ≠ 0 → rc ≠ -99 →
        ∃ i, (romfs_alloc st).2 = some i
          ∧ slotAt st1 i = _romfsResetMount (slotAt (_romfsInit st) i).id
          ∧ (slotAt st1 i).setup = false
          ∧ (slotAt st1 i).dirHashTable = none ∧ (slotAt st1 i).dirTable = none
          ∧ (slotAt st1 i).fileHashTable = none ∧ (slotAt st1 i).fileTable = none
          ∧ (slotAt st1 i).name = []
          ∧ (∀ j, j ≠ i → slotAt st1 j = slotAt (_romfsInit st) j)
          ∧ ∀ nm, (romfsFindMount st1 (some nm)).2 = (romfsFindMount st (some nm)).2
              ∧ foundMount st1 nm = foundMount st nm)
    ∧ (∀ i, (romfs_alloc st).2 = some i →
        (source = RomfsSource.FileDescriptor ∧ E.open_fd = -1)
          ∨ (source = RomfsSource.FileDescriptor_CafeOS
              ∧ (E.FSAAddClient = 0 ∨ E.FSAOpenFileEx.1 ≠ 0)) →
        romfsMount E name source st
          = some (setSlot (_romfsInit st) i
              (_romfsResetMount (slotAt (_romfsInit st) i).id), -1))
    ∧ (∀ (s : mount_slot) (r : RawRead),
        _romfs_read E.source (slotMount { s with name := strncpy name 31, mtime := E.time })
            0 E.headerAddr 0x50 = some r →
        r.ret % (U32 : Int) ≠ 0x50 ∨ (parseHeader r.data).headerMagic ≠ 0x57554842
          ∨ (parseHeader r.data).headerSize ≠ 0x50 →
        romfsMountCommon E name s = some (_romfsResetMount s.id, -10)) := by
  refine ⟨?_, ?_, ?_⟩
  · intro st1 rc h hrc h99
    rcases romfsMount_result E name source st st1 rc h with ⟨a, _⟩ | ⟨i, s0, hf, hs0, hsetup, hres⟩
    · exact absurd a h99
    · rcases hres with ⟨a, _⟩ | ⟨_, hst⟩
      · exact absurd a hrc
      · have hat : slotAt (_romfsInit st) i = s0 := slotAt_of_getElem? _ _ _ hs0
        have hnew : slotAt st1 i = _romfsResetMount s0.id := by
          rw [hst]; exact slotAt_setSlot_self _ _ _ _ hs0
        refine ⟨i, hf, by rw [hat]; exact hnew, ?_, ?_, ?_, ?_, ?_, ?_, ?_, ?_⟩
        · rw [hnew]; rfl
        · rw [hnew]; rfl
        · rw [hnew]; rfl
        · rw [hnew]; rfl
        · rw [hnew]; rfl
        · rw [hnew]; rfl
        · intro j hj
          rw [hst]
          exact slotAt_setSlot_ne _ _ _ _ hj
        · intro nm
          rw [hst]
          exact romfsFindMount_setSlot st i s0 _ hs0 hsetup rfl nm
  · intro i hi hcause
    have hf : findSlot none (_romfsInit st).romfs_mounts = some i := hi
    unfold romfsMount romfs_alloc romfsFindMount
    simp only [hf]
    rcases hcause with ⟨h1, h2⟩ | ⟨h1, h2⟩
    · subst h1
      simp only [h2, if_true, romfs_free]
    · subst h1
      rcases h2 with h2 | h2
      · simp only [h2, if_true, romfs_free]
      · by_cases h3 : E.FSAAddClient = 0
        · simp only [h3, if_true, romfs_free]
        · simp only [h3, if_false, h2, ne_eq, not_false_eq_true, if_true, romfs_free]
  · intro s r hr hbad
    unfold romfsMountCommon
    simp only [hr, romfs_mountclose_eq]
    rcases hbad with hb | hb | hb
    · rw [if_pos hb]
    · by_cases h1 : r.ret % (U32 : Int) ≠ 0x50
      · rw [if_pos h1]
      · rw [if_neg h1, if_pos hb]
    · by_cases h1 : r.ret % (U32 : Int) ≠ 0x50
      · rw [if_pos h1]
      · rw [if_neg h1]
        by_cases h2 : (parseHeader r.data).headerMagic ≠ 0x57554842
        · rw [if_pos h2]
        · rw [if_neg h2, if_pos hb]

set_option maxRecDepth 20000 in
/-- Witness for C17: with the sample image mounted as `romfs`, a mount of the
same image as `x` whose second table allocation fails returns `-9` and leaves
the globals as they were; a mount whose `open` fails returns `-1`. -/
theorem failed_mount_rolls_back_witness :
    romfsMount (oomEnv (imageOf sampleMount)) [120] RomfsSource.FileDescriptor mountedState
        = some (mountedState, -9)
      ∧ (∃ i, (romfs_alloc mountedState).2 = some i
          ∧ slotAt mountedState i = _romfsResetMount (slotAt (_romfsInit mountedState) i).id
          ∧ (slotAt mountedState i).setup = false
          ∧ (slotAt mountedState i).dirHashTable = none ∧ (slotAt mountedState i).dirTable = none
          ∧ (slotAt mountedState i).fileHashTable = none
          ∧ (slotAt mountedState i).fileTable = none
          ∧ (slotAt mountedState i).name = []
          ∧ (∀ j, j ≠ i → slotAt mountedState j = slotAt (_romfsInit mountedState) j)
          ∧ ∀ nm, (romfsFindMount mountedState (some nm)).2
                = (romfsFindMount mountedState (some nm)).2
              ∧ foundMount mountedState nm = foundMount mountedState nm)
      ∧ romfsMount { imageEnv (imageOf sampleMount) with open_fd := -1 } [120]
          RomfsSource.FileDescriptor mountedState
        = some (setSlot (_romfsInit mountedState) 1
            (_romfsResetMount (slotAt (_romfsInit mountedState) 1).id), -1) :=
  ⟨by decide,
   (failed_mount_rolls_back (oomEnv (imageOf sampleMount)) [120] RomfsSource.FileDescriptor
      mountedState).1 mountedState (-9) (by decide) (by decide) (by decide),
   (failed_mount_rolls_back { imageEnv (imageOf sampleMount) with open_fd := -1 } [120]
      RomfsSource.FileDescriptor mountedState).2.1 1 (by decide) (Or.inl ⟨rfl, rfl⟩)⟩

/-! ## The mount table: duplicate names -/

theorem _romfs_read_congr (B : ByteSource) (m1 m2 : romfs_mount) (o p n : Nat)
    (h1 : m1.offset = m2.offset) (h2 : m1.fd_type = m2.fd_type) :
    _romfs_read B m1 o p n = _romfs_read B m2 o p n := by
  unfold _romfs_read
  rw [h1, h2]

theorem _romfs_read_eq_readAt (B : ByteSource) (s : mount_slot) (o p n : Nat) :
    _romfs_read B (slotMount s) o p n = readAt B s.offset s.fd_type o p n :=
  _romfs_read_congr B _ _ o p n rfl rfl

theorem loadTable_eq_loadAt (E : MountEnv) (s : mount_slot) (k off size : Nat) :
    loadTable E s k off size = loadAt E s.offset s.fd_type k off size := by
  unfold loadAt loadTable _romfs_read_chk
  rw [_romfs_read_congr E.source (slotMount s) (slotMount (keySlot s.offset s.fd_type)) _ _ _
    rfl rfl]

/-- The return value of `romfsMountCommon` does not depend on the name. -/
theorem romfsMountCommon_name (E : MountEnv) (n1 n2 : List Nat) (s : mount_slot) :
    (romfsMountCommon E n1 s).map Prod.snd = (romfsMountCommon E n2 s).map Prod.snd := by
  unfold romfsMountCommon
  simp only [_romfs_read_eq_readAt, loadTable_eq_loadAt, romfs_mountclose_eq]
  repeat' split
  all_goals simp_all

theorem romfsMount_name (E : MountEnv) (n1 n2 : List Nat) (source : RomfsSource)
    (st : romfs_state) :
    (romfsMount E n1 source st).map Prod.snd = (romfsMount E n2 source st).map Prod.snd := by
  have hc : ∀ (s : mount_slot) (f : mount_slot → romfs_state),
      ((romfsMountCommon E n1 s).map (fun r => (f r.1, r.2))).map Prod.snd
        = ((romfsMountCommon E n2 s).map (fun r => (f r.1, r.2))).map Prod.snd := by
    intro s f
    have h := romfsMountCommon_name E n1 n2 s
    simp only [Option.map_map]
    exact h
  unfold romfsMount
  split
  · rfl
  · cases source with
    | FileDescriptor =>
      simp only
      split
      · rfl
      · exact hc _ _
    | FileDescriptor_CafeOS =>
      simp only
      split
      · rfl
      · split
        · rfl
        · exact hc _ _
    | other => exact hc _ _

theorem find?_range_some (p : Nat → Bool) :
    ∀ (n i : Nat), (List.range n).find? p = some i →
      i < n ∧ p i = true ∧ ∀ j, j < i → p j = false := by
  intro n
  induction n with
  | zero => intro i h; simp at h
  | succ n ih =>
    intro i h
    rw [List.range_succ, List.find?_append] at h
    cases hf : (List.range n).find? p with
    | some k =>
      rw [hf] at h
      simp at h
      subst h
      obtain ⟨a, b, c⟩ := ih k hf
      exact ⟨by omega, b, c⟩
    | none =>
      rw [hf] at h
      simp only [Option.or] at h
      have hn : p n = true := by
        by_contra hc
        simp [List.find?, hc] at h
      have hi : i = n := by
        simp [List.find?, hn] at h
        exact h.symm
      subst hi
      refine ⟨by omega, hn, ?_⟩
      intro j hj
      have := List.find?_eq_none.mp hf j (List.mem_range.mpr hj)
      simpa using this

/-- The index that `findSlot` returns is that of the first entry that passes
the test. -/
theorem findSlot_lowest (name : Option (List Nat)) (mounts : List mount_slot) (i : Nat)
    (h : findSlot name mounts = some i) :
    ∀ j, j < i → ∀ s, mounts[j]? = some s → slotMatches name s = false := by
  intro j hj s hs
  have := (find?_range_some _ _ _ h).2.2 j hj
  simpa [hs] using this

set_option maxRecDepth 20000 in
/-- C18 (counterexample): mount `a`, mount `x` (file data at `0x1000`), unmount
`a`, mount `x` again (file data at `0x2000`): all four calls return `0`, both
images named `x` are mounted, the first-registered one in entry 1 and the
second in entry 0, and `romfsFindMount` returns entry 0 for `x`: the image
registered second. -/
theorem lookup_returns_later_mount :
    dupSequence.map Prod.snd = some [0, 0, 0, 0]
      ∧ dupSequence.map (fun r => ((slotAt r.1 1).setup, (slotAt r.1 1).name,
            (slotAt r.1 1).header.fileDataOff)) = some (true, [120], 0x1000)
      ∧ dupSequence.map (fun r => ((slotAt r.1 0).setup, (slotAt r.1 0).name,
            (slotAt r.1 0).header.fileDataOff)) = some (true, [120], 0x2000)
      ∧ dupSequence.map (fun r => (romfsFindMount r.1 (some [120])).2) = some (some 0)
      ∧ dupSequence.map (fun r => (foundMount r.1 [120]).map (fun s => s.header.fileDataOff))
          = some (some 0x2000) := by
  decide

theorem slotAt_of_none (st : romfs_state) (j : Nat) (h : st.romfs_mounts[j]? = none) :
    slotAt st j = _romfsResetMount j := by
  unfold slotAt
  rw [List.getD_eq_getElem?_getD, h]
  rfl

/-- C18 (amended): `romfsMount` does not look at the names already mounted:
its return value is the same for every name, and a successful call sets up the
free entry with the lowest index under the copied name. `romfsFindMount`
returns the set-up entry with the lowest index whose name matches; so of two
mounted images that share a name, lookup returns the one in the lower entry,
which is not the first-registered one when an entry below it was freed in
between. -/
theorem duplicate_names_lowest_entry (E : MountEnv) (name : List Nat) (source : RomfsSource)
    (st : romfs_state) :
    (∀ n2, (romfsMount E name source st).map Prod.snd
        = (romfsMount E n2 source st).map Prod.snd)
    ∧ (∀ st1, romfsMount E name source st = some (st1, 0) →
        ∃ i s1, (romfs_alloc st).2 = some i
          ∧ (∀ j, j < i → (slotAt (_romfsInit st) j).setup = true)
          ∧ st1 = setSlot (_romfsInit st) i s1 ∧ slotAt st1 i = s1
          ∧ s1.setup = true ∧ s1.name = strncpy name 31)
    ∧ (∀ nm i, (romfsFindMount st (some nm)).2 = some i →
        i < romfs_mounts_total
          ∧ (slotAt (_romfsInit st) i).setup = true
          ∧ strncmpEqual (slotAt (_romfsInit st) i).name nm 32 = true
          ∧ ∀ j, j < i → ¬ ((slotAt (_romfsInit st) j).setup = true
              ∧ strncmpEqual (slotAt (_romfsInit st) j).name nm 32 = true)) := by
  refine ⟨fun n2 => romfsMount_name E name n2 source st, ?_, ?_⟩
  · intro st1 h
    rcases romfsMount_result E name source st st1 0 h with ⟨a, _⟩ | ⟨i, s0, hf, hs0, _, hres⟩
    · exact absurd a (by decide)
    · rcases hres with ⟨_, s1, hst, hsetup, hname, _, _⟩ | ⟨a, _⟩
      · refine ⟨i, s1, hf, ?_, hst, ?_, hsetup, hname⟩
        · intro j hj
          have hlt : i < (_romfsInit st).romfs_mounts.length := by
            rcases Nat.lt_or_ge i (_romfsInit st).romfs_mounts.length with h1 | h1
            · exact h1
            · rw [List.getElem?_eq_none h1] at hs0; cases hs0
          have hj2 : j < (_romfsInit st).romfs_mounts.length := by omega
          have hsj : (_romfsInit st).romfs_mounts[j]? = some ((_romfsInit st).romfs_mounts[j]) :=
            List.getElem?_eq_getElem hj2
          rw [slotAt_of_getElem? _ _ _ hsj]
          have := findSlot_lowest none _ i hf j hj _ hsj
          simpa [slotMatches] using this
        · rw [hst]
          exact slotAt_setSlot_self _ _ _ _ hs0
      · rcases a with a | a | a <;> exact absurd a (by decide)
  · intro nm i h
    have hf : findSlot (some nm) (_romfsInit st).romfs_mounts = some i := h
    obtain ⟨hlt, s, hs, hm⟩ := findSlot_some _ _ _ hf
    rw [slotAt_of_getElem? _ _ _ hs]
    simp only [slotMatches, Bool.and_eq_true] at hm
    refine ⟨hlt, hm.1, hm.2, ?_⟩
    intro j hj
    cases hsj : (_romfsInit st).romfs_mounts[j]? with
    | none =>
      rw [slotAt_of_none _ _ hsj]
      intro hc
      simp [_romfsResetMount] at hc
    | some t =>
      rw [slotAt_of_getElem? _ _ _ hsj]
      have := findSlot_lowest (some nm) _ i hf j hj t hsj
      simp only [slotMatches] at this
      intro hc
      rw [hc.1, hc.2] at this
      exact absurd this (by decide)

set_option maxRecDepth 20000 in
/-- Witness for C18 (amended): with the sample image mounted as `romfs`,
mounting a header-only image under the same name `romfs` returns `0` and sets
up entry 1; lookup of `romfs` then returns entry 0, the lower one. -/
theorem duplicate_names_lowest_entry_witness :
    (∃ i s1, (romfs_alloc mountedState).2 = some i
        ∧ (∀ j, j < i → (slotAt (_romfsInit mountedState) j).setup = true)
        ∧ twiceState = setSlot (_romfsInit mountedState) i s1 ∧ slotAt twiceState i = s1
        ∧ s1.setup = true ∧ s1.name = strncpy [114, 111, 109, 102, 115] 31)
      ∧ (0 < romfs_mounts_total
          ∧ (slotAt (_romfsInit twiceState) 0).setup = true
          ∧ strncmpEqual (slotAt (_romfsInit twiceState) 0).name [114, 111, 109, 102, 115] 32
              = true
          ∧ ∀ j, j < 0 → ¬ ((slotAt (_romfsInit twiceState) j).setup = true
              ∧ strncmpEqual (slotAt (_romfsInit twiceState) j).name
                  [114, 111, 109, 102, 115] 32 = true)) :=
  ⟨(duplicate_names_lowest_entry (imageEnv (emptyImage 0x50)) [114, 111, 109, 102, 115]
      RomfsSource.FileDescriptor mountedState).2.1 twiceState (by decide),
   (duplicate_names_lowest_entry (imageEnv (emptyImage 0x50)) [114, 111, 109, 102, 115]
      RomfsSource.FileDescriptor twiceState).2.2 [114, 111, 109, 102, 115] 0 (by decide)⟩

/-! ## File information by path -/

/-- C16: for a mount found under the name `romfs` and a path whose resolution
finds the file `F` (its directory part resolves and `searchForFile` finds `F`
under the last component), `romfsGetFileInfoPerPath` returns `0` with
`out.length = F.dataSize` and `out.offset = header.fileDataOff + F.dataOff`
(a 64-bit sum; the exact sum when it fits 64 bits), and `romfs_open` for
reading stores that same offset in the file handle for the same path. -/
theorem romfsGetFileInfoPerPath_matches_open (P : Platform) (fuel : Nat) (st : romfs_state)
    (romfs path : List Nat) (i D F : Nat) (rest : List Nat)
    (hfind : (romfsFindMount st (some romfs)).2 = some i)
    (hnav : navigateToDir P fuel (slotMount (slotAt (_romfsInit st) i)) path false
      = some (.ok (D, rest)))
    (hfile : searchForFile fuel (slotMount (slotAt (_romfsInit st) i)) D rest
      (strlen rest % U32) = some (.ok F)) :
    romfsGetFileInfoPerPath P fuel st (some romfs) path true
        = some (0, some
            { length := file_dataSize (slotMount (slotAt (_romfsInit st) i)) F
              offset := ((slotAt (_romfsInit st) i).header.fileDataOff
                + file_dataOff (slotMount (slotAt (_romfsInit st) i)) F) % U64 })
      ∧ ((slotAt (_romfsInit st) i).header.fileDataOff
            + file_dataOff (slotMount (slotAt (_romfsInit st) i)) F < 2 ^ 64 →
          romfsGetFileInfoPerPath P fuel st (some romfs) path true
            = some (0, some
                { length := file_dataSize (slotMount (slotAt (_romfsInit st) i)) F
                  offset := (slotAt (_romfsInit st) i).header.fileDataOff
                    + file_dataOff (slotMount (slotAt (_romfsInit st) i)) F }))
      ∧ (∀ flags, flags &&& P.O_ACCMODE = P.O_RDONLY →
          ¬ (flags &&& P.O_CREAT ≠ 0 ∧ flags &&& P.O_EXCL ≠ 0) →
          romfs_open P fuel (slotMount (slotAt (_romfsInit st) i)) path flags
            = some (.ok
                { file := F
                  offset := ((slotAt (_romfsInit st) i).header.fileDataOff
                    + file_dataOff (slotMount (slotAt (_romfsInit st) i)) F) % U64
                  pos := 0 })) := by
  have hf : findSlot (some romfs) (_romfsInit st).romfs_mounts = some i := hfind
  have hinfo : romfsGetFileInfoPerPath P fuel st (some romfs) path true
      = some (0, some
          { length := file_dataSize (slotMount (slotAt (_romfsInit st) i)) F
            offset := ((slotAt (_romfsInit st) i).header.fileDataOff
              + file_dataOff (slotMount (slotAt (_romfsInit st) i)) F) % U64 }) := by
    unfold romfsGetFileInfoPerPath romfsFindMount
    simp only [hf, hnav, hfile]
    rfl
  refine ⟨hinfo, ?_, ?_⟩
  · intro hlt
    rw [hinfo, Nat.mod_eq_of_lt (by unfold U64; exact hlt)]
  · intro flags hacc hexcl
    unfold romfs_open
    simp only [hacc, hnav, hfile]
    simp only [ne_eq, not_true_eq_false, if_false, if_neg hexcl]
    rfl

set_option maxRecDepth 20000 in
/-- Witness for C16: with the sample image mounted as `romfs`, the file
`/sub/b.bin` (data offset 16, size 0, file data at `0x200`) has
`out.offset = 0x210` and `out.length = 0`, and `romfs_open` stores `0x210`. -/
theorem romfsGetFileInfoPerPath_matches_open_witness :
    romfsGetFileInfoPerPath newlibPlatform 5 mountedState (some [114, 111, 109, 102, 115])
        [114, 111, 109, 102, 115, 58, 47, 115, 117, 98, 47, 98, 46, 98, 105, 110] true
        = some (0, some { length := 0, offset := 0x210 })
      ∧ romfs_open newlibPlatform 5 (slotMount (slotAt (_romfsInit mountedState) 0))
          [114, 111, 109, 102, 115, 58, 47, 115, 117, 98, 47, 98, 46, 98, 105, 110] 0
        = some (.ok { file := 40, offset := 0x210, pos := 0 }) :=
  ⟨((romfsGetFileInfoPerPath_matches_open newlibPlatform 5 mountedState
      [114, 111, 109, 102, 115]
      [114, 111, 109, 102, 115, 58, 47, 115, 117, 98, 47, 98, 46, 98, 105, 110] 0 24 40
      [98, 46, 98, 105, 110] (by decide) (by decide) (by decide)).1).trans (by decide),
   ((romfsGetFileInfoPerPath_matches_open newlibPlatform 5 mountedState
      [114, 111, 109, 102, 115]
      [114, 111, 109, 102, 115, 58, 47, 115, 117, 98, 47, 98, 46, 98, 105, 110] 0 24 40
      [98, 46, 98, 105, 110] (by decide) (by decide) (by decide)).2.2 0 (by decide)
      (by decide)).trans (by decide)⟩

/-! ## Termination of the hash-chain searches -/

theorem cycleMount_dir_loops : ∀ fuel, searchForDirLoop cycleMount 0 [120] 1 fuel 0 = none := by
  intro fuel
  induction fuel with
  | zero => rfl
  | succ f ih =>
    have h1 : romFS_dir cycleMount 0 = some 0 := by decide
    have h2 : dir_parent cycleMount 0 = 0 := by decide
    have h3 : dir_nameLen cycleMount 0 = 0 := by decide
    have h4 : dir_nextHash cycleMount 0 = 0 := by decide
    have h5 : (0 : Nat) ≠ romFS_none := by decide
    simp only [searchForDirLoop, if_neg h5, h1, h2, h3, h4]
    simpa using ih

theorem cycleMount_file_loops :
    ∀ fuel, searchForFileLoop cycleMount 0 [120] 1 fuel 0 = none := by
  intro fuel
  induction fuel with
  | zero => rfl
  | succ f ih =>
    have h1 : romFS_file cycleMount 0 = some 0 := by decide
    have h2 : file_parent cycleMount 0 = 0 := by decide
    have h3 : file_nameLen cycleMount 0 = 1 := by decide
    have h4 : file_nextHash cycleMount 0 = 0 := by decide
    have h5 : (0 : Nat) ≠ romFS_none := by decide
    have h6 : comparePaths (file_name cycleMount 0) (byteAt [120]) 1 = false := by decide
    simp only [searchForFileLoop, if_neg h5, h1, h2, h3, h4, h6]
    simpa using ih

/-- C21 (counterexample): the tables of `cycleMount` have the sizes its header
states, and the record at offset 0 of each table is in bounds, does not match
the name `x` under the root, and is its own `nextHash` successor; the searches
for `x` under the root do not return: no amount of fuel is enough. -/
theorem search_loops_on_cycle :
    Loaded cycleMount
      ∧ dirInBounds cycleMount 0 ∧ dir_nextHash cycleMount 0 = 0
      ∧ fileInBounds cycleMount 0 ∧ file_nextHash cycleMount 0 = 0
      ∧ ∀ fuel, searchForDir fuel cycleMount 0 [120] 1 = none
          ∧ searchForFile fuel cycleMount 0 [120] 1 = none := by
  refine ⟨by decide, by decide, by decide, by decide, by decide, ?_⟩
  intro fuel
  have hd : rd32 cycleMount.dirHashTable
      (4 * calcHash (0 % U32 % U32) [120] 1 (dirHashTotal cycleMount)) = 0 := by decide
  have hf : rd32 cycleMount.fileHashTable
      (4 * calcHash (0 % U32 % U32) [120] 1 (fileHashTotal cycleMount)) = 0 := by decide
  constructor
  · unfold searchForDir
    simp only [hd]
    exact cycleMount_dir_loops fuel
  · unfold searchForFile
    simp only [hf]
    exact cycleMount_file_loops fuel

theorem searchForDirLoop_result (m : romfs_mount) (p nl : Nat) (nm : List Nat) :
    ∀ (fuel a : Nat) (r : Except Errno Nat), searchForDirLoop m p nm nl fuel a = some r →
      r = .error Errno.ENOENT ∨ r = .error Errno.EFAULT
        ∨ ∃ d, r = .ok d ∧ romFS_dir m d = some d ∧ dir_parent m d = p ∧ dir_nameLen m d = nl
            ∧ comparePaths (dir_name m d) (byteAt nm) nl = true := by
  intro fuel
  induction fuel with
  | zero => intro a r h; simp [searchForDirLoop] at h
  | succ f ih =>
    intro a r h
    simp only [searchForDirLoop] at h
    split at h
    · simp only [Option.some.injEq] at h
      exact Or.inl h.symm
    · split at h
      · simp only [Option.some.injEq] at h
        exact Or.inr (Or.inl h.symm)
      · rename_i d hd
        have hdo : d = a := by
          unfold romFS_dir at hd
          split at hd
          · cases hd
          · split at hd
            · cases hd
            · simp only [Option.some.injEq] at hd
              exact hd.symm
        split at h
        · exact ih _ r h
        · split at h
          · exact ih _ r h
          · split at h
            · exact ih _ r h
            · simp only [Option.some.injEq] at h
              rename_i h1 h2 h3
              refine Or.inr (Or.inr ⟨d, h.symm, by rw [hdo]; rw [hdo] at hd; exact hd, ?_, ?_, ?_⟩)
              · exact not_not.mp h1
              · exact not_not.mp h2
              · simpa using h3

theorem searchForFileLoop_result (m : romfs_mount) (p nl : Nat) (nm : List Nat) :
    ∀ (fuel a : Nat) (r : Except Errno Nat), searchForFileLoop m p nm nl fuel a = some r →
      r = .error Errno.ENOENT ∨ r = .error Errno.EFAULT
        ∨ ∃ d, r = .ok d ∧ romFS_file m d = some d ∧ file_parent m d = p
            ∧ file_nameLen m d = nl
            ∧ comparePaths (file_name m d) (byteAt nm) nl = true := by
  intro fuel
  induction fuel with
  | zero => intro a r h; simp [searchForFileLoop] at h
  | succ f ih =>
    intro a r h
    simp only [searchForFileLoop] at h
    split at h
    · simp only [Option.some.injEq] at h
      exact Or.inl h.symm
    · split at h
      · simp only [Option.some.injEq] at h
        exact Or.inr (Or.inl h.symm)
      · rename_i d hd
        have hdo : d = a := by
          unfold romFS_file at hd
          split at hd
          · cases hd
          · split at hd
            · cases hd
            · simp only [Option.some.injEq] at hd
              exact hd.symm
        split at h
        · exact ih _ r h
        · split at h
          · exact ih _ r h
          · split at h
            · exact ih _ r h
            · simp only [Option.some.injEq] at h
              rename_i h1 h2 h3
              refine Or.inr (Or.inr ⟨d, h.symm, by rw [hdo]; rw [hdo] at hd; exact hd, ?_, ?_, ?_⟩)
              · exact not_not.mp h1
              · exact not_not.mp h2
              · simpa using h3

/-- The loop of `searchForDir` returns when the chain reaches, within `k`
in-bounds links, the sentinel or an offset that `romFS_dir` rejects. -/
theorem searchForDirLoop_returns (m : romfs_mount) (p nl : Nat) (nm : List Nat) (c : Nat)
    (hc : c = romFS_none ∨ romFS_dir m c = none) :
    ∀ (k a fuel : Nat), dirChain m k a c → k < fuel →
      ∃ r, searchForDirLoop m p nm nl fuel a = some r := by
  intro k
  induction k with
  | zero =>
    intro a fuel hch hf
    obtain ⟨f, rfl⟩ : ∃ f, fuel = f + 1 := ⟨fuel - 1, by omega⟩
    have hac : a = c := hch
    subst hac
    simp only [searchForDirLoop]
    rcases hc with h | h
    · rw [if_pos h]; exact ⟨_, rfl⟩
    · by_cases h0 : a = romFS_none
      · rw [if_pos h0]; exact ⟨_, rfl⟩
      · rw [if_neg h0, h]; exact ⟨_, rfl⟩
  | succ k ih =>
    intro a fuel hch hf
    obtain ⟨f, rfl⟩ : ∃ f, fuel = f + 1 := ⟨fuel - 1, by omega⟩
    obtain ⟨hne, hin, hrest⟩ := hch
    simp only [searchForDirLoop, if_neg hne, romFS_dir_of_inBounds m a hin]
    have hnext := ih (dir_nextHash m a) f hrest (by omega)
    split
    · exact hnext
    · split
      · exact hnext
      · split
        · exact hnext
        · exact ⟨_, rfl⟩

theorem searchForFileLoop_returns (m : romfs_mount) (p nl : Nat) (nm : List Nat) (c : Nat)
    (hc : c = romFS_none ∨ romFS_file m c = none) :
    ∀ (k a fuel : Nat), fileChain m k a c → k < fuel →
      ∃ r, searchForFileLoop m p nm nl fuel a = some r := by
  intro k
  induction k with
  | zero =>
    intro a fuel hch hf
    obtain ⟨f, rfl⟩ : ∃ f, fuel = f + 1 := ⟨fuel - 1, by omega⟩
    have hac : a = c := hch
    subst hac
    simp only [searchForFileLoop]
    rcases hc with h | h
    · rw [if_pos h]; exact ⟨_, rfl⟩
    · by_cases h0 : a = romFS_none
      · rw [if_pos h0]; exact ⟨_, rfl⟩
      · rw [if_neg h0, h]; exact ⟨_, rfl⟩
  | succ k ih =>
    intro a fuel hch hf
    obtain ⟨f, rfl⟩ : ∃ f, fuel = f + 1 := ⟨fuel - 1, by omega⟩
    obtain ⟨hne, hin, hrest⟩ := hch
    simp only [searchForFileLoop, if_neg hne, romFS_file_of_inBounds m a hin]
    have hnext := ih (file_nextHash m a) f hrest (by omega)
    split
    · exact hnext
    · split
      · exact hnext
      · split
        · exact hnext
        · exact ⟨_, rfl⟩

/-- C21 (amended): the searches return when the `nextHash` chain from the
bucket reaches, within `k` in-bounds links, the sentinel or an offset that the
accessor rejects (for every fuel above `k`), and whatever they return is a
record that matches the searched parent and name, `ENOENT` or `EFAULT`. A
chain that cycles through in-bounds records that do not match has no such `k`:
on it the searches do not return. -/
theorem search_returns_on_finite_chain (m : romfs_mount) (fuel parent namelen : Nat)
    (name : List Nat) :
    (∀ k c, dirChain m k
          (rd32 m.dirHashTable (4 * calcHash (parent % U32 % U32) name namelen (dirHashTotal m)))
          c →
        c = romFS_none ∨ romFS_dir m c = none → k < fuel →
        ∃ r, searchForDir fuel m parent name namelen = some r)
    ∧ (∀ r, searchForDir fuel m parent name namelen = some r →
        r = .error Errno.ENOENT ∨ r = .error Errno.EFAULT
          ∨ ∃ d, r = .ok d ∧ romFS_dir m d = some d ∧ dir_parent m d = parent % U32
              ∧ dir_nameLen m d = namelen
              ∧ comparePaths (dir_name m d) (byteAt name) namelen = true)
    ∧ (∀ k c, fileChain m k
          (rd32 m.fileHashTable
            (4 * calcHash (parent % U32 % U32) name namelen (fileHashTotal m))) c →
        c = romFS_none ∨ romFS_file m c = none → k < fuel →
        ∃ r, searchForFile fuel m parent name namelen = some r)
    ∧ (∀ r, searchForFile fuel m parent name namelen = some r →
        r = .error Errno.ENOENT ∨ r = .error Errno.EFAULT
          ∨ ∃ d, r = .ok d ∧ romFS_file m d = some d ∧ file_parent m d = parent % U32
              ∧ file_nameLen m d = namelen
              ∧ comparePaths (file_name m d) (byteAt name) namelen = true) := by
  refine ⟨?_, ?_, ?_, ?_⟩
  · intro k c hch hc hf
    exact searchForDirLoop_returns m _ _ _ c hc k _ fuel hch hf
  · intro r h
    exact searchForDirLoop_result m _ _ _ fuel _ r h
  · intro k c hch hc hf
    exact searchForFileLoop_returns m _ _ _ c hc k _ fuel hch hf
  · intro r h
    exact searchForFileLoop_result m _ _ _ fuel _ r h

/-- Witness for C21 (amended) on the sample image: the directory chain of the
bucket of `sub` under the root reaches the sentinel after one link, and the
file chain of the bucket of `A.TXT` after two; both searches return. -/
theorem search_returns_on_finite_chain_witness :
    (∃ r, searchForDir 5 sampleMount 0 [115, 117, 98] 3 = some r)
      ∧ (∃ r, searchForFile 5 sampleMount 0 [65, 46, 84, 88, 84] 5 = some r) :=
  ⟨(search_returns_on_finite_chain sampleMount 5 0 3 [115, 117, 98]).1 1 romFS_none
      (by decide) (Or.inl rfl) (by decide),
   (search_returns_on_finite_chain sampleMount 5 0 5 [65, 46, 84, 88, 84]).2.2.1 2 romFS_none
      (by decide) (Or.inl rfl) (by decide)⟩

/-! ## The device part of a path -/

theorem strchr_split (c : Nat) :
    ∀ (s : List Nat) (i : Nat), strchr s c = some i →
      s = s.take i ++ c :: s.drop (i + 1) ∧ ∀ x ∈ s.take i, x ≠ c := by
  intro s
  induction s with
  | nil => intro i h; simp [strchr] at h
  | cons x xs ih =>
    intro i h
    by_cases hx : x = c
    · simp only [strchr, if_pos hx, Option.some.injEq] at h
      subst h
      simp [hx]
    · simp only [strchr, if_neg hx] at h
      cases hs : strchr xs c with
      | none => simp [hs] at h
      | some j =>
        simp only [hs, Option.map_some', Option.some.injEq] at h
        subst h
        obtain ⟨h1, h2⟩ := ih j hs
        constructor
        · simp only [List.take_succ_cons, List.drop_succ_cons, List.cons_append]
          rw [← h1]
        · intro y hy
          simp only [List.take_succ_cons, List.mem_cons] at hy
          rcases hy with hy | hy
          · rw [hy]; exact hx
          · exact h2 y hy

theorem strchr_of_split (c : Nat) (rest : List Nat) :
    ∀ (pre : List Nat), (∀ x ∈ pre, x ≠ c) → strchr (pre ++ c :: rest) c = some pre.length := by
  intro pre
  induction pre with
  | nil => intro _; simp [strchr]
  | cons x xs ih =>
    intro h
    have hx : x ≠ c := h x (List.mem_cons_self _ _)
    show (if x = c then some 0 else (strchr (xs ++ c :: rest) c).map (fun i => i + 1)) = _
    rw [if_neg hx, ih (fun y hy => h y (List.mem_cons_of_mem _ hy))]
    rfl

theorem stripDevice_first_colon (pre rest : List Nat) (h : ∀ x ∈ pre, x ≠ 58) :
    stripDevice (pre ++ 58 :: rest) = rest := by
  unfold stripDevice
  rw [strchr_of_split 58 rest pre h]
  simp

/-- Text without `:` appended to a path stays after the device part is
removed; so does any text when the path itself holds a `:`. -/
theorem stripDevice_append (S X : List Nat) (h : (∀ x ∈ X, x ≠ 58) ∨ 58 ∈ S) :
    stripDevice (S ++ X) = stripDevice S ++ X := by
  cases hs : strchr S 58 with
  | some i =>
    unfold stripDevice
    rw [strchr_append 58 X S i hs, hs]
    simp only
    have hlt := strchr_lt 58 S i hs
    rw [List.drop_append_of_le_length (by omega)]
  | none =>
    have hX : ∀ x ∈ X, x ≠ 58 := by
      rcases h with h | h
      · exact h
      · obtain ⟨i, hi⟩ := strchr_of_mem 58 S h
        rw [hs] at hi; cases hi
    have hS : ∀ x ∈ S, x ≠ 58 := by
      intro x hx hx58
      subst hx58
      obtain ⟨i, hi⟩ := strchr_of_mem 58 S hx
      rw [hs] at hi; cases hi
    unfold stripDevice
    rw [hs, strchr_eq_none 58 (S ++ X) (by
      intro x hx
      rcases List.mem_append.mp hx with h1 | h1
      · exact hS x h1
      · exact hX x h1)]

/-- The device part removed from text that ends in `/` leaves text that ends
in `/`. -/
theorem stripDevice_getLast (S : List Nat) (h : S.getLast? = some 47) :
    (stripDevice S).getLast? = some 47 := by
  cases hs : strchr S 58 with
  | none => unfold stripDevice; rw [hs]; exact h
  | some i =>
    unfold stripDevice
    rw [hs]
    simp only
    obtain ⟨hsplit, _⟩ := strchr_split 58 S i hs
    rw [hsplit] at h
    cases hd : S.drop (i + 1) with
    | nil =>
      rw [hd] at h
      simp at h
    | cons y ys =>
      rw [hd] at h
      rw [List.getLast?_append_of_ne_nil _ (by simp)] at h
      rw [List.getLast?_cons_cons] at h
      exact h

theorem navStart_append (m : romfs_mount) (S X : List Nat) (h : S ≠ []) :
    navStart m (S ++ X) = ((navStart m S).1, (navStart m S).2 ++ X) := by
  cases S with
  | nil => exact absurd rfl h
  | cons y ys =>
    unfold navStart
    have e : byteAt (y :: ys ++ X) 0 = byteAt (y :: ys) 0 := by simp [byteAt]
    rw [e]
    split <;> simp

theorem navStart_dirPrefix (m : romfs_mount) (S : List Nat) (h : S.getLast? = some 47) :
    DirPrefix (navStart m S).2 := by
  unfold navStart
  split
  · cases S with
    | nil => simp at h
    | cons y ys =>
      cases ys with
      | nil => exact Or.inl rfl
      | cons z zs =>
        right
        rw [List.getLast?_cons_cons] at h
        exact h
  · exact Or.inr h

/-- Resolution of a path `S ++ X` whose part `S` ends in `/`: it goes as the
directory-only resolution of `S` and then resolves `X` from the directory
reached. `X` holds no `:`, or `S` holds one. -/
theorem navigateToDir_append (P : Platform) (fuel : Nat) (m : romfs_mount) (S X : List Nat)
    (isDir : Bool) (hS : S.getLast? = some 47) (hX : (∀ x ∈ X, x ≠ 58) ∨ 58 ∈ S) :
    navigateToDir P fuel m (S ++ X) isDir
      = afterPrefix P fuel m isDir X (navigateToDir P fuel m S true) := by
  have hlast := stripDevice_getLast S hS
  have hne : stripDevice S ≠ [] := by
    intro h0
    rw [h0] at hlast
    simp at hlast
  have hne2 : stripDevice (S ++ X) ≠ [] := by
    rw [stripDevice_append S X hX]
    intro h0
    exact hne (List.append_eq_nil.mp h0).1
  rw [navigateToDir_navStart P fuel m S true hne]
  apply navigateToDir_prefix_then P fuel m (S ++ X) isDir _ _ X hne2
  · rw [stripDevice_append S X hX]
    exact navStart_append m _ X hne
  · exact navStart_dirPrefix m _ hlast

/-- C22 (counterexample): on the sample image the path `x:romfs:/sub` holds
two `:`; its suffix after the second one, `/sub`, resolves to the directory
`sub`, but the path itself does not: the text after the first `:` is resolved,
whose first component `romfs:` names no directory, so resolution fails with
`ENOENT`. -/
theorem two_colons_keep_second :
    navigateToDir newlibPlatform 5 sampleMount [47, 115, 117, 98] true = some (.ok (24, []))
      ∧ navigateToDir newlibPlatform 5 sampleMount
          [120, 58, 114, 111, 109, 102, 115, 58, 47, 115, 117, 98] true
        = some (.error Errno.ENOENT)
      ∧ stripDevice [120, 58, 114, 111, 109, 102, 115, 58, 47, 115, 117, 98]
        = [114, 111, 109, 102, 115, 58, 47, 115, 117, 98] := by
  decide

/-- C22 (amended): `navigateToDir` discards the text up to and including the
first `:` of the path and resolves the text after it as it stands, without
looking for a further `:`; a path without `:` is resolved whole. So a path
with one `:` resolves like its suffix after it, and in a path with two `:` the
second one stays in the text that is resolved. -/
theorem navigateToDir_strips_first_colon (P : Platform) (fuel : Nat) (m : romfs_mount)
    (isDir : Bool) (pre rest : List Nat) (hpre : ∀ x ∈ pre, x ≠ 58) :
    stripDevice (pre ++ 58 :: rest) = rest
      ∧ stripDevice pre = pre
      ∧ (rest = [] →
          navigateToDir P fuel m (pre ++ 58 :: rest) isDir = some (.error Errno.EILSEQ))
      ∧ (rest ≠ [] →
          navigateToDir P fuel m (pre ++ 58 :: rest) isDir
            = navigateLoop P fuel m isDir ((navStart m rest).2.length + 1) (navStart m rest).1
                (navStart m rest).2)
      ∧ ((∀ x ∈ rest, x ≠ 58) →
          navigateToDir P fuel m (pre ++ 58 :: rest) isDir = navigateToDir P fuel m rest isDir)
      := by
  have hstrip := stripDevice_first_colon pre rest hpre
  refine ⟨hstrip, stripDevice_of_no_colon pre hpre, ?_, ?_, ?_⟩
  · intro h
    unfold navigateToDir
    simp only [hstrip]
    rw [if_pos h]
  · intro h
    rw [navigateToDir_navStart P fuel m _ isDir (by rw [hstrip]; exact h), hstrip]
  · intro h
    unfold navigateToDir
    rw [hstrip, stripDevice_of_no_colon rest h]

/-- Witness for C22 (amended) on the sample image: `romfs:/sub` resolves like
`/sub`. -/
theorem navigateToDir_strips_first_colon_witness :
    navigateToDir newlibPlatform 5 sampleMount [114, 111, 109, 102, 115, 58, 47, 115, 117, 98]
        true
      = navigateToDir newlibPlatform 5 sampleMount [47, 115, 117, 98] true :=
  (navigateToDir_strips_first_colon newlibPlatform 5 sampleMount true [114, 111, 109, 102, 115]
    [47, 115, 117, 98] (by decide)).2.2.2.2 (by decide)

/-! ## Leaf-deferred and directory-only resolution -/

/-- C23 (counterexample): on the sample image, with `S` the text `/sub/` and
`L` the text `a:b` (not empty, no `/`): directory-only resolution of `S` gives
the directory `sub`, but file-mode resolution of `S + L` gives the current
directory (the root) with the cursor at `b`: the `:` of `L` is the first one
of the path, so everything up to it is discarded. -/
theorem leaf_with_colon_discards_parent :
    navigateToDir newlibPlatform 5 sampleMount [47, 115, 117, 98, 47] true
        = some (.ok (24, []))
      ∧ navigateToDir newlibPlatform 5 sampleMount ([47, 115, 117, 98, 47] ++ [97, 58, 98]) false
        = some (.ok (0, [98])) := by
  decide

/-- C23 (amended): for a path component `L` (not empty, no `/`), where `L`
holds no `:` or `S` holds one: file-mode resolution of `L` alone gives the current
directory (when `L` holds no `:`), and for `S` ending in `/` file-mode
resolution of `S + L` gives the error of directory-only resolution of `S`, or
the directory it reaches; on success the cursor is at `L`, which was not
looked up. -/
theorem leaf_deferred_agrees (P : Platform) (fuel : Nat) (m : romfs_mount) (S L : List Nat)
    (hcomp : IsComponent L) (hcolon : (∀ x ∈ L, x ≠ 58) ∨ 58 ∈ S) :
    (S = [] → navigateToDir P fuel m (S ++ L) false = some (.ok (m.cwd, L)))
      ∧ (S.getLast? = some 47 →
          navigateToDir P fuel m (S ++ L) false
            = match navigateToDir P fuel m S true with
              | none => none
              | some (.error e) => some (.error e)
              | some (.ok (D, _)) => some (.ok (D, L))) := by
  obtain ⟨hL, hbytes, hslash⟩ := hcomp
  have hstr : strchr L 47 = none := strchr_eq_none 47 L hslash
  constructor
  · intro hS
    subst hS
    have hc : ∀ x ∈ L, x ≠ 58 := by
      rcases hcolon with h | h
      · exact h
      · simp at h
    have hstrip : stripDevice L = L := stripDevice_of_no_colon L hc
    rw [List.nil_append, navigateToDir_navStart P fuel m L false (by rw [hstrip]; exact hL), hstrip]
    have h0 : byteAt L 0 ≠ 47 := by
      cases L with
      | nil => exact absurd rfl hL
      | cons y ys =>
        have h1 := hslash y (List.mem_cons_self _ _)
        have h2 := (hbytes y (List.mem_cons_self _ _)).2
        simp only [byteAt, List.getD_cons_zero]
        rw [Nat.mod_eq_of_lt h2]
        exact h1
    have hstart : navStart m L = (m.cwd, L) := by
      unfold navStart
      rw [if_neg h0]
    rw [hstart]
    exact navigateLoop_last_file P fuel m _ m.cwd L hL hstr
  · intro hS
    rw [navigateToDir_append P fuel m S L false hS hcolon]
    cases hr : navigateToDir P fuel m S true with
    | none => rfl
    | some r =>
      cases r with
      | error e => rfl
      | ok p =>
        obtain ⟨D, r⟩ := p
        exact navigateLoop_last_file P fuel m _ D L hL hstr

/-- Witness for C23 (amended) on the sample image: `/sub/b.bin` in file mode
gives the directory that `/sub/` gives in directory-only mode, with the cursor
at `b.bin`. -/
theorem leaf_deferred_agrees_witness :
    navigateToDir newlibPlatform 5 sampleMount ([47, 115, 117, 98, 47] ++ [98, 46, 98, 105, 110])
        false
      = some (.ok (24, [98, 46, 98, 105, 110])) :=
  ((leaf_deferred_agrees newlibPlatform 5 sampleMount [47, 115, 117, 98, 47]
    [98, 46, 98, 105, 110] (by decide) (Or.inl (by decide))).2 (by decide)).trans
    (by decide)

/-! ## The components `.` and `..` -/

theorem navigateLoop_dot (P : Platform) (fuel : Nat) (m : romfs_mount) (k D : Nat) :
    navigateLoop P fuel m true (k + 2) D [46] = some (.ok (D, [])) := by
  rw [navigateLoop_last_dir P fuel m (k + 1) D [46] (by simp) (by decide)]
  have h : byteAt [46] 0 = 46 ∧ byteAt [46] 1 = 0 := by decide
  simp only [lookupStep, if_pos h, navigateLoop_nil]

theorem navigateLoop_dotdot (P : Platform) (fuel : Nat) (m : romfs_mount) (k D : Nat) :
    navigateLoop P fuel m true (k + 2) D [46, 46]
      = match romFS_dir m (dir_parent m D) with
        | none => some (.error Errno.EFAULT)
        | some d => some (.ok (d, [])) := by
  rw [navigateLoop_last_dir P fuel m (k + 1) D [46, 46] (by simp) (by decide)]
  have h1 : ¬ (byteAt [46, 46] 0 = 46 ∧ byteAt [46, 46] 1 = 0) := by decide
  have h2 : byteAt [46, 46] 0 = 46 ∧ byteAt [46, 46] 1 = 46 ∧ byteAt [46, 46] 2 = 0 := by decide
  simp only [lookupStep, if_neg h1, if_pos h2, navigateLoop_nil]

theorem navigateLoop_dotdot_slash (P : Platform) (fuel : Nat) (m : romfs_mount) (k D : Nat)
    (hmax : 2 ≤ P.PATH_MAX) :
    navigateLoop P fuel m true (k + 2) D [46, 46, 47]
      = match romFS_dir m (dir_parent m D) with
        | none => some (.error Errno.EFAULT)
        | some d => some (.ok (d, [])) := by
  rw [navigateLoop_slash P fuel m true (k + 1) D 2 [46, 46, 47] (by simp) (by decide)]
  have h0 : ¬ (2 % U32 = 0) := by decide
  have h1 : ¬ (2 % U32 > P.PATH_MAX) := by
    have : 2 % U32 = 2 := by decide
    omega
  have h2 : ¬ (byteAt (List.take (2 % U32) [46, 46, 47]) 0 = 46
      ∧ byteAt (List.take (2 % U32) [46, 46, 47]) 1 = 0) := by decide
  have h3 : byteAt (List.take (2 % U32) [46, 46, 47]) 0 = 46
      ∧ byteAt (List.take (2 % U32) [46, 46, 47]) 1 = 46
      ∧ byteAt (List.take (2 % U32) [46, 46, 47]) 2 = 0 := by decide
  simp only [componentStep, if_neg h0, if_neg h1, lookupStep, if_neg h2, if_pos h3]
  have hd : List.drop (2 + 1) [46, 46, 47] = ([] : List Nat) := by decide
  rw [hd]
  simp only [navigateLoop_nil]

/-- On an image whose root record is its own parent, `/` followed by `../`
any number of times resolves to the root. -/
theorem navigateToDir_root_dotdots (P : Platform) (fuel : Nat) (m : romfs_mount)
    (hroot : romFS_dir m (dir_parent m (romFS_root m)) = some (romFS_root m))
    (hmax : 2 ≤ P.PATH_MAX) :
    ∀ n, navigateToDir P fuel m (47 :: (List.replicate n [46, 46, 47]).flatten) true
      = some (.ok (romFS_root m, [])) := by
  intro n
  induction n with
  | zero =>
    have hs : stripDevice [47] = [47] := by decide
    rw [List.replicate_zero, List.flatten_nil,
      navigateToDir_navStart P fuel m [47] true (by rw [hs]; simp), hs, navStart_slash]
    exact navigateLoop_nil P fuel m true 0 _
  | succ n ih =>
    have hlist : 47 :: (List.replicate (n + 1) [46, 46, 47]).flatten
        = (47 :: (List.replicate n [46, 46, 47]).flatten) ++ [46, 46, 47] := by
      rw [List.replicate_succ']
      simp
    have hlast : (47 :: (List.replicate n [46, 46, 47]).flatten).getLast? = some 47 := by
      cases n with
      | zero => rfl
      | succ j =>
        rw [List.replicate_succ']
        have e : 47 :: (List.replicate j [46, 46, 47] ++ [[46, 46, 47]]).flatten
            = (47 :: ((List.replicate j [46, 46, 47]).flatten ++ [46, 46])) ++ [47] := by simp
        rw [e, List.getLast?_append_of_ne_nil _ (by simp)]
        rfl
    rw [hlist, navigateToDir_append P fuel m _ [46, 46, 47] true hlast (Or.inl (by decide)), ih]
    show navigateLoop P fuel m true 4 (romFS_root m) [46, 46, 47] = _
    rw [navigateLoop_dotdot_slash P fuel m 2 _ hmax, hroot]

/-- The components `.` and `..` in terms of `romFS_dir`: in directory-only
mode, for a path prefix `S` (ending in `/`, or empty: then the start is the
current directory) that resolves to the directory `D`: `S + "."` resolves to
`D`, and `S + ".."` resolves to the record at offset `D.parent` when
`romFS_dir` accepts that offset, and fails with `EFAULT` when it rejects it. On an image whose root record is its own parent (with `PATH_MAX` at
least 2), `/..` repeated any number of times resolves to the root. -/
theorem dot_and_dotdot (P : Platform) (fuel : Nat) (m : romfs_mount) :
    (∀ (S : List Nat) (D : Nat) (r : List Nat), S.getLast? = some 47 →
        navigateToDir P fuel m S true = some (.ok (D, r)) →
        navigateToDir P fuel m (S ++ [46]) true = some (.ok (D, []))
          ∧ (romFS_dir m (dir_parent m D) = none →
              navigateToDir P fuel m (S ++ [46, 46]) true = some (.error Errno.EFAULT))
          ∧ (romFS_dir m (dir_parent m D) ≠ none →
              navigateToDir P fuel m (S ++ [46, 46]) true = some (.ok (dir_parent m D, []))))
    ∧ (navigateToDir P fuel m [46] true = some (.ok (m.cwd, []))
        ∧ (romFS_dir m (dir_parent m m.cwd) = none →
            navigateToDir P fuel m [46, 46] true = some (.error Errno.EFAULT))
        ∧ (romFS_dir m (dir_parent m m.cwd) ≠ none →
            navigateToDir P fuel m [46, 46] true = some (.ok (dir_parent m m.cwd, []))))
    ∧ (romFS_dir m (dir_parent m (romFS_root m)) = some (romFS_root m) → 2 ≤ P.PATH_MAX →
        ∀ n, navigateToDir P fuel m (dotdotPath n) true = some (.ok (romFS_root m, []))) := by
  have hsome : ∀ a, romFS_dir m a ≠ none → romFS_dir m a = some a := by
    intro a h
    unfold romFS_dir at h ⊢
    split
    · rw [if_pos (by assumption)] at h; exact absurd rfl h
    · split
      · rw [if_neg (by assumption), if_pos (by assumption)] at h; exact absurd rfl h
      · rfl
  have hdd : ∀ (k D : Nat),
      (romFS_dir m (dir_parent m D) = none →
          navigateLoop P fuel m true (k + 2) D [46, 46] = some (.error Errno.EFAULT))
        ∧ (romFS_dir m (dir_parent m D) ≠ none →
          navigateLoop P fuel m true (k + 2) D [46, 46] = some (.ok (dir_parent m D, []))) := by
    intro k D
    constructor
    · intro h
      rw [navigateLoop_dotdot, h]
    · intro h
      rw [navigateLoop_dotdot, hsome _ h]
  refine ⟨?_, ⟨?_, ?_, ?_⟩, ?_⟩
  · intro S D r hS hres
    refine ⟨?_, ?_, ?_⟩
    · rw [navigateToDir_append P fuel m S [46] true hS (Or.inl (by decide)), hres]
      exact navigateLoop_dot P fuel m 0 D
    · intro h
      rw [navigateToDir_append P fuel m S [46, 46] true hS (Or.inl (by decide)), hres]
      exact (hdd 1 D).1 h
    · intro h
      rw [navigateToDir_append P fuel m S [46, 46] true hS (Or.inl (by decide)), hres]
      exact (hdd 1 D).2 h
  · have hs : stripDevice [46] = [46] := by decide
    rw [navigateToDir_navStart P fuel m [46] true (by rw [hs]; simp), hs]
    have hst : navStart m [46] = (m.cwd, [46]) := by simp [navStart, byteAt]
    rw [hst]
    exact navigateLoop_dot P fuel m 0 m.cwd
  · intro h
    have hs : stripDevice [46, 46] = [46, 46] := by decide
    rw [navigateToDir_navStart P fuel m [46, 46] true (by rw [hs]; simp), hs]
    have hst : navStart m [46, 46] = (m.cwd, [46, 46]) := by simp [navStart, byteAt]
    rw [hst]
    exact (hdd 1 m.cwd).1 h
  · intro h
    have hs : stripDevice [46, 46] = [46, 46] := by decide
    rw [navigateToDir_navStart P fuel m [46, 46] true (by rw [hs]; simp), hs]
    have hst : navStart m [46, 46] = (m.cwd, [46, 46]) := by simp [navStart, byteAt]
    rw [hst]
    exact (hdd 1 m.cwd).2 h
  · intro hroot hmax n
    have hlast : (47 :: (List.replicate n [46, 46, 47]).flatten).getLast? = some 47 := by
      cases n with
      | zero => rfl
      | succ j =>
        rw [List.replicate_succ']
        have e : 47 :: (List.replicate j [46, 46, 47] ++ [[46, 46, 47]]).flatten
            = (47 :: ((List.replicate j [46, 46, 47]).flatten ++ [46, 46])) ++ [47] := by simp
        rw [e, List.getLast?_append_of_ne_nil _ (by simp)]
        rfl
    have e : dotdotPath n = (47 :: (List.replicate n [46, 46, 47]).flatten) ++ [46, 46] := by
      simp [dotdotPath]
    rw [e, navigateToDir_append P fuel m _ [46, 46] true hlast (Or.inl (by decide)),
      navigateToDir_root_dotdots P fuel m hroot hmax n]
    show navigateLoop P fuel m true 3 (romFS_root m) [46, 46] = _
    rw [navigateLoop_dotdot, hroot]

/-- The components `.` and `..` on the sample image: `/sub/.` resolves to
`sub`, `/sub/..` to the root, and `/../../..` to the root. -/
theorem dot_and_dotdot_witness :
    navigateToDir newlibPlatform 5 sampleMount ([47, 115, 117, 98, 47] ++ [46]) true
        = some (.ok (24, []))
      ∧ navigateToDir newlibPlatform 5 sampleMount ([47, 115, 117, 98, 47] ++ [46, 46]) true
        = some (.ok (dir_parent sampleMount 24, []))
      ∧ navigateToDir newlibPlatform 5 sampleMount (dotdotPath 2) true
        = some (.ok (romFS_root sampleMount, [])) :=
  ⟨((dot_and_dotdot newlibPlatform 5 sampleMount).1 [47, 115, 117, 98, 47] 24 [] (by decide)
      (by decide)).1,
   ((dot_and_dotdot newlibPlatform 5 sampleMount).1 [47, 115, 117, 98, 47] 24 [] (by decide)
      (by decide)).2.2 (by decide),
   (dot_and_dotdot newlibPlatform 5 sampleMount).2.2 (by decide) (by decide) 2⟩

/-! ## Directory iteration: over-long names -/

set_option maxRecDepth 20000 in
/-- C26 (counterexample): `romfsMount` under a name of 32 bytes returns `0`;
the entry then holds the first 31 bytes of the name, and lookup with the name
itself finds nothing: `romfsFindMount` returns `NULL`, `romfsUnmount` returns
`-1` and `romfsGetFileInfoPerPath` returns `-2`. -/
theorem long_mount_name_is_not_found :
    name32Mounted.map Prod.snd = some 0
      ∧ name32Mounted.map (fun r => ((slotAt r.1 0).setup, (slotAt r.1 0).name))
          = some (true, List.replicate 31 97)
      ∧ name32Mounted.map (fun r => (romfsFindMount r.1 (some name32)).2) = some none
      ∧ name32Mounted.map (fun r => (romfsUnmount r.1 (some name32)).2) = some (-1)
      ∧ name32Mounted.map (fun r =>
            romfsGetFileInfoPerPath newlibPlatform 5 r.1 (some name32) [47, 120] true)
          = some (some (-2, none)) := by
  decide

theorem takeWhile_take (p : Nat → Bool) :
    ∀ (l : List Nat) (n : Nat), (l.take n).takeWhile p = (l.takeWhile p).take n := by
  intro l
  induction l with
  | nil => intro n; simp
  | cons x xs ih =>
    intro n
    cases n with
    | zero => simp
    | succ k =>
      by_cases hx : p x = true
      · simp [List.takeWhile_cons, hx, ih k]
      · simp [List.takeWhile_cons, hx]

theorem strncpy_eq_cstr_take (name : List Nat) (n : Nat) :
    strncpy name n = (cstr name).take n := by
  unfold strncpy cstr
  exact takeWhile_take _ name n

theorem mem_takeWhile_sat (p : Nat → Bool) :
    ∀ (l : List Nat) (x : Nat), x ∈ l.takeWhile p → p x = true := by
  intro l
  induction l with
  | nil => intro x hx; simp at hx
  | cons y ys ih =>
    intro x hx
    by_cases hy : p y = true
    · simp only [List.takeWhile_cons, hy, if_true, List.mem_cons] at hx
      rcases hx with hx | hx
      · rw [hx]; exact hy
      · exact ih x hx
    · simp [List.takeWhile_cons, hy] at hx

theorem cstr_take_cstr (name : List Nat) (n : Nat) :
    cstr ((cstr name).take n) = (cstr name).take n := by
  unfold cstr
  apply List.takeWhile_eq_self_iff.mpr
  intro x hx
  exact mem_takeWhile_sat _ name x (List.mem_of_mem_take hx)

theorem find?_range_exists (p : Nat → Bool) (n i : Nat) (hi : i < n) (hp : p i = true) :
    ∃ j, j ≤ i ∧ (List.range n).find? p = some j := by
  cases hf : (List.range n).find? p with
  | none =>
    have := List.find?_eq_none.mp hf i (List.mem_range.mpr hi)
    rw [hp] at this
    exact absurd rfl this
  | some j =>
    refine ⟨j, ?_, rfl⟩
    have h := (find?_range_some p n j hf).2.2
    rcases Nat.lt_or_ge i j with hlt | hge
    · have := h i hlt
      rw [hp] at this
      cases this
    · exact hge

theorem stored_name_matches (name nm : List Nat) (s : mount_slot) (hsetup : s.setup = true)
    (hname : s.name = strncpy name 31) (hnm : (cstr nm).take 32 = (cstr name).take 31) :
    slotMatches (some nm) s = true := by
  have hlen : ((cstr name).take 31).length ≤ 32 := by
    rw [List.length_take]; omega
  simp only [slotMatches, hsetup, Bool.true_and, strncmpEqual, decide_eq_true_eq]
  rw [hname, strncpy_eq_cstr_take, cstr_take_cstr, List.take_of_length_le hlen, hnm]

theorem long_name_no_match (name : List Nat) (s : mount_slot)
    (hs : (cstr s.name).length ≤ 31) (hlong : 32 ≤ (cstr name).length) :
    slotMatches (some name) s = false := by
  cases hm : slotMatches (some name) s with
  | false => rfl
  | true =>
    simp only [slotMatches, Bool.and_eq_true, strncmpEqual, decide_eq_true_eq] at hm
    have h := congrArg List.length hm.2
    rw [List.length_take, List.length_take] at h
    omega

theorem findSlot_exists (name : Option (List Nat)) (mounts : List mount_slot) (i : Nat)
    (s : mount_slot) (hi : i < romfs_mounts_total) (hs : mounts[i]? = some s)
    (hm : slotMatches name s = true) : ∃ j, j ≤ i ∧ findSlot name mounts = some j := by
  unfold findSlot
  apply find?_range_exists _ _ i hi
  simp only [hs, hm]

/-- C26 (amended): after `romfsMount` succeeds under a name, the entry holds
the first 31 bytes of the name. Lookup with a name whose first 32 bytes are
that stored name finds a mount of that name (the new entry, unless a lower
entry matches too), and `romfsUnmount` with it returns `0`; this covers the
name itself when it has at most 31 bytes, and the 31-byte truncation of a
longer one. Lookup with a name of 32 bytes or more does not find the new
entry, and finds no entry at all in a table whose stored names have at most
31 bytes: `romfsUnmount` then returns `-1`. -/
theorem mount_found_by_stored_name (E : MountEnv) (name : List Nat) (source : RomfsSource)
    (st st1 : romfs_state) (h : romfsMount E name source st = some (st1, 0)) :
    ∃ i, (romfs_alloc st).2 = some i
      ∧ (slotAt st1 i).setup = true
      ∧ (slotAt st1 i).name = (cstr name).take 31
      ∧ (∀ nm, (cstr nm).take 32 = (cstr name).take 31 →
          ∃ j, j ≤ i ∧ (romfsFindMount st1 (some nm)).2 = some j
            ∧ ((∀ k, k < i → slotMatches (some nm) (slotAt st1 k) = false) → j = i)
            ∧ (romfsUnmount st1 (some nm)).2 = 0)
      ∧ ((cstr name).length ≤ 31 →
          ∃ j, j ≤ i ∧ (romfsFindMount st1 (some name)).2 = some j
            ∧ (romfsUnmount st1 (some name)).2 = 0)
      ∧ (32 ≤ (cstr name).length →
          (∃ j, j ≤ i ∧ (romfsFindMount st1 (some ((cstr name).take 31))).2 = some j)
            ∧ (romfsFindMount st1 (some name)).2 ≠ some i
            ∧ ((∀ j, (cstr (slotAt st1 j).name).length ≤ 31) →
                (romfsFindMount st1 (some name)).2 = none
                  ∧ (romfsUnmount st1 (some name)).2 = -1)) := by
  rcases romfsMount_result E name source st st1 0 h with ⟨a, _⟩ | ⟨i, s0, hf, hs0, _, hres⟩
  · exact absurd a (by decide)
  rcases hres with ⟨_, s1, hst, hsetup, hname, _, _⟩ | ⟨a, _⟩
  swap
  · rcases a with a | a | a <;> exact absurd a (by decide)
  have hi32 : i < romfs_mounts_total := (findSlot_some _ _ _ hf).1
  have hat : slotAt st1 i = s1 := by
    rw [hst]; exact slotAt_setSlot_self _ _ _ _ hs0
  have hlt : i < (_romfsInit st).romfs_mounts.length := by
    rcases Nat.lt_or_ge i (_romfsInit st).romfs_mounts.length with h1 | h1
    · exact h1
    · rw [List.getElem?_eq_none h1] at hs0; cases hs0
  have hget : st1.romfs_mounts[i]? = some s1 := by
    rw [hst]
    simp only [setSlot]
    rw [List.getElem?_set_self hlt]
  have hinit : _romfsInit st1 = st1 := by
    have hi := _romfsInit_initialised st
    rw [hst]
    unfold setSlot
    generalize _romfsInit st = t at hi
    simp [_romfsInit, hi]
  have hfindEq : ∀ nm, (romfsFindMount st1 (some nm)).2 = findSlot (some nm) st1.romfs_mounts := by
    intro nm
    unfold romfsFindMount
    rw [hinit]
  have hlen1 : st1.romfs_mounts.length = (_romfsInit st).romfs_mounts.length := by
    rw [hst]; simp [setSlot]
  have hfound : ∀ nm, (cstr nm).take 32 = (cstr name).take 31 →
      ∃ j, j ≤ i ∧ (romfsFindMount st1 (some nm)).2 = some j
        ∧ ((∀ k, k < i → slotMatches (some nm) (slotAt st1 k) = false) → j = i)
        ∧ (romfsUnmount st1 (some nm)).2 = 0 := by
    intro nm hnm
    obtain ⟨j, hj, hfj⟩ := findSlot_exists (some nm) st1.romfs_mounts i s1 hi32 hget
      (stored_name_matches name nm s1 hsetup hname hnm)
    have hfj2 : (romfsFindMount st1 (some nm)).2 = some j := by
      rw [hfindEq]; exact hfj
    refine ⟨j, hj, hfj2, ?_, ?_⟩
    · intro hno
      rcases Nat.lt_or_ge j i with hlt2 | hge
      · obtain ⟨_, t, ht, hm⟩ := findSlot_some _ _ _ hfj
        have hk := hno j hlt2
        rw [slotAt_of_getElem? st1 j t ht, hm] at hk
        cases hk
      · omega
    · unfold romfsUnmount
      have : romfsFindMount st1 (some nm) = (st1, some j) := by
        unfold romfsFindMount
        rw [hinit]
        exact congrArg (Prod.mk st1) hfj
      rw [this]
  refine ⟨i, hf, by rw [hat]; exact hsetup, ?_, hfound, ?_, ?_⟩
  · rw [hat, hname, strncpy_eq_cstr_take]
  · intro hshort
    obtain ⟨j, hj, hfj, _, hu⟩ := hfound name (by
      rw [List.take_of_length_le (by omega), List.take_of_length_le hshort])
    exact ⟨j, hj, hfj, hu⟩
  · intro hlong
    refine ⟨?_, ?_, ?_⟩
    · obtain ⟨j, hj, hfj, _, _⟩ := hfound ((cstr name).take 31) (by
        rw [cstr_take_cstr, List.take_of_length_le (by rw [List.length_take]; omega)])
      exact ⟨j, hj, hfj⟩
    · intro hc
      rw [hfindEq] at hc
      obtain ⟨_, s, hs, hm⟩ := findSlot_some _ _ _ hc
      rw [hget] at hs
      cases hs
      have hstored : (cstr s1.name).length ≤ 31 := by
        rw [hname, strncpy_eq_cstr_take, cstr_take_cstr, List.length_take]; omega
      rw [long_name_no_match name s1 hstored hlong] at hm
      cases hm
    · intro hinv
      have hnone : (romfsFindMount st1 (some name)).2 = none := by
        rw [hfindEq]
        cases hc : findSlot (some name) st1.romfs_mounts with
        | none => rfl
        | some j =>
          obtain ⟨_, s, hs, hm⟩ := findSlot_some _ _ _ hc
          have hsj := hinv j
          rw [slotAt_of_getElem? st1 j s hs] at hsj
          rw [long_name_no_match name s hsj hlong] at hm
          cases hm
      refine ⟨hnone, ?_⟩
      unfold romfsUnmount
      have : romfsFindMount st1 (some name) = (st1, none) := by
        have h2 := hnone
        unfold romfsFindMount at h2 ⊢
        rw [hinit] at h2 ⊢
        exact congrArg (Prod.mk st1) h2
      rw [this]

set_option maxRecDepth 20000 in
/-- Witness for C26 (amended): the sample image mounted as `romfs` at program
start is found under `romfs`, and `romfsUnmount` with that name returns `0`. -/
theorem mount_found_by_stored_name_witness :
    ∃ i j, (romfs_alloc initialState).2 = some i ∧ j ≤ i
      ∧ (romfsFindMount mountedState (some [114, 111, 109, 102, 115])).2 = some j
      ∧ (romfsUnmount mountedState (some [114, 111, 109, 102, 115])).2 = 0 := by
  obtain ⟨i, hi, _, _, _, hshort, _⟩ :=
    mount_found_by_stored_name (imageEnv (imageOf sampleMount)) [114, 111, 109, 102, 115]
      RomfsSource.FileDescriptor initialState mountedState (by decide)
  obtain ⟨j, hj, hfj, hu⟩ := hshort (by decide)
  exact ⟨i, j, hi, hj, hfj, hu⟩

/-! ## `romfs_stat` and directory-only resolution -/

/-- C27 (evaluation at the failing input): on the sample image directory-only
resolution of `/sub/.` ends at `sub` and that of `/sub/..` at the root, whose
metadata `fillDir` synthesizes; `romfs_stat` fails with `ENOENT` on both
paths: it hands the final component to the lookups as a name, without the
handling of `.` and `..` that the loop of `navigateToDir` has. -/
theorem stat_of_dot_fails :
    navigateToDir newlibPlatform 5 sampleMount [47, 115, 117, 98, 47, 46] true
        = some (.ok (24, []))
      ∧ (fillDir newlibPlatform 5 sampleMount 24).isSome = true
      ∧ romfs_stat newlibPlatform 5 sampleMount [47, 115, 117, 98, 47, 46]
        = some (.error Errno.ENOENT)
      ∧ navigateToDir newlibPlatform 5 sampleMount [47, 115, 117, 98, 47, 46, 46] true
        = some (.ok (0, []))
      ∧ (fillDir newlibPlatform 5 sampleMount 0).isSome = true
      ∧ romfs_stat newlibPlatform 5 sampleMount [47, 115, 117, 98, 47, 46, 46]
        = some (.error Errno.ENOENT) := by
  decide

/-- Where `romfs_stat` and directory-only resolution agree: let the text of a
path after the device part and the leading `/` be `S ++ L`, with `S` empty or ending in `/` and `L` the last
component (no `/`; empty when the path ends in `/`), and let directory-only
resolution of the path end at `D`. When `L` is neither `.` nor `..`,
the result of `romfs_stat` is that of `fillDir` for `D`, and it is the
directory metadata of `D` when the sibling chains of the children of `D` end.
When `L` is
`.` or `..`, `romfs_stat` does not resolve it: it looks for a record named
`L` in the directory `S` resolves to, and fails with `ENOENT` when no
directory and no file is so named. -/
theorem stat_agrees_with_directory_resolution (P : Platform) (fuel : Nat) (m : romfs_mount)
    (path : List Nat) (d0 D : Nat) (S L r : List Nat)
    (hne : stripDevice path ≠ [])
    (hstart : navStart m (stripDevice path) = (d0, S ++ L)) (hS : DirPrefix S)
    (hbytes : ∀ c ∈ L, 0 < c ∧ c < 256) (hslash : ∀ c ∈ L, c ≠ 47)
    (hnav : navigateToDir P fuel m path true = some (.ok (D, r))) :
    (L ≠ [46] → L ≠ [46, 46] →
        romfs_stat P fuel m path = (fillDir P fuel m D).map Except.ok
          ∧ (∀ st, fillDir P fuel m D = some st → romfs_stat P fuel m path = some (.ok st))
          ∧ ∀ ds fs, dirSiblingChain m (dir_childDir m D) ds →
              fileSiblingChain m (dir_childFile m D) fs → ds.length < fuel → fs.length < fuel →
              romfs_stat P fuel m path
                = some (.ok { st_ino := dir_inode P m D
                              st_mode := romFS_dir_mode
                              st_nlink := (2 + ds.length + fs.length) % P.NLINK_MOD
                              st_size := dir_size m D
                              st_blksize := 512
                              st_blocks := 1
                              st_atime := m.mtime
                              st_mtime := m.mtime
                              st_ctime := m.mtime }))
      ∧ (L = [46] ∨ L = [46, 46] →
          ∃ D1 r1, navigateLoop P fuel m true (S.length + 1) d0 S = some (.ok (D1, r1))
            ∧ romfs_stat P fuel m path = romfs_stat_tail P fuel m (some (.ok (D1, L)))
            ∧ (searchForDir fuel m D1 L (strlen L % U32) = some (.error Errno.ENOENT) →
                searchForFile fuel m D1 L (strlen L % U32) = some (.error Errno.ENOENT) →
                romfs_stat P fuel m path = some (.error Errno.ENOENT))) := by
  have hdir := navigateToDir_prefix_then P fuel m path true d0 S L hne hstart hS
  have hfile := navigateToDir_prefix_then P fuel m path false d0 S L hne hstart hS
  rw [hnav] at hdir
  cases hR : navigateLoop P fuel m true (S.length + 1) d0 S with
  | none => rw [hR] at hdir; cases hdir
  | some res =>
    cases res with
    | error e => rw [hR] at hdir; cases hdir
    | ok p =>
      obtain ⟨D1, r1⟩ := p
      rw [hR] at hdir hfile
      have hdir2 : navigateLoop P fuel m true (L.length + 1) D1 L = some (.ok (D, r)) :=
        hdir.symm
      have hfile2 : navigateToDir P fuel m path false
          = navigateLoop P fuel m false (L.length + 1) D1 L := hfile
      constructor
      · intro hdot hdotdot
        have hstat : romfs_stat P fuel m path = (fillDir P fuel m D).map Except.ok := by
          by_cases hL : L = []
          · subst hL
            rw [navigateLoop_nil] at hdir2
            simp only [Option.some.injEq, Except.ok.injEq, Prod.mk.injEq] at hdir2
            unfold romfs_stat
            rw [hfile2, navigateLoop_nil, ← hdir2.1]
            simp [romfs_stat_tail]
          · have hc : IsComponent L := ⟨hL, hbytes, hslash⟩
            obtain ⟨k, hk⟩ : ∃ k, L.length = k + 1 :=
              ⟨L.length - 1, by have := List.length_pos.mpr hL; omega⟩
            rw [hk, navigateLoop_last_component P fuel m k D1 L hc hdot hdotdot] at hdir2
            have hsearch : searchForDir fuel m D1 L (strlen L % U32) = some (.ok D) := by
              cases hs : searchForDir fuel m D1 L (strlen L % U32) with
              | none => rw [hs] at hdir2; cases hdir2
              | some res =>
                cases res with
                | error e => rw [hs] at hdir2; cases hdir2
                | ok d =>
                  rw [hs] at hdir2
                  simp only [Option.some.injEq, Except.ok.injEq, Prod.mk.injEq] at hdir2
                  rw [hdir2.1]
            unfold romfs_stat
            rw [hfile2, navigateLoop_last_file P fuel m _ D1 L hL (strchr_eq_none 47 L hslash)]
            simp only [romfs_stat_tail, if_neg hL, hsearch]
        refine ⟨hstat, ?_, ?_⟩
        · intro st hst
          rw [hstat, hst]
          rfl
        · intro ds fs hds hfs hfd hff
          have hnl : dir_nlink P fuel m D
              = some ((2 + ds.length + fs.length) % P.NLINK_MOD) := by
            unfold dir_nlink
            rw [nlinkDirLoop_chain P m ds _ 2 fuel hds hfd]
            exact nlinkFileLoop_chain P m fs _ (2 + ds.length) fuel hfs hff
          rw [hstat]
          simp only [fillDir, hnl]
          rfl
      · intro hL
        have hLne : L ≠ [] := by
          rcases hL with h | h <;> rw [h] <;> simp
        have hstat : romfs_stat P fuel m path = romfs_stat_tail P fuel m (some (.ok (D1, L))) := by
          unfold romfs_stat
          rw [hfile2, navigateLoop_last_file P fuel m _ D1 L hLne (strchr_eq_none 47 L hslash)]
        refine ⟨D1, r1, rfl, hstat, ?_⟩
        intro h1 h2
        rw [hstat]
        simp only [romfs_stat_tail, if_neg hLne, h1, h2]
        simp

/-- The agreement on the sample image: `romfs_stat` of `/sub` and of `/sub/`
returns the metadata of the directory `sub`. -/
theorem stat_agrees_with_directory_resolution_witness :
    romfs_stat newlibPlatform 5 sampleMount [47, 115, 117, 98]
        = (fillDir newlibPlatform 5 sampleMount 24).map Except.ok
      ∧ romfs_stat newlibPlatform 5 sampleMount [47, 115, 117, 98, 47]
        = (fillDir newlibPlatform 5 sampleMount 24).map Except.ok :=
  ⟨((stat_agrees_with_directory_resolution newlibPlatform 5 sampleMount [47, 115, 117, 98]
      0 24 [] [115, 117, 98] [] (by decide) (by decide) (by decide) (by decide) (by decide)
      (by decide)).1 (by decide) (by decide)).1,
   ((stat_agrees_with_directory_resolution newlibPlatform 5 sampleMount
      [47, 115, 117, 98, 47] 0 24 [115, 117, 98, 47] [] [] (by decide) (by decide) (by decide)
      (by decide) (by decide) (by decide)).1 (by decide) (by decide)).1⟩

/-! ## Record pointers near `2^32`, and `..` to a parent that is not valid -/

/-- The accessor at offsets whose record pointer wraps: for the sentinel
`0xFFFFFFFF` on `sentinelParentMount` the first check passes (`off + 24` wraps
to 23), `nameLen` is read at the bytes 19 to 22 of the table (`0xFF000000`)
and the second check rejects the offset; so `/..` fails with `EFAULT` there. -/
theorem romFS_dir_reads_through_wrapped_pointer :
    dir_parent sentinelParentMount 0 = 0xFFFFFFFF
      ∧ dir_nameLen sentinelParentMount 0xFFFFFFFF = 0xFF000000
      ∧ romFS_dir sentinelParentMount 0xFFFFFFFF = none
      ∧ navigateToDir newlibPlatform 5 sentinelParentMount [47, 46, 46] true
          = some (.error Errno.EFAULT)
      ∧ dir_nameLen { sentinelParentMount with dirTableBefore := [0, 0, 0, 1] } (2 ^ 32 - 24)
          = 0x01000000 := by
  decide

/-- C24 (evaluation at the failing input): the root of `badParentMount` has
the parent offset 24, which is not a valid directory offset of the 48-byte
table (`24 + 24 + nameLen` exceeds the table size); yet directory-only
resolution of `/..` does not fail with `EFAULT`: the 32-bit sum in `romFS_dir`
wraps to 0, the offset is accepted and `/..` resolves to it. -/
theorem dotdot_resolves_to_invalid_parent :
    badParentMount.header.dirTableSize = 48
      ∧ navigateToDir newlibPlatform 5 badParentMount [47] true = some (.ok (0, []))
      ∧ dir_parent badParentMount 0 = 24
      ∧ ¬ dirInBounds badParentMount 24
      ∧ romFS_dir badParentMount 24 = some 24
      ∧ navigateToDir newlibPlatform 5 badParentMount [47, 46, 46] true
          = some (.ok (24, [])) := by
  decide

/-! ## `romfs_stat`: the metadata returned -/

end Romfs
